import Mathlib

/-!
# get-exe-icon: extraction of an .ICO container from a module's resources

A shallow embedding of `src/get-exe-icon.c`.

Conventions of the embedding:

* machine integers are natural numbers, reduced explicitly (`u8`, `u16`, `u32`)
  wherever the C type truncates;
* a pointer into mapped, read-only memory is the list of the bytes readable from
  that address on (`Ptr`); a read past the end of that list is an access
  violation and makes the run end in `Result.fault`;
* the output buffer is a list of bytes of the allocated length; a write that does
  not fit into it is a heap overrun and also ends in `Result.fault`;
* multi-byte fields are little-endian and the structures are laid out without
  padding (`#pragma pack(2)`), as on every Windows target;
* the Win32 calls are fields of an environment record (`Module`, `Heap`, `Os`).
-/

set_option autoImplicit false

namespace GetExeIcon

/-! ## Machine integers and memory -/

/-- Truncation to `uint8_t`. -/
def u8 (n : Nat) : Nat := n % 256

/-- Truncation to `uint16_t`. -/
def u16 (n : Nat) : Nat := n % 65536

/-- Truncation to `uint32_t` / `DWORD`. -/
def u32 (n : Nat) : Nat := n % 4294967296

/-- A pointer into mapped memory: the bytes readable from the address on. -/
abbrev Ptr := List Nat

/-- Read of one byte at `p + off`; `none` is an access violation. -/
def load8 (p : Ptr) (off : Nat) : Option Nat :=
  match p[off]? with
  | some a => some (u8 a)
  | none => none

/-- Read of a little-endian `uint16_t` at `p + off`. -/
def load16 (p : Ptr) (off : Nat) : Option Nat :=
  match p[off]?, p[off + 1]? with
  | some a, some b => some (u8 a + 256 * u8 b)
  | _, _ => none

/-- Read of a little-endian `uint32_t` at `p + off`. -/
def load32 (p : Ptr) (off : Nat) : Option Nat :=
  match p[off]?, p[off + 1]?, p[off + 2]?, p[off + 3]? with
  | some a, some b, some c, some d =>
    some (u8 a + 256 * u8 b + 65536 * u8 c + 16777216 * u8 d)
  | _, _, _, _ => none

/-- The two bytes of a `uint16_t`, little-endian. -/
def le16 (n : Nat) : List Nat := [n % 256, n / 256 % 256]

/-- The four bytes of a `uint32_t`, little-endian. -/
def le32 (n : Nat) : List Nat :=
  [n % 256, n / 256 % 256, n / 65536 % 256, n / 16777216 % 256]

/-- The source operand of `memcpy(_, p + off, n)`: `n` bytes read at `p + off`. -/
def readBytes (p : Ptr) (off n : Nat) : Option (List Nat) :=
  if off + n ≤ p.length then some ((p.drop off).take n) else none

/-- The destination side of `memcpy(buf + off, src, |src|)` and of a field store:
the bytes of `src` replace those of `buf` from `off` on; `none` when the range
leaves the allocation. -/
def writeBytes (buf : List Nat) (off : Nat) (src : List Nat) : Option (List Nat) :=
  if off + src.length ≤ buf.length then
    some (buf.take off ++ src ++ buf.drop (off + src.length))
  else none

/-! ## The resource store and the allocator -/

/-- The resource type `RT_ICON`, as `MAKEINTRESOURCE(3)`. -/
def RT_ICON : Nat := 3

/-- The resource type `RT_GROUP_ICON`, as `MAKEINTRESOURCE(RT_ICON + 11)`. -/
def RT_GROUP_ICON : Nat := 14

/-- The macro `MAKEINTRESOURCEA(i)`: the 16-bit id as a resource name. -/
def MAKEINTRESOURCEA (i : Nat) : Nat := u16 i

/-- The size `sizeof(IcoHeader)`. -/
def sizeofIcoHeader : Nat := 6

/-- The size `sizeof(DiskIcoDirEntry)`. -/
def sizeofDiskIcoDirEntry : Nat := 16

/-- The size `sizeof(ResIcoDirEntry)`. -/
def sizeofResIcoDirEntry : Nat := 14

/-- A loaded module, seen through the four resource calls `get_resource` makes.
Resource names and types are the integer values of their `LPCSTR`. -/
structure Module where
  /-- `FindResourceA(module, name, type)`: a resource-info handle, or NULL. -/
  FindResourceA : Nat → Nat → Option Nat
  /-- `SizeofResource(module, resInfo)`. -/
  SizeofResource : Nat → Nat
  /-- `LoadResource(module, resInfo)`: a global handle, or NULL. -/
  LoadResource : Nat → Option Nat
  /-- `LockResource(res)`: the address of the resource data, or NULL. -/
  LockResource : Nat → Option Ptr

/-- The allocator: which sizes `malloc` grants, and the (arbitrary) initial
content of a fresh block. -/
structure Heap where
  mallocOk : Nat → Bool
  garbage : Nat → Nat

/-- A fresh block of `n` uninitialised bytes. -/
def Heap.fresh (h : Heap) (n : Nat) : List Nat := (List.range n).map h.garbage

/-- The function `get_resource(module, name, type, &len)`: the locked pointer and the length
stored through `len`, or `none` for NULL. -/
def get_resource (m : Module) (name type : Nat) : Option (Ptr × Nat) :=
  match m.FindResourceA name type with
  | none => none
  | some resInfo =>
    let dataLen := u32 (m.SizeofResource resInfo)
    if dataLen = 0 then none
    else
      match m.LoadResource resInfo with
      | none => none
      | some res =>
        match m.LockResource res with
        | none => none
        | some p => some (p, dataLen)

/-- The comparison `data[i] == v`. -/
def byteIs (data : Ptr) (i v : Nat) : Option Bool :=
  match load8 data i with
  | some b => some (b == v)
  | none => none

/-- Short-circuit `a && b` over reads that may fault. -/
def andAlso (a : Option Bool) (b : Option Bool) : Option Bool :=
  match a with
  | none => none
  | some false => some false
  | some true => b

/-- The function `is_png(data, len)`. -/
def is_png (data : Ptr) (len : Nat) : Option Bool :=
  if 8 ≤ len then
    andAlso (byteIs data 0 137) (andAlso (byteIs data 1 80) (andAlso (byteIs data 2 78)
      (andAlso (byteIs data 3 71) (andAlso (byteIs data 4 13) (andAlso (byteIs data 5 10)
        (andAlso (byteIs data 6 26) (byteIs data 7 10)))))))
  else some false

/-! ## `extract_ico_from_module` -/

/-- The locals of the first loop: `*bufLen`, `imgs`, `imgDatas`, `imgDataLens`. -/
structure Scan where
  bufLen : Nat
  imgs : Nat
  imgDatas : List (Option Ptr)
  imgDataLens : List Nat

/-- One iteration of the sizing loop (lines 203-223) at index `i`;
`none` is an access violation. -/
def scanStep (m : Module) (header : Ptr) (allowEmbeddedPNGs : Bool) (i : Nat) (s : Scan) :
    Option Scan :=
  match load16 header (sizeofIcoHeader + sizeofResIcoDirEntry * i + 12) with
  | none => none
  | some resId =>
    match get_resource m (MAKEINTRESOURCEA resId) RT_ICON with
    | none => some s
    | some (imgData, imgDataLen) =>
      match (if allowEmbeddedPNGs then some false else is_png imgData imgDataLen) with
      | none => none
      | some true => some s
      | some false =>
        some { bufLen := u32 (u32 (s.bufLen + sizeofDiskIcoDirEntry) + imgDataLen)
               imgs := u16 (s.imgs + 1)
               imgDatas := s.imgDatas.set i (some imgData)
               imgDataLens := s.imgDataLens.set i imgDataLen }

/-- The sizing loop `for (uint16_t i = 0; i < header->count; i++)`, with `n` the
number of iterations still to run (`header->count - i`). -/
def scanLoop (m : Module) (header : Ptr) (allowEmbeddedPNGs : Bool) :
    Nat → Nat → Scan → Option Scan
  | 0, _, s => some s
  | n + 1, i, s =>
    match scanStep m header allowEmbeddedPNGs i s with
    | none => none
    | some s' => scanLoop m header allowEmbeddedPNGs n (u16 (i + 1)) s'

/-- The locals of the builder loop: `i`, `resIdx`, `imgOffset` and the buffer. -/
structure Build where
  i : Nat
  resIdx : Nat
  imgOffset : Nat
  icoBuf : List Nat

/-- Lines 266-283: the directory entry and the payload of the retained slot
`resIdx` are written; `none` is an access violation or a heap overrun. -/
def writeEntry (header : Ptr) (imgData : Ptr) (imgDataLen : Nat) (st : Build) :
    Option Build := do
  let e ← readBytes header (sizeofIcoHeader + sizeofResIcoDirEntry * st.resIdx)
    sizeofResIcoDirEntry
  let b1 ← writeBytes st.icoBuf (sizeofIcoHeader + sizeofDiskIcoDirEntry * st.i) e
  let b2 ← writeBytes b1 (sizeofIcoHeader + sizeofDiskIcoDirEntry * st.i + 12)
    (le32 st.imgOffset)
  let b3 ← writeBytes b2 (sizeofIcoHeader + sizeofDiskIcoDirEntry * st.i + 8)
    (le32 imgDataLen)
  let payload ← readBytes imgData 0 imgDataLen
  let b4 ← writeBytes b3 st.imgOffset payload
  pure { i := st.i, resIdx := st.resIdx, imgOffset := u32 (st.imgOffset + imgDataLen),
         icoBuf := b4 }

/-- How a loop with a step bound ends. -/
inductive Run (α : Type) where
  | done (a : α)
  | fault
  | timeout
  deriving DecidableEq

/-- The builder loop `for (uint16_t i = 0; i < mHeader.count; i++, resIdx++)`
(lines 255-284); `fuel` bounds the number of iterations. -/
def buildLoop (header : Ptr) (count : Nat) (imgDatas : List (Option Ptr))
    (imgDataLens : List Nat) : Nat → Build → Run (List Nat)
  | 0, _ => Run.timeout
  | fuel + 1, st =>
    if st.i < count then
      match imgDatas[st.resIdx]? with
      | none => Run.fault
      | some none =>
        -- i--; continue; then i++, resIdx++
        buildLoop header count imgDatas imgDataLens fuel
          { st with i := u16 (u16 (st.i + 65535) + 1), resIdx := u16 (st.resIdx + 1) }
      | some (some imgData) =>
        match imgDataLens[st.resIdx]? with
        | none => Run.fault
        | some imgDataLen =>
          if imgDataLen = 0 then
            buildLoop header count imgDatas imgDataLens fuel
              { st with i := u16 (u16 (st.i + 65535) + 1), resIdx := u16 (st.resIdx + 1) }
          else
            match writeEntry header imgData imgDataLen st with
            | none => Run.fault
            | some st' =>
              buildLoop header count imgDatas imgDataLens fuel
                { st' with i := u16 (st'.i + 1), resIdx := u16 (st'.resIdx + 1) }
    else Run.done st.icoBuf

/-- What a call of `extract_ico_from_module` comes to. -/
inductive Result where
  /-- The call returns NULL. -/
  | null
  /-- The call returns `icoBuf`, with `*bufLen` as given. -/
  | buffer (icoBuf : List Nat) (bufLen : Nat)
  /-- A read outside the mapped memory or a write outside the allocation. -/
  | fault
  /-- The builder loop did not end within its step bound. -/
  | timeout
  deriving DecidableEq

/-- Lines 238-288, after `malloc` has returned the block `icoBuf`. -/
def build (header : Ptr) (s : Scan) (icoBuf : List Nat) : Result :=
  match readBytes header 0 sizeofIcoHeader with
  | none => Result.fault
  | some h6 =>
    let mHeader := h6.take 4 ++ le16 s.imgs
    match writeBytes icoBuf 0 mHeader with
    | none => Result.fault
    | some b0 =>
      let imgOffset := u32 (sizeofIcoHeader + s.imgs * sizeofDiskIcoDirEntry)
      match buildLoop header s.imgs s.imgDatas s.imgDataLens (s.imgDatas.length + 1)
          { i := 0, resIdx := 0, imgOffset := imgOffset, icoBuf := b0 } with
      | Run.done b => Result.buffer b s.bufLen
      | Run.fault => Result.fault
      | Run.timeout => Result.timeout

/-- Lines 195-223: the scratch arrays are zero-filled, `*bufLen` starts at
`sizeof(IcoHeader)`, and the sizing loop runs `count` times. -/
def scan (m : Module) (header : Ptr) (allowEmbeddedPNGs : Bool) (count : Nat) : Option Scan :=
  scanLoop m header allowEmbeddedPNGs count 0
    { bufLen := sizeofIcoHeader, imgs := 0
      imgDatas := List.replicate count none
      imgDataLens := List.replicate count 0 }

/-- The function `extract_ico_from_module(module, name, allowEmbeddedPNGs, bufLen)`. -/
def extract_ico_from_module (heap : Heap) (m : Module) (name : Nat)
    (allowEmbeddedPNGs : Bool) : Result :=
  match get_resource m name RT_GROUP_ICON with
  | none => Result.null
  | some (header, _) =>
    match load16 header 4 with
    | none => Result.fault
    | some count =>
      match scan m header allowEmbeddedPNGs count with
      | none => Result.fault
      | some s =>
        if s.imgs = 0 then Result.null
        else if heap.mallocOk s.bufLen then build header s (heap.fresh s.bufLen)
        else Result.null

/-! ## The entry points -/

/-- The two system modules `get_default_exe_icon` names. -/
inductive SystemDll where
  | imageres
  | shell32
  deriving DecidableEq

/-- The Win32 calls an entry point makes, in the order it makes them. -/
inductive Call where
  | LoadLibraryExW (path : List Nat)
  | LoadLibraryExA (dll : SystemDll)
  | EnumResourceNamesA (hModule : Nat)
  | GetLastError
  | FreeLibrary (hModule : Nat)
  | MultiByteToWideChar (path : List Nat)
  | QueryFullProcessImageNameW (process : Nat)
  | OpenProcess (pid : Nat)
  | CloseHandle (handle : Nat)
  deriving DecidableEq

/-- How a call of `EnumResourceNamesA` with `enum_group_icons_callback` goes: the
name handed to the callback if the callback is entered (it always stops the
enumeration), the value the call returns, and `GetLastError()` afterwards. -/
structure EnumOutcome where
  callback : Option Nat
  ret : Bool
  lastError : Nat

/-- The process environment of the entry points. Paths are sequences of code
units; handles are their integer values, with 0 for NULL. -/
structure Os where
  heap : Heap
  LoadLibraryExW : List Nat → Option Nat
  LoadLibraryExA : SystemDll → Option Nat
  /-- The resources of a loaded module. -/
  resources : Nat → Module
  EnumResourceNamesA : Nat → Nat → EnumOutcome
  /-- `MultiByteToWideChar(CP_UTF8, 0, path, -1, NULL, 0)`. -/
  MultiByteToWideCharSize : List Nat → Int
  /-- `MultiByteToWideChar(CP_UTF8, 0, path, -1, wPath, pathBufLen)`: the value
  returned and the converted path. -/
  MultiByteToWideCharConv : List Nat → Int → Int × List Nat
  QueryFullProcessImageNameW : Nat → Option (List Nat)
  OpenProcess : Nat → Option Nat

/-- The run did not come back from `extract_ico_from_module`. -/
def Result.aborts : Result → Bool
  | Result.fault => true
  | Result.timeout => true
  | _ => false

/-- The entry point `get_exe_icon_from_file_utf16(path, allowEmbeddedPNGs, bufLen)`: the value
returned and the calls made. `path` is `none` for NULL, `bufLen` is `false` for
NULL. -/
def get_exe_icon_from_file_utf16 (os : Os) (path : Option (List Nat))
    (allowEmbeddedPNGs : Bool) (bufLen : Bool) : Result × List Call :=
  match path, bufLen with
  | none, _ => (Result.null, [])
  | some _, false => (Result.null, [])
  | some p, true =>
    match os.LoadLibraryExW p with
    | none => (Result.null, [Call.LoadLibraryExW p])
    | some hModule =>
      let e := os.EnumResourceNamesA hModule RT_GROUP_ICON
      let icoBuf :=
        match e.callback with
        | some name =>
          extract_ico_from_module os.heap (os.resources hModule) name allowEmbeddedPNGs
        | none => Result.null
      if icoBuf.aborts then
        (icoBuf, [Call.LoadLibraryExW p, Call.EnumResourceNamesA hModule])
      else if e.ret then
        (icoBuf, [Call.LoadLibraryExW p, Call.EnumResourceNamesA hModule,
          Call.FreeLibrary hModule])
      else if e.lastError ≠ 15106 then
        (Result.null, [Call.LoadLibraryExW p, Call.EnumResourceNamesA hModule,
          Call.GetLastError])
      else
        (icoBuf, [Call.LoadLibraryExW p, Call.EnumResourceNamesA hModule,
          Call.GetLastError, Call.FreeLibrary hModule])

/-- The entry point `get_exe_icon_from_file_utf8(path, allowEmbeddedPNGs, bufLen)`. -/
def get_exe_icon_from_file_utf8 (os : Os) (path : Option (List Nat))
    (allowEmbeddedPNGs : Bool) (bufLen : Bool) : Result × List Call :=
  match path, bufLen with
  | none, _ => (Result.null, [])
  | some _, false => (Result.null, [])
  | some p, true =>
    let pathBufLen := os.MultiByteToWideCharSize p
    if pathBufLen ≤ 0 then (Result.null, [Call.MultiByteToWideChar p])
    else
      let conv := os.MultiByteToWideCharConv p pathBufLen
      if conv.1 ≤ 0 then
        (Result.null, [Call.MultiByteToWideChar p, Call.MultiByteToWideChar p])
      else
        let r := get_exe_icon_from_file_utf16 os (some conv.2) allowEmbeddedPNGs true
        (r.1, [Call.MultiByteToWideChar p, Call.MultiByteToWideChar p] ++ r.2)

/-- The entry point `get_exe_icon_from_handle(process, allowEmbeddedPNGs, bufLen)`. -/
def get_exe_icon_from_handle (os : Os) (process : Nat) (allowEmbeddedPNGs : Bool)
    (bufLen : Bool) : Result × List Call :=
  if process = 0 ∨ bufLen = false then (Result.null, [])
  else
    match os.QueryFullProcessImageNameW process with
    | none => (Result.null, [Call.QueryFullProcessImageNameW process])
    | some exeNameBuf =>
      let r := get_exe_icon_from_file_utf16 os (some exeNameBuf) allowEmbeddedPNGs bufLen
      (r.1, Call.QueryFullProcessImageNameW process :: r.2)

/-- The entry point `get_exe_icon_from_pid(pid, allowEmbeddedPNGs, bufLen)`. -/
def get_exe_icon_from_pid (os : Os) (pid : Nat) (allowEmbeddedPNGs : Bool)
    (bufLen : Bool) : Result × List Call :=
  if bufLen = false then (Result.null, [])
  else
    match os.OpenProcess pid with
    | none => (Result.null, [Call.OpenProcess pid])
    | some process =>
      let r := get_exe_icon_from_handle os process allowEmbeddedPNGs bufLen
      if r.1.aborts then (r.1, Call.OpenProcess pid :: r.2)
      else (r.1, Call.OpenProcess pid :: r.2 ++ [Call.CloseHandle process])

/-- The tail of `get_default_exe_icon` for one loaded candidate: extraction of the
descriptor `id`, then `FreeLibrary`. -/
def extractAndFree (os : Os) (hModule : Nat) (id : Nat) (allowEmbeddedPNGs : Bool)
    (before : List Call) : Result × List Call :=
  let icoBuf :=
    extract_ico_from_module os.heap (os.resources hModule) (MAKEINTRESOURCEA id)
      allowEmbeddedPNGs
  if icoBuf.aborts then (icoBuf, before) else (icoBuf, before ++ [Call.FreeLibrary hModule])

/-- The entry point `get_default_exe_icon(allowEmbeddedPNGs, bufLen)`. -/
def get_default_exe_icon (os : Os) (allowEmbeddedPNGs : Bool) (bufLen : Bool) :
    Result × List Call :=
  if bufLen = false then (Result.null, [])
  else
    match os.LoadLibraryExA SystemDll.imageres with
    | some hModule =>
      extractAndFree os hModule 15 allowEmbeddedPNGs [Call.LoadLibraryExA SystemDll.imageres]
    | none =>
      match os.LoadLibraryExA SystemDll.shell32 with
      | some hModule =>
        extractAndFree os hModule 3 allowEmbeddedPNGs
          [Call.LoadLibraryExA SystemDll.imageres, Call.LoadLibraryExA SystemDll.shell32]
      | none =>
        (Result.null,
          [Call.LoadLibraryExA SystemDll.imageres, Call.LoadLibraryExA SystemDll.shell32])

/-! ## The builder with its stores recorded -/

/-- A store into the output block: the offset it starts at and the bytes it puts
there. -/
structure Store where
  off : Nat
  bytes : List Nat
  deriving DecidableEq

/-- The function `writeBytes` once more, handing back beside the new block the
store it made: the offset and the bytes it was called with. -/
def writeBytesLog (buf : List Nat) (off : Nat) (src : List Nat) :
    Option (List Nat × Store) :=
  match writeBytes buf off src with
  | some b => some (b, { off := off, bytes := src })
  | none => none

/-- The function `writeEntry` once more, each `writeBytes` replaced by
`writeBytesLog`: the new locals and the four stores made, in order (the copy of
the in-module entry, the store of `offset`, the store of `sizeBytes`, the copy of
the payload). -/
def writeEntryLog (header : Ptr) (imgData : Ptr) (imgDataLen : Nat) (st : Build) :
    Option (Build × List Store) := do
  let e ← readBytes header (sizeofIcoHeader + sizeofResIcoDirEntry * st.resIdx)
    sizeofResIcoDirEntry
  let w1 ← writeBytesLog st.icoBuf (sizeofIcoHeader + sizeofDiskIcoDirEntry * st.i) e
  let w2 ← writeBytesLog w1.1 (sizeofIcoHeader + sizeofDiskIcoDirEntry * st.i + 12)
    (le32 st.imgOffset)
  let w3 ← writeBytesLog w2.1 (sizeofIcoHeader + sizeofDiskIcoDirEntry * st.i + 8)
    (le32 imgDataLen)
  let payload ← readBytes imgData 0 imgDataLen
  let w4 ← writeBytesLog w3.1 st.imgOffset payload
  pure ({ i := st.i, resIdx := st.resIdx, imgOffset := u32 (st.imgOffset + imgDataLen),
          icoBuf := w4.1 }, [w1.2, w2.2, w3.2, w4.2])

/-- The stores `ws` were made before those of the run. -/
def prependLog (ws : List Store) : Run (Build × List Store) → Run (Build × List Store)
  | Run.done r => Run.done (r.1, ws ++ r.2)
  | Run.fault => Run.fault
  | Run.timeout => Run.timeout

/-- The builder loop of `buildLoop` once more, `writeEntry` replaced by
`writeEntryLog`: a run that reaches the loop's end gives the locals it ends with
and all the stores it made, in order. -/
def buildLoopLog (header : Ptr) (count : Nat) (imgDatas : List (Option Ptr))
    (imgDataLens : List Nat) : Nat → Build → Run (Build × List Store)
  | 0, _ => Run.timeout
  | fuel + 1, st =>
    if st.i < count then
      match imgDatas[st.resIdx]? with
      | none => Run.fault
      | some none =>
        buildLoopLog header count imgDatas imgDataLens fuel
          { st with i := u16 (u16 (st.i + 65535) + 1), resIdx := u16 (st.resIdx + 1) }
      | some (some imgData) =>
        match imgDataLens[st.resIdx]? with
        | none => Run.fault
        | some imgDataLen =>
          if imgDataLen = 0 then
            buildLoopLog header count imgDatas imgDataLens fuel
              { st with i := u16 (u16 (st.i + 65535) + 1), resIdx := u16 (st.resIdx + 1) }
          else
            match writeEntryLog header imgData imgDataLen st with
            | none => Run.fault
            | some r =>
              prependLog r.2
                (buildLoopLog header count imgDatas imgDataLens fuel
                  { r.1 with i := u16 (r.1.i + 1), resIdx := u16 (r.1.resIdx + 1) })
    else Run.done (st, [])

/-- The builder of `build` once more (lines 238-288), the store of the header and
the loop's stores recorded. -/
def buildLog (header : Ptr) (s : Scan) (icoBuf : List Nat) : Run (Build × List Store) :=
  match readBytes header 0 sizeofIcoHeader with
  | none => Run.fault
  | some h6 =>
    let mHeader := h6.take 4 ++ le16 s.imgs
    match writeBytesLog icoBuf 0 mHeader with
    | none => Run.fault
    | some w0 =>
      let imgOffset := u32 (sizeofIcoHeader + s.imgs * sizeofDiskIcoDirEntry)
      prependLog [w0.2]
        (buildLoopLog header s.imgs s.imgDatas s.imgDataLens (s.imgDatas.length + 1)
          { i := 0, resIdx := 0, imgOffset := imgOffset, icoBuf := w0.1 })

/-- The result `build` makes of the way the recorded builder ends. -/
def resultOfLog (bufLen : Nat) : Run (Build × List Store) → Result
  | Run.done r => Result.buffer r.1.icoBuf bufLen
  | Run.fault => Result.fault
  | Run.timeout => Result.timeout

/-- The block alone of the way the recorded builder loop ends. -/
def eraseLog : Run (Build × List Store) → Run (List Nat)
  | Run.done r => Run.done r.1.icoBuf
  | Run.fault => Run.fault
  | Run.timeout => Run.timeout

/-- The stores made one after the other on the block `buf`, by `writeBytes`. -/
def applyStores : List Store → List Nat → Option (List Nat)
  | [], buf => some buf
  | w :: rest, buf =>
    match writeBytes buf w.off w.bytes with
    | some b => applyStores rest b
    | none => none

/-! ## Specification-side definitions -/

/-- A retained slot: index in the descriptor, payload pointer, payload length. -/
structure Slot where
  resIdx : Nat
  data : Ptr
  len : Nat

/-- The 16 bytes of an on-disk directory entry: the first eight bytes of the
in-module entry, then the payload length and the payload offset. -/
def entryBytes (header : Ptr) (e : Slot) (off : Nat) : List Nat :=
  (header.drop (sizeofIcoHeader + sizeofResIcoDirEntry * e.resIdx)).take 8
    ++ (le32 e.len ++ le32 off)

/-- The sum of the payload lengths of the slots. -/
def sumLens : List Slot → Nat
  | [] => 0
  | e :: rest => e.len + sumLens rest

/-- The on-disk directory for the slots, the first payload lying at `off`. -/
def dirBytes (header : Ptr) : List Slot → Nat → List Nat
  | [], _ => []
  | e :: rest, off => entryBytes header e off ++ dirBytes header rest (off + e.len)

/-- The payloads of the slots, one after the other. -/
def payloadBytes : List Slot → List Nat
  | [] => []
  | e :: rest => e.data.take e.len ++ payloadBytes rest

/-- The builder loop seen as a walk over the retained slots only: entry `i` and its
payload at `off` are written for each slot in turn. -/
def layoutFrom (header : Ptr) : List Slot → Nat → Nat → List Nat → Option (List Nat)
  | [], _, _, buf => some buf
  | e :: rest, i, off, buf =>
    match writeEntry header e.data e.len
        { i := i, resIdx := e.resIdx, imgOffset := off, icoBuf := buf } with
    | none => none
    | some st => layoutFrom header rest (i + 1) st.imgOffset st.icoBuf

/-- The reads of a slot stay inside the mapped memory. -/
def Readable (header : Ptr) (e : Slot) : Prop :=
  6 + 14 * e.resIdx + 14 ≤ header.length ∧ e.len ≤ e.data.length

/-- The slot the sizing loop retains at index `i`, if any. -/
def kept (m : Module) (header : Ptr) (allow : Bool) (i : Nat) : Option Slot :=
  match load16 header (6 + 14 * i + 12) with
  | none => none
  | some resId =>
    match get_resource m (MAKEINTRESOURCEA resId) RT_ICON with
    | none => none
    | some (d, l) =>
      if allow then some ⟨i, d, l⟩
      else
        match is_png d l with
        | some false => some ⟨i, d, l⟩
        | _ => none

/-- Iteration `i` of the sizing loop makes no read outside the mapped memory. -/
def scanDefined (m : Module) (header : Ptr) (allow : Bool) (i : Nat) : Bool :=
  match load16 header (6 + 14 * i + 12) with
  | none => false
  | some resId =>
    match get_resource m (MAKEINTRESOURCEA resId) RT_ICON with
    | none => true
    | some (d, l) => allow || (is_png d l).isSome

/-- The effect of one sizing iteration on the locals, given what it retains. -/
def applyKept (o : Option Slot) (i : Nat) (s : Scan) : Scan :=
  match o with
  | none => s
  | some e =>
    { bufLen := u32 (u32 (s.bufLen + 16) + e.len)
      imgs := u16 (s.imgs + 1)
      imgDatas := s.imgDatas.set i (some e.data)
      imgDataLens := s.imgDataLens.set i e.len }

/-- The retained slots among the `n` indices from `i` on, in order. -/
def keptList (m : Module) (header : Ptr) (allow : Bool) : Nat → Nat → List Slot
  | 0, _ => []
  | n + 1, i =>
    match kept m header allow i with
    | some e => e :: keptList m header allow n (i + 1)
    | none => keptList m header allow n (i + 1)

/-- All of the `n` sizing iterations from `i` on are free of bad reads. -/
def allDefined (m : Module) (header : Ptr) (allow : Bool) : Nat → Nat → Bool
  | 0, _ => true
  | n + 1, i => scanDefined m header allow i && allDefined m header allow n (i + 1)

/-- The locals after the `n` sizing iterations from `i` on. -/
def scanRun (m : Module) (header : Ptr) (allow : Bool) : Nat → Nat → Scan → Scan
  | 0, _, s => s
  | n + 1, i, s => scanRun m header allow n (i + 1) (applyKept (kept m header allow i) i s)

/-- The scratch arrays hold exactly what the sizing loop retained. -/
def SlotsOk (m : Module) (header : Ptr) (allow : Bool) (count : Nat)
    (imgDatas : List (Option Ptr)) (imgDataLens : List Nat) : Prop :=
  imgDatas.length = count ∧ imgDataLens.length = count ∧
  ∀ j, j < count →
    imgDatas[j]? = some ((kept m header allow j).map Slot.data) ∧
    imgDataLens[j]? = some (match kept m header allow j with
                            | some e => e.len
                            | none => 0)

/-- The container the builder is to produce for the retained slots `R`. -/
def serialize (header : Ptr) (R : List Slot) : List Nat :=
  header.take 4 ++ (le16 R.length ++ (dirBytes header R (6 + 16 * R.length) ++ payloadBytes R))

/-- The exact size of the container for the retained slots `R`. -/
def totalSize (R : List Slot) : Nat := 6 + 16 * R.length + sumLens R

/-- Every payload read of the builder stays inside the mapped memory. -/
def payloadsMapped (R : List Slot) : Bool := R.all (fun e => decide (e.len ≤ e.data.length))

/-- What `extract_ico_from_module` comes to once the descriptor is located at
`header` with declared count `count`, in terms of the retained slots. -/
def extractSpec (heap : Heap) (m : Module) (header : Ptr) (allow : Bool) (count : Nat) :
    Result :=
  if allDefined m header allow count 0 then
    if (keptList m header allow count 0).length = 0 then Result.null
    else if heap.mallocOk (u32 (totalSize (keptList m header allow count 0))) then
      if totalSize (keptList m header allow count 0) < 4294967296 ∧
          payloadsMapped (keptList m header allow count 0) = true then
        Result.buffer (serialize header (keptList m header allow count 0))
          (totalSize (keptList m header allow count 0))
      else Result.fault
    else Result.null
  else Result.fault

/-! ## Vocabulary of the specification -/

/-- The image lookup of the descriptor's entry `i`: its resource id is read and
the `RT_ICON` resource of that id is fetched. -/
def lookup (m : Module) (header : Ptr) (i : Nat) : Option (Ptr × Nat) :=
  match load16 header (6 + 14 * i + 12) with
  | none => none
  | some resId => get_resource m (MAKEINTRESOURCEA resId) RT_ICON

/-- The payload is at least eight bytes long and starts with the PNG signature
137, 80, 78, 71, 13, 10, 26, 10. -/
def pngSigned (payload : List Nat) : Bool :=
  decide (8 ≤ payload.length) &&
    ((payload.take 8).map u8 == [137, 80, 78, 71, 13, 10, 26, 10])

/-- The entry `i` is one the specification calls retained: its image lookup succeeds and
either PNGs are allowed or the payload is not PNG-signed. -/
def retains (m : Module) (header : Ptr) (allow : Bool) (i : Nat) : Bool :=
  match lookup m header i with
  | none => false
  | some (d, l) => allow || !pngSigned (d.take l)

/-- Every resource the store hands out is mapped in full: the `len` bytes
reported for it are readable at the returned pointer. -/
def Module.Mapped (m : Module) : Prop :=
  ∀ name type d l, get_resource m name type = some (d, l) → l ≤ d.length

/-- The descriptor named `name`, when found, has its header and all the entries
it declares in readable memory. -/
def DescriptorMapped (m : Module) (name : Nat) : Prop :=
  ∀ header glen, get_resource m name RT_GROUP_ICON = some (header, glen) →
    ∃ count, load16 header 4 = some count ∧ 6 + 14 * count ≤ header.length

/-! ## Regions of the output buffer -/

/-- The byte `x` lies in the region, given as (start, length). -/
def covers (r : Nat × Nat) (x : Nat) : Bool := decide (r.1 ≤ x) && decide (x < r.1 + r.2)

/-- The number of regions the byte `x` lies in. -/
def hits (regions : List (Nat × Nat)) (x : Nat) : Nat :=
  (regions.filter (fun r => covers r x)).length

/-- The bytes a store touches, as (start, length). -/
def Store.region (w : Store) : Nat × Nat := (w.off, w.bytes.length)

/-- The stores of a run of the builder loop, grouped by what they fill: for each
iteration that writes, the three stores into the directory entry, then the copy
of the payload. -/
def entryGroups : List Store → List (List Store)
  | w1 :: w2 :: w3 :: w4 :: rest => [w1, w2, w3] :: [w4] :: entryGroups rest
  | _ => []

/-- The stores of a run of the builder, grouped by what they fill: the header
first, then the groups of the loop. -/
def groups : List Store → List (List Store)
  | [] => []
  | w0 :: rest => [w0] :: entryGroups rest

/-- The first byte any store of the group touches. -/
def spanLo : List Store → Nat
  | [] => 0
  | [w] => w.off
  | w :: rest => min w.off (spanLo rest)

/-- The end of the last byte any store of the group touches. -/
def spanHi : List Store → Nat
  | [] => 0
  | w :: rest => max (w.off + w.bytes.length) (spanHi rest)

/-- The region of a group of stores: the least range that holds them all, as
(start, length). -/
def span (g : List Store) : Nat × Nat := (spanLo g, spanHi g - spanLo g)

/-- Some store of the group touches the byte `x`. -/
def fills (g : List Store) (x : Nat) : Bool := g.any (fun w => covers w.region x)

/-- The regions of the directory entries and payloads of the slots, entry `i`
first and the first payload at `off`. -/
def slotRegions : List Slot → Nat → Nat → List (Nat × Nat)
  | [], _, _ => []
  | e :: rest, i, off =>
    (6 + 16 * i, 16) :: (off, e.len) :: slotRegions rest (i + 1) (off + e.len)

/-- The stores the builder loop is to make for the slots, entry `i` first and the
first payload at `off`: per slot the fourteen bytes of the in-module entry at
`6 + 16 * i`, the offset at `+ 12`, the length at `+ 8`, the payload at `off`. -/
def slotStores (header : Ptr) : List Slot → Nat → Nat → List Store
  | [], _, _ => []
  | e :: rest, i, off =>
    { off := 6 + 16 * i, bytes := (header.drop (6 + 14 * e.resIdx)).take 14 } ::
    { off := 6 + 16 * i + 12, bytes := le32 off } ::
    { off := 6 + 16 * i + 8, bytes := le32 e.len } ::
    { off := off, bytes := e.data.take e.len } ::
      slotStores header rest (i + 1) (off + e.len)

/-! ## Icon containers and their split into resources -/

/-- One image of an icon container: the eight leading bytes of its directory
entry (width, height, colorCount, reserved, planes, bitCount) and its payload. -/
structure IcoImage where
  fields : List Nat
  payload : List Nat

/-- An icon container whose payloads lie one after the other, in directory order,
right behind the directory: the first four header bytes (reserved, type) and the
images. -/
structure IcoFile where
  head : List Nat
  images : List IcoImage

/-- The on-disk directory of the images, the first payload lying at `off`; each
size field is the payload's length. -/
def diskDir : List IcoImage → Nat → List Nat
  | [], _ => []
  | img :: rest, off =>
    (img.fields ++ (le32 img.payload.length ++ le32 off))
      ++ diskDir rest (off + img.payload.length)

/-- The payloads of the images, one after the other. -/
def payloadsOf : List IcoImage → List Nat
  | [] => []
  | img :: rest => img.payload ++ payloadsOf rest

/-- The bytes of the container file. -/
def IcoFile.bytes (f : IcoFile) : List Nat :=
  f.head ++ (le16 f.images.length
    ++ (diskDir f.images (6 + 16 * f.images.length) ++ payloadsOf f.images))

/-- The in-module directory of the images from index `i` on: each entry keeps its
fields and size and gets the resource id `idOf` of its index in place of the
offset. -/
def resDir (idOf : Nat → Nat) : List IcoImage → Nat → List Nat
  | [], _ => []
  | img :: rest, i =>
    (img.fields ++ (le32 img.payload.length ++ le16 (idOf i))) ++ resDir idOf rest (i + 1)

/-- The group descriptor of the container: the same header, then the in-module
directory. -/
def IcoFile.descriptor (f : IcoFile) (idOf : Nat → Nat) : List Nat :=
  f.head ++ (le16 f.images.length ++ resDir idOf f.images 0)

/-- The module a resource compiler makes of the container: the group descriptor
under the name `gname`, and image `i` as the `RT_ICON` resource `idOf i`. The
resource-info handle is 0 for the descriptor and `i + 1` for image `i`. -/
def IcoFile.toModule (f : IcoFile) (gname : Nat) (idOf : Nat → Nat) : Module where
  FindResourceA := fun name type =>
    if type = RT_GROUP_ICON then (if name = gname then some 0 else none)
    else if type = RT_ICON then
      match (List.range f.images.length).find? (fun i => idOf i == name) with
      | some i => some (i + 1)
      | none => none
    else none
  SizeofResource := fun h =>
    if h = 0 then (f.descriptor idOf).length
    else
      match f.images[h - 1]? with
      | some img => img.payload.length
      | none => 0
  LoadResource := fun h => some h
  LockResource := fun h =>
    if h = 0 then some (f.descriptor idOf)
    else
      match f.images[h - 1]? with
      | some img => some img.payload
      | none => none

/-- The container is well formed: a four-byte header start, between 1 and 65535
images, eight field bytes and a non-empty payload for each image, and a file
size that 32-bit offsets can address. -/
def IcoFile.WellFormed (f : IcoFile) : Prop :=
  f.head.length = 4 ∧ f.images ≠ [] ∧ f.images.length < 65536 ∧
  (∀ img ∈ f.images, img.fields.length = 8 ∧ 0 < img.payload.length) ∧
  f.bytes.length < 4294967296

/-- The slots the images give rise to, numbered from `i` on. -/
def slotsOf : List IcoImage → Nat → List Slot
  | [], _ => []
  | img :: rest, i => ⟨i, img.payload, img.payload.length⟩ :: slotsOf rest (i + 1)

/-! ## Sample modules -/

/-- A descriptor declaring three entries (16x16 with id 1 and recorded size 2088,
32x32 with id 2, 48x48 with id 7). -/
def sampleDescriptor : Ptr :=
  [0, 0, 1, 0, 3, 0,
   16, 16, 0, 0, 1, 0, 32, 0, 40, 8, 0, 0, 1, 0,
   32, 32, 0, 0, 1, 0, 32, 0, 9, 0, 0, 0, 2, 0,
   48, 48, 0, 0, 1, 0, 32, 0, 5, 0, 0, 0, 7, 0]

/-- A payload that starts with the PNG signature. -/
def samplePng : Ptr := [137, 80, 78, 71, 13, 10, 26, 10, 99]

/-- A module holding `sampleDescriptor` under the name 1, a three-byte bitmap
payload under the icon id 1, `samplePng` under the icon id 2, and no icon 7. -/
def sampleModule : Module where
  FindResourceA := fun name type =>
    if type = 14 ∧ name = 1 then some 100
    else if type = 3 ∧ name = 1 then some 1
    else if type = 3 ∧ name = 2 then some 2
    else none
  SizeofResource := fun h =>
    if h = 100 then 48 else if h = 1 then 3 else if h = 2 then 9 else 0
  LoadResource := fun h => some h
  LockResource := fun h =>
    if h = 100 then some sampleDescriptor
    else if h = 1 then some [7, 8, 9]
    else if h = 2 then some samplePng
    else none

/-- An allocator that grants every request and hands out blocks filled with 255. -/
def sampleHeap : Heap := ⟨fun _ => true, fun _ => 255⟩

/-- The container extracted from `sampleModule` without embedded PNGs. -/
def sampleContainer : List Nat :=
  [0, 0, 1, 0, 1, 0,
   16, 16, 0, 0, 1, 0, 32, 0, 3, 0, 0, 0, 22, 0, 0, 0,
   7, 8, 9]

/-- The container extracted from `sampleModule` with embedded PNGs. -/
def sampleContainerPng : List Nat :=
  [0, 0, 1, 0, 2, 0,
   16, 16, 0, 0, 1, 0, 32, 0, 3, 0, 0, 0, 38, 0, 0, 0,
   32, 32, 0, 0, 1, 0, 32, 0, 9, 0, 0, 0, 41, 0, 0, 0,
   7, 8, 9,
   137, 80, 78, 71, 13, 10, 26, 10, 99]

/-- Mapped memory at the address of a descriptor whose resource is six bytes long:
the header declares one entry, and the fourteen bytes that follow the resource
in the image read as an entry with icon id 1. -/
def shortDescriptor : Ptr :=
  [0, 0, 1, 0, 1, 0,
   16, 16, 0, 0, 1, 0, 32, 0, 3, 0, 0, 0, 1, 0]

/-- A module whose group descriptor 1 lies at `shortDescriptor` and is reported
`glen` bytes long, with a three-byte icon 1. -/
def moduleWithLen (glen : Nat) : Module where
  FindResourceA := fun name type =>
    if type = 14 ∧ name = 1 then some 100
    else if type = 3 ∧ name = 1 then some 1
    else none
  SizeofResource := fun h => if h = 100 then glen else if h = 1 then 3 else 0
  LoadResource := fun h => some h
  LockResource := fun h =>
    if h = 100 then some shortDescriptor
    else if h = 1 then some [7, 8, 9]
    else none

/-- A two-image container: a 16x16 bitmap of three bytes and a 32x32 PNG. -/
def sampleIco : IcoFile where
  head := [0, 0, 1, 0]
  images := [⟨[16, 16, 0, 0, 1, 0, 32, 0], [7, 8, 9]⟩,
             ⟨[32, 32, 0, 0, 1, 0, 32, 0], samplePng⟩]

/-- A module without resources. -/
def emptyModule : Module where
  FindResourceA := fun _ _ => none
  SizeofResource := fun _ => 0
  LoadResource := fun _ => none
  LockResource := fun _ => none

/-- The locals the sizing loop leaves for `sampleModule` with embedded PNGs. -/
def sampleScan : Scan where
  bufLen := 50
  imgs := 2
  imgDatas := [some [7, 8, 9], some samplePng, none]
  imgDataLens := [3, 9, 0]

/-- A process environment in which both system modules load: `imageres.dll`
(handle 1) has no resources, `shell32.dll` (handle 2) holds `sampleIco` under the
descriptor id 3. The file of path `[100]` opens (handle 7) and has no
`RT_GROUP_ICON` resource, so that the enumeration fails with the error 1813. -/
def sampleOs : Os where
  heap := sampleHeap
  LoadLibraryExW := fun p => if p = [100] then some 7 else none
  LoadLibraryExA := fun dll =>
    match dll with
    | SystemDll.imageres => some 1
    | SystemDll.shell32 => some 2
  resources := fun h => if h = 2 then sampleIco.toModule 3 (fun i => i + 1) else emptyModule
  EnumResourceNamesA := fun _ _ => ⟨none, false, 1813⟩
  MultiByteToWideCharSize := fun _ => 0
  MultiByteToWideCharConv := fun _ _ => (0, [])
  QueryFullProcessImageNameW := fun _ => none
  OpenProcess := fun _ => none

/-- An in-module entry of a 256x256 image that records 268435456 bytes and the
icon id 1. -/
def wrapEntry : List Nat := [0, 0, 0, 0, 1, 0, 32, 0, 0, 0, 0, 16, 1, 0]

/-- A descriptor that declares sixteen entries, all `wrapEntry`. -/
def wrapDescriptor : Ptr := [0, 0, 1, 0, 16, 0] ++ (List.replicate 16 wrapEntry).flatten

/-- A module with `wrapDescriptor` under the name 1 and one icon, of id 1 and of
268435456 bytes. -/
def wrapModule : Module where
  FindResourceA := fun name type =>
    if type = 14 ∧ name = 1 then some 100
    else if type = 3 ∧ name = 1 then some 1
    else none
  SizeofResource := fun h => if h = 100 then 230 else if h = 1 then 268435456 else 0
  LoadResource := fun h => some h
  LockResource := fun h =>
    if h = 100 then some wrapDescriptor
    else if h = 1 then some (List.replicate 268435456 0)
    else none

/-! ## Memory lemmas and the refinement of the two loops -/

theorem writeBytes_mid (P Q S src : List Nat) (h : src.length = Q.length) :
    writeBytes (P ++ (Q ++ S)) P.length src = some (P ++ (src ++ S)) := by
  unfold writeBytes
  have h1 : P.length + src.length ≤ (P ++ (Q ++ S)).length := by
    simp only [List.length_append]; omega
  rw [if_pos h1]
  have h2 : List.take P.length (P ++ (Q ++ S)) = P := by simp
  have h3 : List.drop (P.length + src.length) (P ++ (Q ++ S)) = S := by
    rw [h, ← List.append_assoc, ← List.length_append]
    simp
  rw [h2, h3, List.append_assoc]

theorem writeBytes_at {buf : List Nat} (P Q S src : List Nat) {off : Nat}
    (hb : buf = P ++ (Q ++ S)) (ho : off = P.length) (hl : src.length = Q.length) :
    writeBytes buf off src = some (P ++ (src ++ S)) := by
  subst hb; subst ho
  exact writeBytes_mid P Q S src hl

theorem readBytes_eq {p : List Nat} {off n : Nat} (h : off + n ≤ p.length) :
    readBytes p off n = some ((p.drop off).take n) := by
  unfold readBytes
  rw [if_pos h]

theorem le32_length (n : Nat) : (le32 n).length = 4 := rfl

theorem le16_length (n : Nat) : (le16 n).length = 2 := rfl

theorem entryBytes_length (header : Ptr) (e : Slot) (off : Nat)
    (h : sizeofIcoHeader + sizeofResIcoDirEntry * e.resIdx + 14 ≤ header.length) :
    (entryBytes header e off).length = 16 := by
  unfold entryBytes
  simp only [sizeofIcoHeader, sizeofResIcoDirEntry] at *
  simp only [List.length_append, List.length_take, List.length_drop, le32_length]
  omega

theorem writeEntry_mid (header : Ptr) (e : Slot) (i off : Nat) (A X0 T1 Y0 T2 : List Nat)
    (hA : A.length = sizeofIcoHeader + sizeofDiskIcoDirEntry * i) (hX : X0.length = 16)
    (hoff : A.length + 16 + T1.length = off) (hY : Y0.length = e.len)
    (hh : sizeofIcoHeader + sizeofResIcoDirEntry * e.resIdx + 14 ≤ header.length)
    (hd : e.len ≤ e.data.length) :
    writeEntry header e.data e.len
        { i := i, resIdx := e.resIdx, imgOffset := off,
          icoBuf := A ++ (X0 ++ (T1 ++ (Y0 ++ T2))) }
      = some { i := i, resIdx := e.resIdx, imgOffset := u32 (off + e.len),
               icoBuf := A ++ (entryBytes header e off ++ (T1 ++ (e.data.take e.len ++ T2))) } := by
  simp only [sizeofIcoHeader, sizeofDiskIcoDirEntry, sizeofResIcoDirEntry] at *
  set H := header.drop (6 + 14 * e.resIdx) with hH
  have hHlen : 14 ≤ H.length := by rw [hH, List.length_drop]; omega
  set rest := T1 ++ (Y0 ++ T2) with hrest
  have e_split : H.take 14 = H.take 8 ++ ((H.drop 8).take 4 ++ (H.drop 12).take 2) := by
    apply List.ext_getElem?
    intro a
    simp only [List.getElem?_append, List.getElem?_take, List.getElem?_drop, List.length_take,
      List.length_drop]
    split_ifs <;> first | rfl | omega | (congr 1; omega)
  have r0 : readBytes header (6 + 14 * e.resIdx) 14 = some (H.take 14) := by
    rw [readBytes_eq (by omega)]
  have w1 : writeBytes (A ++ (X0 ++ rest)) (6 + 16 * i)
      (H.take 14) = some (A ++ (H.take 14 ++ (X0.drop 14 ++ rest))) := by
    apply writeBytes_at A (X0.take 14) (X0.drop 14 ++ rest)
    · rw [← List.append_assoc (X0.take 14), List.take_append_drop]
    · exact hA.symm
    · simp only [List.length_take]; omega
  have w2 : writeBytes (A ++ (H.take 14 ++ (X0.drop 14 ++ rest)))
      (6 + 16 * i + 12) (le32 off)
      = some ((A ++ (H.take 8 ++ (H.drop 8).take 4)) ++ (le32 off ++ rest)) := by
    apply writeBytes_at (A ++ (H.take 8 ++ (H.drop 8).take 4))
      ((H.drop 12).take 2 ++ X0.drop 14) rest
    · rw [e_split]; simp only [List.append_assoc]
    · simp only [List.length_append, List.length_take, List.length_drop]; omega
    · simp only [List.length_append, List.length_take, List.length_drop, le32_length]; omega
  have w3 : writeBytes ((A ++ (H.take 8 ++ (H.drop 8).take 4)) ++ (le32 off ++ rest))
      (6 + 16 * i + 8) (le32 e.len)
      = some ((A ++ H.take 8) ++ (le32 e.len ++ (le32 off ++ rest))) := by
    apply writeBytes_at (A ++ H.take 8) ((H.drop 8).take 4) (le32 off ++ rest)
    · simp only [List.append_assoc]
    · simp only [List.length_append, List.length_take]; omega
    · simp only [List.length_take, List.length_drop, le32_length]; omega
  have r1 : readBytes e.data 0 e.len = some (e.data.take e.len) := by
    rw [readBytes_eq (by omega)]; rfl
  have w4 : writeBytes ((A ++ H.take 8) ++ (le32 e.len ++ (le32 off ++ rest))) off
      (e.data.take e.len)
      = some ((A ++ (H.take 8 ++ (le32 e.len ++ (le32 off ++ T1)))) ++
          (e.data.take e.len ++ T2)) := by
    apply writeBytes_at (A ++ (H.take 8 ++ (le32 e.len ++ (le32 off ++ T1)))) Y0 T2
    · simp only [List.append_assoc, hrest]
    · simp only [List.length_append, List.length_take, le32_length]; omega
    · simp only [List.length_take]; omega
  simp only [writeEntry, sizeofIcoHeader, sizeofDiskIcoDirEntry, sizeofResIcoDirEntry,
    r0, w1, w2, w3, r1, w4, Option.bind_eq_bind, Option.some_bind, Option.pure_def]
  simp only [entryBytes, sizeofIcoHeader, sizeofResIcoDirEntry, List.append_assoc, ← hH]

theorem layoutFrom_mid (header : Ptr) : ∀ (R : List Slot) (i off : Nat) (A X M Y Z : List Nat),
    A.length = 6 + 16 * i → X.length = 16 * R.length → A.length + X.length + M.length = off →
    Y.length = sumLens R → off + sumLens R < 4294967296 → (∀ e ∈ R, Readable header e) →
    layoutFrom header R i off (A ++ (X ++ (M ++ (Y ++ Z))))
      = some (A ++ (dirBytes header R off ++ (M ++ (payloadBytes R ++ Z)))) := by
  intro R
  induction R with
  | nil =>
    intro i off A X M Y Z _ hX _ hY _ _
    have hX0 : X = [] := List.eq_nil_of_length_eq_zero (by simpa using hX)
    have hY0 : Y = [] := List.eq_nil_of_length_eq_zero (by simpa [sumLens] using hY)
    subst hX0; subst hY0
    simp [layoutFrom, dirBytes, payloadBytes]
  | cons e R ih =>
    intro i off A X M Y Z hA hX hoff hY hlt hread
    have hre : Readable header e := hread e (List.mem_cons_self _ _)
    simp only [List.length_cons, sumLens] at hX hY hlt
    have hXs : X = X.take 16 ++ X.drop 16 := (List.take_append_drop 16 X).symm
    have hYs : Y = Y.take e.len ++ Y.drop e.len := (List.take_append_drop e.len Y).symm
    have hbuf : A ++ (X ++ (M ++ (Y ++ Z)))
        = A ++ (X.take 16 ++ ((X.drop 16 ++ M) ++ (Y.take e.len ++ (Y.drop e.len ++ Z)))) := by
      conv_lhs => rw [hXs, hYs]
      simp only [List.append_assoc]
    have hw := writeEntry_mid header e i off A (X.take 16) (X.drop 16 ++ M) (Y.take e.len)
      (Y.drop e.len ++ Z) (by simpa [sizeofIcoHeader, sizeofDiskIcoDirEntry] using hA)
      (by simp only [List.length_take]; omega)
      (by simp only [List.length_append, List.length_drop]; omega)
      (by simp only [List.length_take]; omega)
      (by simpa [sizeofIcoHeader, sizeofResIcoDirEntry] using hre.1) hre.2
    rw [layoutFrom, hbuf, hw]
    simp only
    have hu : u32 (off + e.len) = off + e.len := by unfold u32; omega
    rw [hu]
    have hE := entryBytes_length header e off
      (by simpa [sizeofIcoHeader, sizeofResIcoDirEntry] using hre.1)
    have := ih (i + 1) (off + e.len) (A ++ entryBytes header e off) (X.drop 16)
      (M ++ e.data.take e.len) (Y.drop e.len) Z
      (by simp only [List.length_append, hE]; omega)
      (by simp only [List.length_drop]; omega)
      (by simp only [List.length_append, List.length_drop, List.length_take, hE]
          have := hre.2
          omega)
      (by simp only [List.length_drop]; omega)
      (by omega)
      (fun e' he' => hread e' (List.mem_cons_of_mem _ he'))
    simp only [List.append_assoc] at this
    simp only [List.append_assoc, dirBytes, payloadBytes]
    exact this

theorem writeBytes_length {buf src b : List Nat} {off : Nat}
    (h : writeBytes buf off src = some b) : b.length = buf.length := by
  unfold writeBytes at h
  split at h
  · cases h
    simp only [List.length_append, List.length_take, List.length_drop]
    omega
  · cases h

theorem writeBytes_bound {buf src b : List Nat} {off : Nat}
    (h : writeBytes buf off src = some b) : off + src.length ≤ buf.length := by
  unfold writeBytes at h
  split at h
  · assumption
  · cases h

theorem readBytes_length {p l : List Nat} {off n : Nat}
    (h : readBytes p off n = some l) : l.length = n := by
  unfold readBytes at h
  split at h
  · cases h
    simp only [List.length_take, List.length_drop]
    omega
  · cases h

theorem readBytes_bound {p l : List Nat} {off n : Nat}
    (h : readBytes p off n = some l) : off + n ≤ p.length := by
  unfold readBytes at h
  split at h
  · assumption
  · cases h

theorem writeEntry_some {header d : Ptr} {l : Nat} {st st' : Build}
    (h : writeEntry header d l st = some st') :
    6 + 14 * st.resIdx + 14 ≤ header.length ∧ l ≤ d.length ∧
    6 + 16 * st.i + 16 ≤ st.icoBuf.length ∧ st.imgOffset + l ≤ st.icoBuf.length ∧
    st'.icoBuf.length = st.icoBuf.length ∧ st'.imgOffset = u32 (st.imgOffset + l) ∧
    st'.i = st.i ∧ st'.resIdx = st.resIdx := by
  simp only [writeEntry, sizeofIcoHeader, sizeofDiskIcoDirEntry, sizeofResIcoDirEntry,
    Option.bind_eq_bind, Option.bind_eq_some, Option.pure_def, Option.some.injEq] at h
  obtain ⟨e, he, b1, h1, b2, h2, b3, h3, p, hp, b4, h4, rfl⟩ := h
  have l1 := writeBytes_length h1
  have l2 := writeBytes_length h2
  have l3 := writeBytes_length h3
  have l4 := writeBytes_length h4
  have c2 := writeBytes_bound h2
  have c4 := writeBytes_bound h4
  have e0 := readBytes_bound he
  have p0 := readBytes_bound hp
  have p1 := readBytes_length hp
  simp only [le32_length] at c2
  refine ⟨by omega, by omega, by omega, by omega, ?_, rfl, rfl, rfl⟩
  show b4.length = _
  omega

theorem layoutFrom_fits (header : Ptr) : ∀ (R : List Slot) (i off : Nat) (buf b : List Nat),
    layoutFrom header R i off buf = some b → buf.length < 4294967296 →
    (R ≠ [] → off + sumLens R ≤ buf.length ∧ 6 + 16 * (i + R.length) ≤ buf.length) ∧
    (∀ e ∈ R, Readable header e) ∧ b.length = buf.length := by
  intro R
  induction R with
  | nil =>
    intro i off buf b h hlt
    simp only [layoutFrom, Option.some.injEq] at h
    subst h
    exact ⟨fun h => absurd rfl h, fun e he => absurd he (List.not_mem_nil e), rfl⟩
  | cons e R ih =>
    intro i off buf b h hlt
    rw [layoutFrom] at h
    split at h
    · cases h
    · rename_i st hst
      obtain ⟨a1, a2, a3, a4, a5, a6, a7, a8⟩ := writeEntry_some hst
      simp only at a1 a2 a3 a4 a5 a6 a7 a8
      have hu : u32 (off + e.len) = off + e.len := by unfold u32; omega
      rw [a6, hu] at h
      obtain ⟨b1, b3, b4⟩ := ih (i + 1) (off + e.len) st.icoBuf b h (by omega)
      refine ⟨?_, ?_, by omega⟩
      · intro _
        simp only [List.length_cons, sumLens]
        by_cases hR : R = []
        · subst hR; simp only [List.length_nil, sumLens]; omega
        · have := b1 hR; omega
      · intro e' he'
        rcases List.mem_cons.mp he' with rfl | hm
        · exact ⟨a1, a2⟩
        · exact b3 e' hm

theorem scanStep_eq (m : Module) (header : Ptr) (allow : Bool) (i : Nat) (s : Scan) :
    scanStep m header allow i s =
      if scanDefined m header allow i then some (applyKept (kept m header allow i) i s)
      else none := by
  unfold scanStep scanDefined kept
  simp only [sizeofIcoHeader, sizeofResIcoDirEntry, sizeofDiskIcoDirEntry]
  cases load16 header (6 + 14 * i + 12) with
  | none => simp
  | some resId =>
    simp only
    cases get_resource m (MAKEINTRESOURCEA resId) RT_ICON with
    | none => simp [applyKept]
    | some dl =>
      obtain ⟨d, l⟩ := dl
      cases allow with
      | true => simp [applyKept]
      | false =>
        simp only [Bool.false_eq_true, if_false, Bool.false_or]
        cases is_png d l with
        | none => simp
        | some b => cases b <;> simp [applyKept]

theorem scanLoop_eq (m : Module) (header : Ptr) (allow : Bool) :
    ∀ (n i : Nat) (s : Scan), i + n ≤ 65535 →
      scanLoop m header allow n i s =
        if allDefined m header allow n i then some (scanRun m header allow n i s) else none := by
  intro n
  induction n with
  | zero => intro i s _; simp [scanLoop, allDefined, scanRun]
  | succ n ih =>
    intro i s h
    have hu : u16 (i + 1) = i + 1 := by unfold u16; omega
    rw [scanLoop, scanStep_eq]
    by_cases hd : scanDefined m header allow i = true
    · simp only [hd, if_true, hu, allDefined, scanRun, Bool.true_and]
      exact ih (i + 1) _ (by omega)
    · simp [hd, allDefined]

theorem load16_some_bound {p : Ptr} {off v : Nat} (h : load16 p off = some v) :
    off + 2 ≤ p.length ∧ v < 65536 := by
  unfold load16 at h
  split at h
  · rename_i a b ha hb
    cases h
    have := (List.getElem?_eq_some_iff.mp hb).1
    refine ⟨by omega, ?_⟩
    simp only [u8]; omega
  · cases h

theorem get_resource_some {m : Module} {name type : Nat} {d : Ptr} {l : Nat}
    (h : get_resource m name type = some (d, l)) : l ≠ 0 ∧ l < 4294967296 := by
  unfold get_resource at h
  split at h
  · cases h
  · simp only at h
    split at h
    · cases h
    · rename_i hne
      split at h
      · cases h
      · split at h
        · cases h
        · cases h
          exact ⟨hne, by simp only [u32]; omega⟩

theorem kept_resIdx {m : Module} {header : Ptr} {allow : Bool} {i : Nat} {e : Slot}
    (h : kept m header allow i = some e) : e.resIdx = i ∧ e.len ≠ 0 ∧ e.len < 4294967296 ∧
      6 + 14 * i + 14 ≤ header.length := by
  unfold kept at h
  split at h
  · cases h
  · rename_i resId hl
    have hb := load16_some_bound hl
    split at h
    · cases h
    · rename_i d l hg
      have hg2 := get_resource_some hg
      split at h
      · cases h; exact ⟨rfl, hg2.1, hg2.2, by omega⟩
      · split at h
        · cases h; exact ⟨rfl, hg2.1, hg2.2, by omega⟩
        · cases h

theorem scanRun_counts (m : Module) (header : Ptr) (allow : Bool) :
    ∀ (n i : Nat) (s : Scan), s.bufLen < 4294967296 → s.imgs < 65536 →
      (scanRun m header allow n i s).bufLen
        = u32 (s.bufLen + 16 * (keptList m header allow n i).length
            + sumLens (keptList m header allow n i)) ∧
      (scanRun m header allow n i s).imgs
        = u16 (s.imgs + (keptList m header allow n i).length) ∧
      (scanRun m header allow n i s).imgDatas.length = s.imgDatas.length ∧
      (scanRun m header allow n i s).imgDataLens.length = s.imgDataLens.length := by
  intro n
  induction n with
  | zero =>
    intro i s h1 h2
    refine ⟨?_, ?_, rfl, rfl⟩
    · simp only [scanRun, keptList, List.length_nil, sumLens, u32]; omega
    · simp only [scanRun, keptList, List.length_nil, u16]; omega
  | succ n ih =>
    intro i s h1 h2
    rw [scanRun, keptList]
    cases hk : kept m header allow i with
    | none => exact ih (i + 1) s h1 h2
    | some e =>
      simp only [applyKept]
      have := ih (i + 1)
        { bufLen := u32 (u32 (s.bufLen + 16) + e.len), imgs := u16 (s.imgs + 1),
          imgDatas := s.imgDatas.set i (some e.data),
          imgDataLens := s.imgDataLens.set i e.len }
        (by simp only [u32]; omega) (by simp only [u16]; omega)
      obtain ⟨a1, a2, a3, a4⟩ := this
      simp only [List.length_set] at a3 a4
      refine ⟨?_, ?_, a3, a4⟩
      · rw [a1]; simp only [u32, List.length_cons, sumLens]; omega
      · rw [a2]; simp only [u16, List.length_cons]; omega

theorem keptList_length_le (m : Module) (header : Ptr) (allow : Bool) :
    ∀ (n i : Nat), (keptList m header allow n i).length ≤ n := by
  intro n
  induction n with
  | zero => intro i; simp [keptList]
  | succ n ih =>
    intro i
    rw [keptList]
    have := ih (i + 1)
    split
    · simp only [List.length_cons]; omega
    · omega

theorem scanRun_arrays (m : Module) (header : Ptr) (allow : Bool) :
    ∀ (n i : Nat) (s : Scan), i + n ≤ s.imgDatas.length → i + n ≤ s.imgDataLens.length →
      (∀ j, j < i ∨ i + n ≤ j →
        (scanRun m header allow n i s).imgDatas[j]? = s.imgDatas[j]? ∧
        (scanRun m header allow n i s).imgDataLens[j]? = s.imgDataLens[j]?) ∧
      (∀ j, i ≤ j → j < i + n →
        (scanRun m header allow n i s).imgDatas[j]?
          = (match kept m header allow j with
             | some e => some (some e.data)
             | none => s.imgDatas[j]?) ∧
        (scanRun m header allow n i s).imgDataLens[j]?
          = (match kept m header allow j with
             | some e => some e.len
             | none => s.imgDataLens[j]?)) := by
  intro n
  induction n with
  | zero =>
    intro i s _ _
    refine ⟨fun j _ => ⟨rfl, rfl⟩, fun j h1 h2 => ?_⟩
    omega
  | succ n ih =>
    intro i s h1 h2
    rw [scanRun]
    have hl1 : (applyKept (kept m header allow i) i s).imgDatas.length = s.imgDatas.length := by
      unfold applyKept; split <;> simp
    have hl2 : (applyKept (kept m header allow i) i s).imgDataLens.length
        = s.imgDataLens.length := by
      unfold applyKept; split <;> simp
    obtain ⟨ihA, ihB⟩ := ih (i + 1) (applyKept (kept m header allow i) i s)
      (by rw [hl1]; omega) (by rw [hl2]; omega)
    have hne : ∀ j, j ≠ i →
        (applyKept (kept m header allow i) i s).imgDatas[j]? = s.imgDatas[j]? ∧
        (applyKept (kept m header allow i) i s).imgDataLens[j]? = s.imgDataLens[j]? := by
      intro j hj
      unfold applyKept
      split
      · exact ⟨rfl, rfl⟩
      · simp only
        rw [List.getElem?_set_ne (Ne.symm hj), List.getElem?_set_ne (Ne.symm hj)]
        exact ⟨rfl, rfl⟩
    refine ⟨fun j hj => ?_, fun j hj1 hj2 => ?_⟩
    · obtain ⟨a, b⟩ := ihA j (by omega)
      obtain ⟨c, d⟩ := hne j (by omega)
      exact ⟨a.trans c, b.trans d⟩
    · by_cases hji : j = i
      · subst hji
        obtain ⟨a, b⟩ := ihA j (by omega)
        rw [a, b]
        unfold applyKept
        cases hk : kept m header allow j with
        | none => exact ⟨rfl, rfl⟩
        | some e =>
          simp only
          rw [List.getElem?_set_self (by omega), List.getElem?_set_self (by omega)]
          exact ⟨rfl, rfl⟩
      · obtain ⟨a, b⟩ := ihB j (by omega) (by omega)
        obtain ⟨c, d⟩ := hne j hji
        rw [a, b, c, d]
        exact ⟨rfl, rfl⟩

theorem buildLoop_eq (m : Module) (header : Ptr) (allow : Bool) (count k : Nat)
    (imgDatas : List (Option Ptr)) (imgDataLens : List Nat)
    (hok : SlotsOk m header allow count imgDatas imgDataLens)
    (hc : count ≤ 65535) (hk : k ≤ 65535) :
    ∀ (n fuel : Nat) (st : Build), st.resIdx + n = count → n + 1 ≤ fuel →
      st.i + (keptList m header allow n st.resIdx).length = k →
      buildLoop header k imgDatas imgDataLens fuel st =
        match layoutFrom header (keptList m header allow n st.resIdx) st.i st.imgOffset
            st.icoBuf with
        | some b => Run.done b
        | none => Run.fault := by
  intro n
  induction n with
  | zero =>
    intro fuel st _ hf hi
    obtain ⟨fuel, rfl⟩ : ∃ f, fuel = f + 1 := ⟨fuel - 1, by omega⟩
    simp only [keptList, List.length_nil, Nat.add_zero] at hi
    rw [buildLoop, if_neg (by omega)]
    simp [keptList, layoutFrom]
  | succ n ih =>
    intro fuel st hr hf hi
    obtain ⟨fuel, rfl⟩ : ∃ f, fuel = f + 1 := ⟨fuel - 1, by omega⟩
    obtain ⟨hl1, hl2, hslots⟩ := hok
    obtain ⟨hs1, hs2⟩ := hslots st.resIdx (by omega)
    have hu : u16 (st.resIdx + 1) = st.resIdx + 1 := by unfold u16; omega
    rw [keptList] at hi ⊢
    rw [buildLoop]
    cases hkept : kept m header allow st.resIdx with
    | none =>
      rw [hkept] at hs1 hs2 hi
      simp only at hi
      simp only [Option.map_none'] at hs1
      by_cases hlt : st.i < k
      · have hi16 : u16 (u16 (st.i + 65535) + 1) = st.i := by unfold u16; omega
        rw [if_pos hlt, hs1]
        simp only [hu, hi16]
        exact ih fuel { st with resIdx := st.resIdx + 1 } (by simp only; omega) (by omega)
          (by simpa using hi)
      · rw [if_neg hlt]
        have h0 : (keptList m header allow n (st.resIdx + 1)).length = 0 := by omega
        rw [List.eq_nil_of_length_eq_zero h0]
        simp [layoutFrom]
    | some e =>
      rw [hkept] at hs1 hs2 hi
      simp only [List.length_cons] at hi
      simp only [Option.map_some'] at hs1
      obtain ⟨he1, he2, _, _⟩ := kept_resIdx hkept
      have hlt : st.i < k := by omega
      have hi16 : u16 (st.i + 1) = st.i + 1 := by unfold u16; omega
      rw [if_pos hlt, hs1]
      simp only [hs2, if_neg he2]
      rw [layoutFrom]
      have hst : Build.mk st.i e.resIdx st.imgOffset st.icoBuf = st := by rw [he1]
      rw [hst]
      cases hw : writeEntry header e.data e.len st with
      | none => rfl
      | some st' =>
        obtain ⟨_, _, _, _, _, _, a7, a8⟩ := writeEntry_some hw
        simp only [a7, a8, hu, hi16]
        exact ih fuel { st' with i := st.i + 1, resIdx := st.resIdx + 1 }
          (by simp only; omega) (by omega) (by simp only; omega)

theorem scan_eq (m : Module) (header : Ptr) (allow : Bool) (count : Nat) (hc : count ≤ 65535) :
    scan m header allow count =
      if allDefined m header allow count 0 then
        some (scanRun m header allow count 0
          { bufLen := 6, imgs := 0, imgDatas := List.replicate count none,
            imgDataLens := List.replicate count 0 })
      else none := by
  unfold scan
  rw [scanLoop_eq m header allow count 0 _ (by omega)]
  rfl

theorem scanRun_init (m : Module) (header : Ptr) (allow : Bool) (count : Nat)
    (hc : count ≤ 65535) (s : Scan)
    (hs : s = scanRun m header allow count 0
          { bufLen := 6, imgs := 0, imgDatas := List.replicate count none,
            imgDataLens := List.replicate count 0 }) :
    s.bufLen = u32 (totalSize (keptList m header allow count 0)) ∧
    s.imgs = (keptList m header allow count 0).length ∧
    SlotsOk m header allow count s.imgDatas s.imgDataLens := by
  subst hs
  obtain ⟨a1, a2, a3, a4⟩ := scanRun_counts m header allow count 0
    { bufLen := 6, imgs := 0, imgDatas := List.replicate count none,
      imgDataLens := List.replicate count 0 } (by simp) (by simp)
  obtain ⟨_, b2⟩ := scanRun_arrays m header allow count 0
    { bufLen := 6, imgs := 0, imgDatas := List.replicate count none,
      imgDataLens := List.replicate count 0 } (by simp) (by simp)
  have hle := keptList_length_le m header allow count 0
  simp only [List.length_replicate] at a3 a4
  refine ⟨by rw [a1]; rfl, ?_, a3, a4, fun j hj => ?_⟩
  · rw [a2]; simp only [u16]; omega
  · obtain ⟨c1, c2⟩ := b2 j (by omega) (by omega)
    rw [c1, c2]
    cases kept m header allow j with
    | none => simp [hj]
    | some e => simp

theorem build_eq (m : Module) (header : Ptr) (allow : Bool) (count : Nat) (s : Scan)
    (icoBuf : List Nat) (hc : count ≤ 65535) (hh : 6 ≤ header.length)
    (hk : s.imgs = (keptList m header allow count 0).length)
    (hok : SlotsOk m header allow count s.imgDatas s.imgDataLens) :
    build header s icoBuf =
      if 6 ≤ icoBuf.length then
        match layoutFrom header (keptList m header allow count 0) 0
            (6 + 16 * (keptList m header allow count 0).length)
            (header.take 4 ++ (le16 (keptList m header allow count 0).length ++ icoBuf.drop 6)) with
        | some b => Result.buffer b s.bufLen
        | none => Result.fault
      else Result.fault := by
  have hle := keptList_length_le m header allow count 0
  unfold build
  rw [readBytes_eq (by simp only [sizeofIcoHeader]; omega)]
  simp only [sizeofIcoHeader, sizeofDiskIcoDirEntry, List.drop_zero, List.take_take]
  have h46 : min 4 6 = 4 := by decide
  rw [h46]
  by_cases h6 : 6 ≤ icoBuf.length
  · rw [if_pos h6]
    have hw : writeBytes icoBuf 0 (header.take 4 ++ le16 s.imgs)
        = some (header.take 4 ++ (le16 s.imgs ++ icoBuf.drop 6)) := by
      unfold writeBytes
      have hl : (header.take 4 ++ le16 s.imgs).length = 6 := by
        simp only [List.length_append, List.length_take, le16_length]; omega
      rw [hl, if_pos (by omega)]
      simp
    rw [hw]
    simp only
    have hu : u32 (6 + s.imgs * 16) = 6 + 16 * s.imgs := by unfold u32; omega
    rw [hu]
    have := buildLoop_eq m header allow count s.imgs s.imgDatas s.imgDataLens hok hc
      (by omega) count (s.imgDatas.length + 1)
      { i := 0, resIdx := 0, imgOffset := 6 + 16 * s.imgs,
        icoBuf := header.take 4 ++ (le16 s.imgs ++ icoBuf.drop 6) }
      (by simp) (by rw [hok.1]) (by simp only; omega)
    rw [this]
    simp only [hk]
    cases layoutFrom header (keptList m header allow count 0) 0
        (6 + 16 * (keptList m header allow count 0).length)
        (header.take 4 ++ (le16 (keptList m header allow count 0).length ++ icoBuf.drop 6)) with
    | none => rfl
    | some b => rfl
  · rw [if_neg h6]
    have hw : writeBytes icoBuf 0 (header.take 4 ++ le16 s.imgs) = none := by
      unfold writeBytes
      have hl : (header.take 4 ++ le16 s.imgs).length = 6 := by
        simp only [List.length_append, List.length_take, le16_length]; omega
      rw [hl, if_neg (by omega)]
    rw [hw]

theorem layout_top_ok (header : Ptr) (R : List Slot) (icoBuf : List Nat)
    (hh : 4 ≤ header.length) (hread : ∀ e ∈ R, Readable header e)
    (hT : totalSize R < 4294967296) (hlen : icoBuf.length = totalSize R) :
    layoutFrom header R 0 (6 + 16 * R.length)
        (header.take 4 ++ (le16 R.length ++ icoBuf.drop 6)) = some (serialize header R) := by
  unfold totalSize at hT hlen
  have hsplit : icoBuf.drop 6
      = (icoBuf.drop 6).take (16 * R.length) ++ (icoBuf.drop 6).drop (16 * R.length) :=
    (List.take_append_drop _ _).symm
  have hb : header.take 4 ++ (le16 R.length ++ icoBuf.drop 6)
      = (header.take 4 ++ le16 R.length) ++ ((icoBuf.drop 6).take (16 * R.length) ++
          ([] ++ ((icoBuf.drop 6).drop (16 * R.length) ++ []))) := by
    conv_lhs => rw [hsplit]
    simp only [List.append_assoc, List.nil_append, List.append_nil]
  rw [hb]
  have := layoutFrom_mid header R 0 (6 + 16 * R.length) (header.take 4 ++ le16 R.length)
    ((icoBuf.drop 6).take (16 * R.length)) [] ((icoBuf.drop 6).drop (16 * R.length)) []
    (by simp only [List.length_append, List.length_take, le16_length]; omega)
    (by simp only [List.length_take, List.length_drop]; omega)
    (by simp only [List.length_append, List.length_take, List.length_drop, le16_length,
          List.length_nil]; omega)
    (by simp only [List.length_drop]; omega)
    (by omega) hread
  rw [this]
  simp only [serialize, List.append_assoc, List.nil_append, List.append_nil]

theorem layout_top_fits (header : Ptr) (R : List Slot) (icoBuf b : List Nat)
    (hR : R ≠ []) (h6 : 6 ≤ icoBuf.length) (hh : 4 ≤ header.length)
    (hlen : icoBuf.length = u32 (totalSize R))
    (h : layoutFrom header R 0 (6 + 16 * R.length)
        (header.take 4 ++ (le16 R.length ++ icoBuf.drop 6)) = some b) :
    totalSize R < 4294967296 ∧ (∀ e ∈ R, Readable header e) := by
  have hl : (header.take 4 ++ (le16 R.length ++ icoBuf.drop 6)).length = icoBuf.length := by
    simp only [List.length_append, List.length_take, List.length_drop, le16_length]; omega
  have hlt : icoBuf.length < 4294967296 := by rw [hlen]; unfold u32; omega
  obtain ⟨a1, a2, _⟩ := layoutFrom_fits header R 0 (6 + 16 * R.length) _ b h (by omega)
  obtain ⟨a3, _⟩ := a1 hR
  rw [hl, hlen] at a3
  refine ⟨?_, a2⟩
  unfold totalSize u32 at *
  omega

theorem keptList_mem (m : Module) (header : Ptr) (allow : Bool) :
    ∀ (n i : Nat) (e : Slot), e ∈ keptList m header allow n i →
      ∃ j, i ≤ j ∧ j < i + n ∧ kept m header allow j = some e := by
  intro n
  induction n with
  | zero => intro i e h; simp [keptList] at h
  | succ n ih =>
    intro i e h
    rw [keptList] at h
    cases hk : kept m header allow i with
    | none =>
      rw [hk] at h
      obtain ⟨j, h1, h2, h3⟩ := ih (i + 1) e h
      exact ⟨j, by omega, by omega, h3⟩
    | some e0 =>
      rw [hk] at h
      rcases List.mem_cons.mp h with rfl | hm
      · exact ⟨i, le_refl i, by omega, hk⟩
      · obtain ⟨j, h1, h2, h3⟩ := ih (i + 1) e hm
        exact ⟨j, by omega, by omega, h3⟩

theorem readable_of_mapped (m : Module) (header : Ptr) (allow : Bool) (count : Nat)
    (h : payloadsMapped (keptList m header allow count 0) = true) :
    ∀ e ∈ keptList m header allow count 0, Readable header e := by
  intro e he
  obtain ⟨j, _, _, hk⟩ := keptList_mem m header allow count 0 e he
  obtain ⟨h1, _, _, h4⟩ := kept_resIdx hk
  unfold payloadsMapped at h
  rw [List.all_eq_true] at h
  have := h e he
  simp only [decide_eq_true_eq] at this
  exact ⟨by rw [h1]; omega, this⟩

theorem mapped_of_readable (header : Ptr) (R : List Slot)
    (h : ∀ e ∈ R, Readable header e) : payloadsMapped R = true := by
  unfold payloadsMapped
  rw [List.all_eq_true]
  intro e he
  simp only [decide_eq_true_eq]
  exact (h e he).2

/-- The code refines `extractSpec`: the sizing loop, the allocation and the
builder loop together compute the serialisation of the retained slots. -/
theorem extract_eq (heap : Heap) (m : Module) (name : Nat) (allow : Bool) :
    extract_ico_from_module heap m name allow =
      match get_resource m name RT_GROUP_ICON with
      | none => Result.null
      | some (header, _) =>
        match load16 header 4 with
        | none => Result.fault
        | some count => extractSpec heap m header allow count := by
  unfold extract_ico_from_module
  cases hg : get_resource m name RT_GROUP_ICON with
  | none => rfl
  | some hl =>
    obtain ⟨header, glen⟩ := hl
    simp only
    cases hcount : load16 header 4 with
    | none => rfl
    | some count =>
      simp only
      obtain ⟨hb, hc⟩ := load16_some_bound hcount
      rw [scan_eq m header allow count (by omega)]
      unfold extractSpec
      by_cases hd : allDefined m header allow count 0 = true
      · rw [if_pos hd, if_pos hd]
        simp only
        obtain ⟨s1, s2, s3⟩ := scanRun_init m header allow count (by omega) _ rfl
        rw [s2]
        by_cases hz : (keptList m header allow count 0).length = 0
        · rw [if_pos hz, if_pos hz]
        · rw [if_neg hz, if_neg hz, s1]
          by_cases hm : heap.mallocOk (u32 (totalSize (keptList m header allow count 0))) = true
          · rw [if_pos hm, if_pos hm]
            rw [build_eq m header allow count _ _ (by omega) (by omega) s2 s3]
            have hfl : (heap.fresh (u32 (totalSize (keptList m header allow count 0)))).length
                = u32 (totalSize (keptList m header allow count 0)) := by
              simp only [Heap.fresh, List.length_map, List.length_range]
            have hR : keptList m header allow count 0 ≠ [] := by
              intro h0; rw [h0] at hz; exact hz rfl
            by_cases hfit : totalSize (keptList m header allow count 0) < 4294967296 ∧
                payloadsMapped (keptList m header allow count 0) = true
            · rw [if_pos hfit]
              have hu : u32 (totalSize (keptList m header allow count 0))
                  = totalSize (keptList m header allow count 0) := by unfold u32; omega
              have h6 : 6 ≤ (heap.fresh (u32 (totalSize (keptList m header allow count 0)))).length := by
                rw [hfl, hu]; unfold totalSize; omega
              rw [if_pos h6]
              rw [layout_top_ok header _ _ (by omega)
                (readable_of_mapped m header allow count hfit.2) hfit.1 (by rw [hfl, hu])]
              simp only [s1, hu]
            · rw [if_neg hfit]
              split
              · rename_i h6
                split
                · rename_i b hl
                  exfalso
                  obtain ⟨t1, t2⟩ := layout_top_fits header _ _ b hR h6 (by omega) hfl hl
                  exact hfit ⟨t1, mapped_of_readable header _ t2⟩
                · rfl
              · rfl
          · rw [if_neg hm, if_neg hm]
      · rw [if_neg hd, if_neg hd]

/-! ## The serialised container, read back -/

theorem sumLens_append (R1 R2 : List Slot) : sumLens (R1 ++ R2) = sumLens R1 + sumLens R2 := by
  induction R1 with
  | nil => simp [sumLens]
  | cons e R ih => rw [List.cons_append]; simp only [sumLens]; rw [ih]; omega

theorem dirBytes_append (header : Ptr) (R1 R2 : List Slot) (off : Nat) :
    dirBytes header (R1 ++ R2) off
      = dirBytes header R1 off ++ dirBytes header R2 (off + sumLens R1) := by
  induction R1 generalizing off with
  | nil => simp [dirBytes, sumLens]
  | cons e R ih =>
    rw [List.cons_append]
    simp only [dirBytes, sumLens]
    rw [ih, List.append_assoc, Nat.add_assoc]

theorem payloadBytes_append (R1 R2 : List Slot) :
    payloadBytes (R1 ++ R2) = payloadBytes R1 ++ payloadBytes R2 := by
  induction R1 with
  | nil => simp [payloadBytes]
  | cons e R ih =>
    rw [List.cons_append]
    simp only [payloadBytes]
    rw [ih, List.append_assoc]

theorem dirBytes_length (header : Ptr) (R : List Slot) (off : Nat)
    (h : ∀ e ∈ R, Readable header e) : (dirBytes header R off).length = 16 * R.length := by
  induction R generalizing off with
  | nil => simp [dirBytes]
  | cons e R ih =>
    have he := (h e (List.mem_cons_self _ _)).1
    simp only [dirBytes, List.length_append, List.length_cons,
      entryBytes_length header e off (by simpa [sizeofIcoHeader, sizeofResIcoDirEntry] using he),
      ih (off + e.len) (fun e' he' => h e' (List.mem_cons_of_mem _ he'))]
    omega

theorem payloadBytes_length (R : List Slot) (h : ∀ e ∈ R, e.len ≤ e.data.length) :
    (payloadBytes R).length = sumLens R := by
  induction R with
  | nil => simp [payloadBytes, sumLens]
  | cons e R ih =>
    have he := h e (List.mem_cons_self _ _)
    simp only [payloadBytes, sumLens, List.length_append, List.length_take,
      ih (fun e' he' => h e' (List.mem_cons_of_mem _ he'))]
    omega

theorem serialize_length (header : Ptr) (R : List Slot) (hh : 4 ≤ header.length)
    (h : ∀ e ∈ R, Readable header e) : (serialize header R).length = totalSize R := by
  simp only [serialize, totalSize, List.length_append, List.length_take, le16_length,
    dirBytes_length header R _ h, payloadBytes_length R (fun e he => (h e he).2)]
  omega

theorem readBytes_at {buf : List Nat} (P Q S : List Nat) {off n : Nat}
    (hb : buf = P ++ (Q ++ S)) (ho : off = P.length) (hn : n = Q.length) :
    readBytes buf off n = some Q := by
  subst hb; subst ho; subst hn
  unfold readBytes
  have h1 : P.length + Q.length ≤ (P ++ (Q ++ S)).length := by
    simp only [List.length_append]; omega
  rw [if_pos h1]
  simp

/-- The directory entry of the slot that follows `R1` in the serialisation. -/
theorem serialize_entry (header : Ptr) (R1 R2 : List Slot) (e : Slot) (hh : 4 ≤ header.length)
    (h : ∀ x ∈ R1 ++ e :: R2, Readable header x) :
    readBytes (serialize header (R1 ++ e :: R2)) (6 + 16 * R1.length) 16
      = some (entryBytes header e (6 + 16 * (R1 ++ e :: R2).length + sumLens R1)) := by
  have h1 : ∀ x ∈ R1, Readable header x := fun x hx => h x (List.mem_append_left _ hx)
  have he : Readable header e := h e (by simp)
  apply readBytes_at (header.take 4 ++ (le16 (R1 ++ e :: R2).length ++
      dirBytes header R1 (6 + 16 * (R1 ++ e :: R2).length)))
    _ (dirBytes header R2 (6 + 16 * (R1 ++ e :: R2).length + sumLens R1 + e.len)
        ++ payloadBytes (R1 ++ e :: R2))
  · simp only [serialize, dirBytes_append, dirBytes, List.append_assoc]
  · simp only [List.length_append, List.length_take, le16_length, dirBytes_length header R1 _ h1]
    omega
  · rw [entryBytes_length header e _
      (by simpa [sizeofIcoHeader, sizeofResIcoDirEntry] using he.1)]

/-- The payload of the slot that follows `R1` in the serialisation. -/
theorem serialize_payload (header : Ptr) (R1 R2 : List Slot) (e : Slot) (hh : 4 ≤ header.length)
    (h : ∀ x ∈ R1 ++ e :: R2, Readable header x) :
    readBytes (serialize header (R1 ++ e :: R2))
        (6 + 16 * (R1 ++ e :: R2).length + sumLens R1) e.len
      = some (e.data.take e.len) := by
  have h1 : ∀ x ∈ R1, Readable header x := fun x hx => h x (List.mem_append_left _ hx)
  have he : Readable header e := h e (by simp)
  apply readBytes_at (header.take 4 ++ (le16 (R1 ++ e :: R2).length ++
      (dirBytes header (R1 ++ e :: R2) (6 + 16 * (R1 ++ e :: R2).length) ++ payloadBytes R1)))
    _ (payloadBytes R2)
  · simp only [serialize, payloadBytes_append, payloadBytes, List.append_assoc]
  · simp only [List.length_append, List.length_take, le16_length,
      dirBytes_length header _ _ h, payloadBytes_length R1 (fun x hx => (h1 x hx).2)]
    omega
  · simp only [List.length_take]
    have := he.2
    omega

theorem getElem?_of_readBytes {buf l : List Nat} {off n : Nat}
    (h : readBytes buf off n = some l) (t : Nat) (ht : t < n) : buf[off + t]? = l[t]? := by
  unfold readBytes at h
  split at h
  · cases h
    rw [List.getElem?_take_of_lt ht, List.getElem?_drop]
  · cases h

theorem load8_of_readBytes {buf l : List Nat} {off n : Nat}
    (h : readBytes buf off n = some l) (t : Nat) (ht : t + 1 ≤ n) :
    load8 buf (off + t) = load8 l t := by
  unfold load8
  rw [getElem?_of_readBytes h t (by omega)]

theorem load16_of_readBytes {buf l : List Nat} {off n : Nat}
    (h : readBytes buf off n = some l) (t : Nat) (ht : t + 2 ≤ n) :
    load16 buf (off + t) = load16 l t := by
  unfold load16
  rw [getElem?_of_readBytes h t (by omega), Nat.add_assoc,
    getElem?_of_readBytes h (t + 1) (by omega)]

theorem load32_of_readBytes {buf l : List Nat} {off n : Nat}
    (h : readBytes buf off n = some l) (t : Nat) (ht : t + 4 ≤ n) :
    load32 buf (off + t) = load32 l t := by
  unfold load32
  rw [getElem?_of_readBytes h t (by omega), Nat.add_assoc,
    getElem?_of_readBytes h (t + 1) (by omega), Nat.add_assoc,
    getElem?_of_readBytes h (t + 2) (by omega), Nat.add_assoc,
    getElem?_of_readBytes h (t + 3) (by omega)]

theorem load16_le16 (n : Nat) (h : n < 65536) (rest : List Nat) :
    load16 (le16 n ++ rest) 0 = some n := by
  simp only [load16, le16, u8, List.cons_append, List.nil_append, List.getElem?_cons_zero,
    List.getElem?_cons_succ, Nat.zero_add, Option.some.injEq]
  omega

theorem load32_le32 (n : Nat) (h : n < 4294967296) (rest : List Nat) :
    load32 (le32 n ++ rest) 0 = some n := by
  simp only [load32, le32, u8, List.cons_append, List.nil_append, List.getElem?_cons_zero,
    List.getElem?_cons_succ, Nat.zero_add, Option.some.injEq]
  omega

/-! ## Retention in the words of the specification -/

theorem andAlso_eq_some {a b : Option Bool} {r : Bool} (h : andAlso a b = some r) :
    (a = some false ∧ r = false) ∨ (a = some true ∧ b = some r) := by
  unfold andAlso at h
  split at h
  · cases h
  · cases h; exact Or.inl ⟨rfl, rfl⟩
  · exact Or.inr ⟨rfl, h⟩

theorem byteIs_eq_some {d : Ptr} {j v : Nat} {r : Bool} (h : byteIs d j v = some r) :
    ∃ y, d[j]? = some y ∧ r = (u8 y == v) := by
  unfold byteIs load8 at h
  cases hd : d[j]? with
  | none => rw [hd] at h; cases h
  | some y => rw [hd] at h; cases h; exact ⟨y, rfl, rfl⟩

theorem pngSigned_true {p : List Nat} (h : pngSigned p = true) :
    ∃ a0 a1 a2 a3 a4 a5 a6 a7 rest, p = a0 :: a1 :: a2 :: a3 :: a4 :: a5 :: a6 :: a7 :: rest ∧
      u8 a0 = 137 ∧ u8 a1 = 80 ∧ u8 a2 = 78 ∧ u8 a3 = 71 ∧ u8 a4 = 13 ∧ u8 a5 = 10 ∧
      u8 a6 = 26 ∧ u8 a7 = 10 := by
  unfold pngSigned at h
  simp only [Bool.and_eq_true, decide_eq_true_eq, beq_iff_eq] at h
  obtain ⟨hl, hs⟩ := h
  rcases p with _ | ⟨a0, _ | ⟨a1, _ | ⟨a2, _ | ⟨a3, _ | ⟨a4, _ | ⟨a5, _ | ⟨a6, _ | ⟨a7, rest⟩⟩⟩⟩⟩⟩⟩⟩
  all_goals try (simp only [List.length_nil, List.length_cons] at hl; omega)
  simp only [List.take_succ_cons, List.take_zero, List.map_cons, List.map_nil, List.cons.injEq,
    and_true] at hs
  obtain ⟨h0, h1, h2, h3, h4, h5, h6, h7⟩ := hs
  exact ⟨a0, a1, a2, a3, a4, a5, a6, a7, rest, rfl, h0, h1, h2, h3, h4, h5, h6, h7⟩

/-- Whenever `is_png` makes no bad read, its answer is that of `pngSigned` on the
payload. -/
theorem is_png_eq {d : Ptr} {l : Nat} {b : Bool} (h : is_png d l = some b) :
    b = pngSigned (d.take l) := by
  unfold is_png at h
  split at h
  · rename_i hl
    cases hp : pngSigned (d.take l) with
    | true =>
      obtain ⟨a0, a1, a2, a3, a4, a5, a6, a7, rest, hd, h0, h1, h2, h3, h4, h5, h6, h7⟩ :=
        pngSigned_true hp
      have g : ∀ j, j < 8 → d[j]? = (a0 :: a1 :: a2 :: a3 :: a4 :: a5 :: a6 :: a7 :: rest)[j]? := by
        intro j hj
        rw [← hd, List.getElem?_take_of_lt (by omega)]
      have g0 := g 0 (by omega)
      have g1 := g 1 (by omega)
      have g2 := g 2 (by omega)
      have g3 := g 3 (by omega)
      have g4 := g 4 (by omega)
      have g5 := g 5 (by omega)
      have g6 := g 6 (by omega)
      have g7 := g 7 (by omega)
      simp only [List.getElem?_cons_zero, List.getElem?_cons_succ] at g0 g1 g2 g3 g4 g5 g6 g7
      simp only [byteIs, load8, g0, g1, g2, g3, g4, g5, g6, g7, h0, h1, h2, h3, h4, h5, h6, h7,
        andAlso, beq_self_eq_true] at h
      cases h; rfl
    | false =>
      cases b with
      | false => rfl
      | true =>
        exfalso
        rcases andAlso_eq_some h with ⟨_, hr⟩ | ⟨e0, h⟩
        · cases hr
        rcases andAlso_eq_some h with ⟨_, hr⟩ | ⟨e1, h⟩
        · cases hr
        rcases andAlso_eq_some h with ⟨_, hr⟩ | ⟨e2, h⟩
        · cases hr
        rcases andAlso_eq_some h with ⟨_, hr⟩ | ⟨e3, h⟩
        · cases hr
        rcases andAlso_eq_some h with ⟨_, hr⟩ | ⟨e4, h⟩
        · cases hr
        rcases andAlso_eq_some h with ⟨_, hr⟩ | ⟨e5, h⟩
        · cases hr
        rcases andAlso_eq_some h with ⟨_, hr⟩ | ⟨e6, e7⟩
        · cases hr
        obtain ⟨y0, d0, r0⟩ := byteIs_eq_some e0
        obtain ⟨y1, d1, r1⟩ := byteIs_eq_some e1
        obtain ⟨y2, d2, r2⟩ := byteIs_eq_some e2
        obtain ⟨y3, d3, r3⟩ := byteIs_eq_some e3
        obtain ⟨y4, d4, r4⟩ := byteIs_eq_some e4
        obtain ⟨y5, d5, r5⟩ := byteIs_eq_some e5
        obtain ⟨y6, d6, r6⟩ := byteIs_eq_some e6
        obtain ⟨y7, d7, r7⟩ := byteIs_eq_some e7
        rcases d with _ | ⟨a0, _ | ⟨a1, _ | ⟨a2, _ | ⟨a3, _ | ⟨a4, _ | ⟨a5, _ | ⟨a6, _ | ⟨a7, rest⟩⟩⟩⟩⟩⟩⟩⟩
        all_goals try (simp at d0 d1 d2 d3 d4 d5 d6 d7; done)
        simp only [List.getElem?_cons_zero, List.getElem?_cons_succ, Option.some.injEq]
          at d0 d1 d2 d3 d4 d5 d6 d7
        subst d0 d1 d2 d3 d4 d5 d6 d7
        obtain ⟨l', rfl⟩ : ∃ l', l = l' + 8 := ⟨l - 8, by omega⟩
        simp only [pngSigned, List.take_succ_cons, List.take_zero, List.map_cons, List.map_nil,
          List.length_cons, Bool.and_eq_false_iff, decide_eq_false_iff_not] at hp
        have r0' := beq_iff_eq.mp r0.symm
        have r1' := beq_iff_eq.mp r1.symm
        have r2' := beq_iff_eq.mp r2.symm
        have r3' := beq_iff_eq.mp r3.symm
        have r4' := beq_iff_eq.mp r4.symm
        have r5' := beq_iff_eq.mp r5.symm
        have r6' := beq_iff_eq.mp r6.symm
        have r7' := beq_iff_eq.mp r7.symm
        rcases hp with hp | hp
        · omega
        · rw [r0', r1', r2', r3', r4', r5', r6', r7'] at hp
          simp at hp
  · rename_i hl
    cases h
    unfold pngSigned
    have : (d.take l).length < 8 := by simp only [List.length_take]; omega
    simp only [Bool.false_eq, Bool.and_eq_false_iff, decide_eq_false_iff_not]
    exact Or.inl (by omega)

/-! ## Indexing the retained slots -/

theorem kept_lookup {m : Module} {header : Ptr} {allow : Bool} {i : Nat} {e : Slot}
    (h : kept m header allow i = some e) :
    e.resIdx = i ∧ lookup m header i = some (e.data, e.len) := by
  unfold kept at h
  unfold lookup
  split at h
  · cases h
  · rename_i resId hl
    split at h
    · cases h
    · rename_i d l hg
      split at h
      · cases h; exact ⟨rfl, hg⟩
      · split at h
        · cases h; exact ⟨rfl, hg⟩
        · cases h

theorem kept_isSome_eq_retains {m : Module} {header : Ptr} {allow : Bool} {i : Nat}
    (h : scanDefined m header allow i = true) :
    (kept m header allow i).isSome = retains m header allow i := by
  unfold scanDefined at h
  unfold kept retains lookup
  cases hl : load16 header (6 + 14 * i + 12) with
  | none => rw [hl] at h; cases h
  | some resId =>
    rw [hl] at h
    simp only at h ⊢
    cases hg : get_resource m (MAKEINTRESOURCEA resId) RT_ICON with
    | none => rfl
    | some dl =>
      obtain ⟨d, l⟩ := dl
      rw [hg] at h
      simp only at h ⊢
      cases allow with
      | true => rfl
      | false =>
        simp only [Bool.false_or, Bool.false_eq_true, if_false] at h ⊢
        cases hp : is_png d l with
        | none => rw [hp] at h; cases h
        | some b =>
          have := is_png_eq hp
          rw [← this]
          cases b <;> rfl

theorem keptList_map_resIdx (m : Module) (header : Ptr) (allow : Bool) :
    ∀ (n i : Nat), allDefined m header allow n i = true →
      (keptList m header allow n i).map Slot.resIdx
        = (List.range' i n).filter (retains m header allow) := by
  intro n
  induction n with
  | zero => intro i _; simp [keptList]
  | succ n ih =>
    intro i h
    rw [allDefined, Bool.and_eq_true] at h
    obtain ⟨h1, h2⟩ := h
    have hr := kept_isSome_eq_retains h1
    rw [keptList, List.range'_succ, List.filter_cons, ← hr]
    cases hk : kept m header allow i with
    | none => simp only [Option.isSome_none, Bool.false_eq_true, if_false]; exact ih (i + 1) h2
    | some e =>
      simp only [Option.isSome_some, if_true, List.map_cons, (kept_lookup hk).1]
      rw [ih (i + 1) h2]

theorem split_at_index {R : List Slot} {j : Nat} {e : Slot} (h : R[j]? = some e) :
    R = R.take j ++ e :: R.drop (j + 1) ∧ (R.take j).length = j := by
  obtain ⟨hj, he⟩ := List.getElem?_eq_some_iff.mp h
  refine ⟨?_, by simp only [List.length_take]; omega⟩
  rw [← he, ← List.drop_eq_getElem_cons hj, List.take_append_drop]

/-- In the serialisation, directory entry `j` and the payload it points at are
those of the `j`-th retained slot. -/
theorem serialize_index (header : Ptr) (R : List Slot) (j : Nat) (e : Slot)
    (hh : 4 ≤ header.length) (hread : ∀ x ∈ R, Readable header x) (hj : R[j]? = some e) :
    readBytes (serialize header R) (6 + 16 * j) 16
      = some (entryBytes header e (6 + 16 * R.length + sumLens (R.take j))) ∧
    readBytes (serialize header R) (6 + 16 * R.length + sumLens (R.take j)) e.len
      = some (e.data.take e.len) := by
  obtain ⟨hs, hl⟩ := split_at_index hj
  have hread' : ∀ x ∈ R.take j ++ e :: R.drop (j + 1), Readable header x := by
    rw [← hs]; exact hread
  have h1 := serialize_entry header (R.take j) (R.drop (j + 1)) e hh hread'
  have h2 := serialize_payload header (R.take j) (R.drop (j + 1)) e hh hread'
  rw [← hs, hl] at h1
  rw [← hs] at h2
  exact ⟨h1, h2⟩

theorem sumLens_take_succ {R : List Slot} {j : Nat} {e : Slot} (h : R[j]? = some e) :
    sumLens (R.take (j + 1)) = sumLens (R.take j) + e.len := by
  induction R generalizing j with
  | nil => simp at h
  | cons x R ih =>
    cases j with
    | zero =>
      simp only [List.getElem?_cons_zero, Option.some.injEq] at h
      subst h
      simp [sumLens]
    | succ j =>
      simp only [List.getElem?_cons_succ] at h
      simp only [List.take_succ_cons, sumLens, ih h]
      omega

theorem sumLens_take_le (R : List Slot) (j : Nat) : sumLens (R.take j) ≤ sumLens R := by
  induction R generalizing j with
  | nil => simp [sumLens]
  | cons x R ih =>
    cases j with
    | zero => simp [sumLens]
    | succ j =>
      simp only [List.take_succ_cons, sumLens]
      have := ih j
      omega

/-- The fields of a serialised directory entry. -/
theorem entryBytes_fields (header : Ptr) (e : Slot) (off : Nat)
    (hr : 6 + 14 * e.resIdx + 14 ≤ header.length) (hl : e.len < 4294967296)
    (ho : off < 4294967296) :
    (∀ t, t < 8 → (entryBytes header e off)[t]? = header[6 + 14 * e.resIdx + t]?) ∧
    load32 (entryBytes header e off) 8 = some e.len ∧
    load32 (entryBytes header e off) 12 = some off := by
  have hlen : ((header.drop (6 + 14 * e.resIdx)).take 8).length = 8 := by
    simp only [List.length_take, List.length_drop]; omega
  refine ⟨fun t ht => ?_, ?_, ?_⟩
  · unfold entryBytes
    simp only [sizeofIcoHeader, sizeofResIcoDirEntry]
    rw [List.getElem?_append_left (by omega), List.getElem?_take_of_lt ht, List.getElem?_drop]
  · have h : readBytes (entryBytes header e off) 8 4 = some (le32 e.len) :=
      readBytes_at ((header.drop (6 + 14 * e.resIdx)).take 8) (le32 e.len) (le32 off)
        rfl hlen.symm rfl
    have := load32_of_readBytes h 0 (by omega)
    rw [Nat.add_zero] at this
    rw [this]
    have := load32_le32 e.len hl []
    simpa using this
  · have h : readBytes (entryBytes header e off) 12 4 = some (le32 off) :=
      readBytes_at ((header.drop (6 + 14 * e.resIdx)).take 8 ++ le32 e.len) (le32 off) []
        (by simp only [entryBytes, sizeofIcoHeader, sizeofResIcoDirEntry, List.append_assoc,
              List.append_nil])
        (by simp only [List.length_append, hlen, le32_length]) rfl
    have := load32_of_readBytes h 0 (by omega)
    rw [Nat.add_zero] at this
    rw [this]
    have := load32_le32 off ho []
    simpa using this

/-! ## The produced container -/

/-- A successful extraction, read back: the descriptor was found, every sizing
iteration was free of bad reads, a slot was retained, the exact size fits 32 bits
and was granted, and the buffer is the serialisation of the retained slots. -/
theorem extract_buffer_inv {heap : Heap} {m : Module} {name : Nat} {allow : Bool}
    {buf : List Nat} {len : Nat}
    (h : extract_ico_from_module heap m name allow = Result.buffer buf len) :
    ∃ header glen count,
      get_resource m name RT_GROUP_ICON = some (header, glen) ∧
      load16 header 4 = some count ∧
      allDefined m header allow count 0 = true ∧
      keptList m header allow count 0 ≠ [] ∧
      (∀ e ∈ keptList m header allow count 0, Readable header e) ∧
      totalSize (keptList m header allow count 0) < 4294967296 ∧
      heap.mallocOk (totalSize (keptList m header allow count 0)) = true ∧
      len = totalSize (keptList m header allow count 0) ∧
      buf = serialize header (keptList m header allow count 0) := by
  rw [extract_eq] at h
  split at h
  · cases h
  · rename_i header glen hg
    split at h
    · cases h
    · rename_i count hcount
      unfold extractSpec at h
      split at h
      · rename_i hd
        split at h
        · cases h
        · rename_i hz
          split at h
          · rename_i hm
            split at h
            · rename_i hfit
              cases h
              have hu : u32 (totalSize (keptList m header allow count 0))
                  = totalSize (keptList m header allow count 0) := by
                unfold u32; omega
              rw [hu] at hm
              refine ⟨header, glen, count, hg, hcount, hd, ?_,
                readable_of_mapped m header allow count hfit.2, hfit.1, hm, rfl, rfl⟩
              intro h0
              rw [h0] at hz
              exact hz rfl
            · cases h
          · cases h
      · cases h

/-- The same, for the descriptor and the count the caller has in hand. -/
theorem extract_buffer_at {heap : Heap} {m : Module} {name : Nat} {allow : Bool}
    {buf : List Nat} {len : Nat} {header : Ptr} {glen count : Nat}
    (hg : get_resource m name RT_GROUP_ICON = some (header, glen))
    (hcount : load16 header 4 = some count)
    (h : extract_ico_from_module heap m name allow = Result.buffer buf len) :
    allDefined m header allow count 0 = true ∧
    keptList m header allow count 0 ≠ [] ∧
    (∀ e ∈ keptList m header allow count 0, Readable header e) ∧
    totalSize (keptList m header allow count 0) < 4294967296 ∧
    heap.mallocOk (totalSize (keptList m header allow count 0)) = true ∧
    len = totalSize (keptList m header allow count 0) ∧
    buf = serialize header (keptList m header allow count 0) := by
  obtain ⟨header', glen', count', hg', hcount', rest⟩ := extract_buffer_inv h
  rw [hg] at hg'
  cases hg'
  rw [hcount] at hcount'
  cases hcount'
  exact rest

theorem serialize_header (header : Ptr) (R : List Slot) (hh : 6 ≤ header.length)
    (hk : R.length < 65536) :
    (serialize header R).take 4 = header.take 4 ∧
    load16 (serialize header R) 0 = load16 header 0 ∧
    load16 (serialize header R) 2 = load16 header 2 ∧
    load16 (serialize header R) 4 = some R.length := by
  have hl : (header.take 4).length = 4 := by simp only [List.length_take]; omega
  have r1 : readBytes (serialize header R) 0 4 = some (header.take 4) :=
    readBytes_at [] (header.take 4)
      (le16 R.length ++ (dirBytes header R (6 + 16 * R.length) ++ payloadBytes R))
      (by simp only [serialize, List.nil_append]) rfl hl.symm
  have r2 : readBytes header 0 4 = some (header.take 4) := by
    rw [readBytes_eq (by omega)]; rfl
  have r3 : readBytes (serialize header R) 4 2 = some (le16 R.length) :=
    readBytes_at (header.take 4) (le16 R.length)
      (dirBytes header R (6 + 16 * R.length) ++ payloadBytes R)
      (by simp only [serialize]) hl.symm rfl
  refine ⟨?_, ?_, ?_, ?_⟩
  · unfold serialize
    exact List.take_left' hl
  · have a := load16_of_readBytes r1 0 (by omega)
    have b := load16_of_readBytes r2 0 (by omega)
    rw [a, ← b]
  · have a := load16_of_readBytes r1 2 (by omega)
    have b := load16_of_readBytes r2 2 (by omega)
    simp only [Nat.zero_add] at a b
    rw [a, ← b]
  · have a := load16_of_readBytes r3 0 (by omega)
    simp only [Nat.add_zero] at a
    rw [a]
    have := load16_le16 R.length hk []
    simpa using this

theorem keptList_length_filter (m : Module) (header : Ptr) (allow : Bool) (count : Nat)
    (h : allDefined m header allow count 0 = true) :
    (keptList m header allow count 0).length
      = ((List.range count).filter (retains m header allow)).length := by
  rw [List.range_eq_range', ← keptList_map_resIdx m header allow count 0 h, List.length_map]

/-- C1: on every successful extraction the output header is the descriptor's
header with its count field replaced by the number `k` of retained slots
(reserved and type unchanged), and the length stored through `bufLen` is
`6 + 16 * k` plus the sum of the retrieved lengths of the retained payloads; with
PNGs allowed and every declared entry resolving, `k` is the declared count. -/
theorem C1_header_and_length (heap : Heap) (m : Module) (name : Nat) (allow : Bool)
    (buf : List Nat) (len : Nat) (header : Ptr) (glen count : Nat)
    (hg : get_resource m name RT_GROUP_ICON = some (header, glen))
    (hcount : load16 header 4 = some count)
    (h : extract_ico_from_module heap m name allow = Result.buffer buf len) :
    buf.take 4 = header.take 4 ∧
    load16 buf 0 = load16 header 0 ∧
    load16 buf 2 = load16 header 2 ∧
    load16 buf 4 = some (keptList m header allow count 0).length ∧
    (keptList m header allow count 0).length
      = ((List.range count).filter (retains m header allow)).length ∧
    len = 6 + 16 * (keptList m header allow count 0).length
            + sumLens (keptList m header allow count 0) ∧
    buf.length = len ∧
    (allow = true → (∀ i, i < count → (lookup m header i).isSome = true) →
      (keptList m header allow count 0).length = count) := by
  obtain ⟨hd, hR, hread, hT, hm, hlen, hbuf⟩ := extract_buffer_at hg hcount h
  obtain ⟨hb, hc⟩ := load16_some_bound hcount
  have hk := keptList_length_le m header allow count 0
  obtain ⟨s1, s2, s3, s4⟩ := serialize_header header (keptList m header allow count 0)
    (by omega) (by omega)
  have hf := keptList_length_filter m header allow count hd
  refine ⟨?_, ?_, ?_, ?_, hf, ?_, ?_, ?_⟩
  · rw [hbuf]; exact s1
  · rw [hbuf]; exact s2
  · rw [hbuf]; exact s3
  · rw [hbuf]; exact s4
  · rw [hlen]; rfl
  · rw [hbuf, hlen]; exact serialize_length header _ (by omega) hread
  · intro ha hall
    rw [hf]
    have : (List.range count).filter (retains m header allow) = List.range count := by
      rw [List.filter_eq_self]
      intro i hi
      have hi' := List.mem_range.mp hi
      have := hall i hi'
      unfold retains
      cases hl : lookup m header i with
      | none => rw [hl] at this; cases this
      | some dl => obtain ⟨d, l⟩ := dl; simp [ha]
    rw [this, List.length_range]

theorem readBytes_shorter {buf l : List Nat} {off n : Nat} (h : readBytes buf off n = some l)
    (n' : Nat) (hn : n' ≤ n) : readBytes buf off n' = some (l.take n') := by
  have hb := readBytes_bound h
  unfold readBytes at h
  rw [if_pos hb] at h
  cases h
  rw [readBytes_eq (by omega), List.take_take, Nat.min_eq_left hn]

/-- What the serialisation holds for the `j`-th retained slot: the first eight
bytes of its in-module entry, its length, its offset, and its payload there. -/
theorem entry_loads (header : Ptr) (R : List Slot) (j : Nat) (e : Slot)
    (hh : 6 ≤ header.length) (hread : ∀ x ∈ R, Readable header x)
    (hT : totalSize R < 4294967296) (hj : R[j]? = some e) :
    (∀ t, t < 8 → (serialize header R)[6 + 16 * j + t]? = header[6 + 14 * e.resIdx + t]?) ∧
    load32 (serialize header R) (6 + 16 * j + 8) = some e.len ∧
    load32 (serialize header R) (6 + 16 * j + 12)
      = some (6 + 16 * R.length + sumLens (R.take j)) ∧
    readBytes (serialize header R) (6 + 16 * R.length + sumLens (R.take j)) e.len
      = some (e.data.take e.len) ∧
    6 + 16 * j + 16 ≤ (serialize header R).length ∧
    6 + 14 * e.resIdx + 14 ≤ header.length ∧
    e.len ≤ e.data.length ∧
    6 + 16 * R.length + sumLens (R.take j) + e.len ≤ totalSize R := by
  obtain ⟨h1, h2⟩ := serialize_index header R j e (by omega) hread hj
  have hmem : e ∈ R := List.getElem?_mem hj
  have hre := hread e hmem
  have hs1 := sumLens_take_succ hj
  have hs2 := sumLens_take_le R (j + 1)
  have hT' := hT
  unfold totalSize at hT'
  obtain ⟨f1, f2, f3⟩ := entryBytes_fields header e (6 + 16 * R.length + sumLens (R.take j))
    hre.1 (by omega) (by omega)
  refine ⟨fun t ht => ?_, ?_, ?_, h2, ?_, hre.1, hre.2, ?_⟩
  · rw [getElem?_of_readBytes h1 t (by omega), f1 t ht]
  · rw [load32_of_readBytes h1 8 (by omega), f2]
  · rw [load32_of_readBytes h1 12 (by omega), f3]
  · exact readBytes_bound h1
  · unfold totalSize; omega

theorem load8_congr {p q : List Nat} {a b : Nat} (h : p[a]? = q[b]?) :
    load8 p a = load8 q b := by
  unfold load8; rw [h]

theorem load16_congr {p q : List Nat} {a b : Nat} (h0 : p[a]? = q[b]?)
    (h1 : p[a + 1]? = q[b + 1]?) : load16 p a = load16 q b := by
  unfold load16; rw [h0, h1]

/-- C2: the output directory of a successful extraction consists of exactly the
descriptor entries whose image lookup succeeds and for which PNGs are allowed or
the payload is not PNG-signed, in their original order and without gaps: the
output count is the number of such entries, and output entry `j` carries the
leading bytes of the `j`-th such entry. -/
theorem C2_retained_entries (heap : Heap) (m : Module) (name : Nat) (allow : Bool)
    (buf : List Nat) (len : Nat) (header : Ptr) (glen count : Nat)
    (hg : get_resource m name RT_GROUP_ICON = some (header, glen))
    (hcount : load16 header 4 = some count)
    (h : extract_ico_from_module heap m name allow = Result.buffer buf len) :
    (keptList m header allow count 0).map Slot.resIdx
      = (List.range count).filter (retains m header allow) ∧
    load16 buf 4 = some ((List.range count).filter (retains m header allow)).length ∧
    readBytes buf 6 (16 * ((List.range count).filter (retains m header allow)).length)
      = some (dirBytes header (keptList m header allow count 0)
          (6 + 16 * ((List.range count).filter (retains m header allow)).length)) ∧
    (∀ j i, ((List.range count).filter (retains m header allow))[j]? = some i →
      ∃ f8, readBytes header (6 + 14 * i) 8 = some f8 ∧
        readBytes buf (6 + 16 * j) 8 = some f8) := by
  obtain ⟨hd, hR, hread, hT, hm, hlen, hbuf⟩ := extract_buffer_at hg hcount h
  obtain ⟨hb, hc⟩ := load16_some_bound hcount
  have hk := keptList_length_le m header allow count 0
  obtain ⟨s1, s2, s3, s4⟩ := serialize_header header (keptList m header allow count 0)
    (by omega) (by omega)
  have hmap := keptList_map_resIdx m header allow count 0 hd
  rw [← List.range_eq_range'] at hmap
  have hf := keptList_length_filter m header allow count hd
  refine ⟨hmap, ?_, ?_, ?_⟩
  · rw [hbuf, ← hf]; exact s4
  · rw [hbuf, ← hf]
    apply readBytes_at (header.take 4 ++ le16 (keptList m header allow count 0).length) _
      (payloadBytes (keptList m header allow count 0))
    · simp only [serialize, List.append_assoc]
    · simp only [List.length_append, List.length_take, le16_length]; omega
    · rw [dirBytes_length header _ _ hread]
  · intro j i hji
    rw [← hmap, List.getElem?_map] at hji
    cases he : (keptList m header allow count 0)[j]? with
    | none => rw [he] at hji; cases hji
    | some e =>
      rw [he] at hji
      simp only [Option.map_some', Option.some.injEq] at hji
      obtain ⟨h1, _⟩ := serialize_index header _ j e (by omega) hread he
      have hre := hread e (List.getElem?_mem he)
      refine ⟨(header.drop (6 + 14 * i)).take 8, readBytes_eq (by rw [← hji]; have := hre.1; omega),
        ?_⟩
      rw [hbuf, readBytes_shorter h1 8 (by omega)]
      unfold entryBytes
      simp only [sizeofIcoHeader, sizeofResIcoDirEntry, hji]
      rw [List.take_left' (by simp only [List.length_take, List.length_drop]
                              have := hre.1
                              omega)]

/-- C3: in every produced container, each output directory entry has the six
shared fields (width, height, colorCount, reserved, planes, bitCount) of the
in-module entry it was built from, and its size field is the length returned by
the resource lookup for that entry, whatever length the in-module entry records. -/
theorem C3_entry_fields (heap : Heap) (m : Module) (name : Nat) (allow : Bool)
    (buf : List Nat) (len : Nat) (header : Ptr) (glen count : Nat)
    (hg : get_resource m name RT_GROUP_ICON = some (header, glen))
    (hcount : load16 header 4 = some count)
    (h : extract_ico_from_module heap m name allow = Result.buffer buf len) :
    ∀ j e, (keptList m header allow count 0)[j]? = some e →
      lookup m header e.resIdx = some (e.data, e.len) ∧
      6 + 16 * j + 16 ≤ buf.length ∧
      6 + 14 * e.resIdx + 14 ≤ header.length ∧
      load8 buf (6 + 16 * j) = load8 header (6 + 14 * e.resIdx) ∧
      load8 buf (6 + 16 * j + 1) = load8 header (6 + 14 * e.resIdx + 1) ∧
      load8 buf (6 + 16 * j + 2) = load8 header (6 + 14 * e.resIdx + 2) ∧
      load8 buf (6 + 16 * j + 3) = load8 header (6 + 14 * e.resIdx + 3) ∧
      load16 buf (6 + 16 * j + 4) = load16 header (6 + 14 * e.resIdx + 4) ∧
      load16 buf (6 + 16 * j + 6) = load16 header (6 + 14 * e.resIdx + 6) ∧
      load32 buf (6 + 16 * j + 8) = some e.len := by
  obtain ⟨hd, hR, hread, hT, hm, hlen, hbuf⟩ := extract_buffer_at hg hcount h
  obtain ⟨hb, hc⟩ := load16_some_bound hcount
  intro j e hj
  obtain ⟨f, g1, g2, g3, g4, g5, g6, g7⟩ := entry_loads header _ j e (by omega) hread hT hj
  obtain ⟨i, _, _, hk⟩ := keptList_mem m header allow count 0 e (List.getElem?_mem hj)
  obtain ⟨k1, k2⟩ := kept_lookup hk
  rw [← k1] at k2
  rw [hbuf]
  refine ⟨k2, g4, g5, ?_, ?_, ?_, ?_, ?_, ?_, g1⟩
  · exact load8_congr (f 0 (by omega))
  · exact load8_congr (f 1 (by omega))
  · exact load8_congr (f 2 (by omega))
  · exact load8_congr (f 3 (by omega))
  · exact load16_congr (f 4 (by omega)) (f 5 (by omega))
  · exact load16_congr (f 6 (by omega)) (f 7 (by omega))

/-- C4: in every produced container with `k` entries, the first entry's offset
is `6 + 16 * k`, and each entry's offset plus its size is the next entry's
offset. -/
theorem C4_offsets (heap : Heap) (m : Module) (name : Nat) (allow : Bool)
    (buf : List Nat) (len : Nat)
    (h : extract_ico_from_module heap m name allow = Result.buffer buf len) :
    ∃ k, load16 buf 4 = some k ∧ 1 ≤ k ∧
      load32 buf (6 + 12) = some (6 + 16 * k) ∧
      ∀ i, i + 1 < k →
        ∃ o s, load32 buf (6 + 16 * i + 12) = some o ∧
          load32 buf (6 + 16 * i + 8) = some s ∧
          load32 buf (6 + 16 * (i + 1) + 12) = some (o + s) := by
  obtain ⟨header, glen, count, hg, hcount, hd, hR, hread, hT, hm, hlen, hbuf⟩ :=
    extract_buffer_inv h
  obtain ⟨hb, hc⟩ := load16_some_bound hcount
  have hk := keptList_length_le m header allow count 0
  obtain ⟨_, _, _, s4⟩ := serialize_header header (keptList m header allow count 0)
    (by omega) (by omega)
  have hpos : 0 < (keptList m header allow count 0).length := List.length_pos.mpr hR
  refine ⟨(keptList m header allow count 0).length, by rw [hbuf]; exact s4, hpos, ?_, ?_⟩
  · have h0 : (keptList m header allow count 0)[0]?
        = some ((keptList m header allow count 0)[0]) := List.getElem?_eq_getElem hpos
    obtain ⟨_, _, g2, _⟩ := entry_loads header _ 0 _ (by omega) hread hT h0
    simp only [List.take_zero, sumLens, Nat.mul_zero, Nat.add_zero] at g2
    rw [hbuf]
    exact g2
  · intro i hi
    have h0 : (keptList m header allow count 0)[i]?
        = some ((keptList m header allow count 0)[i]) := List.getElem?_eq_getElem (by omega)
    have h1 : (keptList m header allow count 0)[i + 1]?
        = some ((keptList m header allow count 0)[i + 1]) := List.getElem?_eq_getElem (by omega)
    obtain ⟨_, a1, a2, _⟩ := entry_loads header _ i _ (by omega) hread hT h0
    obtain ⟨_, _, b2, _⟩ := entry_loads header _ (i + 1) _ (by omega) hread hT h1
    rw [sumLens_take_succ h0, ← Nat.add_assoc] at b2
    rw [hbuf]
    exact ⟨_, _, a2, a1, b2⟩

/-- C5: in every produced container, the bytes from output entry `j`'s offset
on, as many as its size, are exactly the bytes the resource lookup returned for
the `j`-th retained in-module entry. -/
theorem C5_payload_bytes (heap : Heap) (m : Module) (name : Nat) (allow : Bool)
    (buf : List Nat) (len : Nat) (header : Ptr) (glen count : Nat)
    (hg : get_resource m name RT_GROUP_ICON = some (header, glen))
    (hcount : load16 header 4 = some count)
    (h : extract_ico_from_module heap m name allow = Result.buffer buf len) :
    ∀ j e, (keptList m header allow count 0)[j]? = some e →
      lookup m header e.resIdx = some (e.data, e.len) ∧
      e.len ≤ e.data.length ∧
      ∃ o, load32 buf (6 + 16 * j + 12) = some o ∧
        load32 buf (6 + 16 * j + 8) = some e.len ∧
        o + e.len ≤ buf.length ∧
        readBytes buf o e.len = some (e.data.take e.len) := by
  obtain ⟨hd, hR, hread, hT, hm, hlen, hbuf⟩ := extract_buffer_at hg hcount h
  obtain ⟨hb, hc⟩ := load16_some_bound hcount
  intro j e hj
  obtain ⟨_, g1, g2, g3, _, _, g6, g7⟩ := entry_loads header _ j e (by omega) hread hT hj
  obtain ⟨i, _, _, hk⟩ := keptList_mem m header allow count 0 e (List.getElem?_mem hj)
  obtain ⟨k1, k2⟩ := kept_lookup hk
  rw [← k1] at k2
  rw [hbuf]
  refine ⟨k2, g6, _, g2, g1, ?_, g3⟩
  rw [serialize_length header _ (by omega) hread]
  exact g7

/-! ## Failure conditions and the PNG flag -/

theorem andAlso_isSome {a b : Option Bool} (ha : a.isSome = true) (hb : b.isSome = true) :
    (andAlso a b).isSome = true := by
  unfold andAlso
  cases a with
  | none => cases ha
  | some x => cases x <;> simp [hb]

theorem byteIs_isSome {d : Ptr} {j v : Nat} (h : j < d.length) :
    (byteIs d j v).isSome = true := by
  unfold byteIs load8
  rw [List.getElem?_eq_getElem h]
  rfl

theorem is_png_isSome {d : Ptr} {l : Nat} (h : l ≤ d.length) : (is_png d l).isSome = true := by
  unfold is_png
  split
  · refine andAlso_isSome (byteIs_isSome (by omega)) (andAlso_isSome (byteIs_isSome (by omega))
      (andAlso_isSome (byteIs_isSome (by omega)) (andAlso_isSome (byteIs_isSome (by omega))
      (andAlso_isSome (byteIs_isSome (by omega)) (andAlso_isSome (byteIs_isSome (by omega))
      (andAlso_isSome (byteIs_isSome (by omega)) (byteIs_isSome (by omega))))))))
  · rfl

theorem is_png_of_mapped {d : Ptr} {l : Nat} (h : l ≤ d.length) :
    is_png d l = some (pngSigned (d.take l)) := by
  have := is_png_isSome h
  cases hp : is_png d l with
  | none => rw [hp] at this; cases this
  | some b => rw [is_png_eq hp]

theorem load16_isSome {p : Ptr} {off : Nat} (h : off + 2 ≤ p.length) :
    ∃ v, load16 p off = some v := by
  unfold load16
  rw [List.getElem?_eq_getElem (by omega), List.getElem?_eq_getElem (by omega)]
  exact ⟨_, rfl⟩

theorem scanDefined_of_mapped {m : Module} {header : Ptr} {allow : Bool} {i : Nat}
    (hm : m.Mapped) (hi : 6 + 14 * i + 14 ≤ header.length) :
    scanDefined m header allow i = true := by
  unfold scanDefined
  obtain ⟨v, hv⟩ : ∃ v, load16 header (6 + 14 * i + 12) = some v :=
    load16_isSome (by omega)
  rw [hv]
  simp only
  cases hg : get_resource m (MAKEINTRESOURCEA v) RT_ICON with
  | none => rfl
  | some dl =>
    obtain ⟨d, l⟩ := dl
    simp only [Bool.or_eq_true]
    exact Or.inr (is_png_isSome (hm _ _ d l hg))

theorem allDefined_of_mapped {m : Module} {header : Ptr} {allow : Bool} (hm : m.Mapped) :
    ∀ (n i : Nat), 6 + 14 * (i + n) ≤ header.length → allDefined m header allow n i = true := by
  intro n
  induction n with
  | zero => intro i _; rfl
  | succ n ih =>
    intro i h
    rw [allDefined, Bool.and_eq_true]
    exact ⟨scanDefined_of_mapped hm (by omega), ih (i + 1) (by omega)⟩

theorem keptList_eq_nil_iff (m : Module) (header : Ptr) (allow : Bool) (count : Nat)
    (hd : allDefined m header allow count 0 = true) :
    keptList m header allow count 0 = [] ↔ ∀ i, i < count → retains m header allow i = false := by
  have hmap := keptList_map_resIdx m header allow count 0 hd
  rw [← List.range_eq_range'] at hmap
  constructor
  · intro h0 i hi
    rw [h0, List.map_nil] at hmap
    have := List.filter_eq_nil_iff.mp hmap.symm i (List.mem_range.mpr hi)
    simpa using this
  · intro hall
    have : (List.range count).filter (retains m header allow) = [] := by
      rw [List.filter_eq_nil_iff]
      intro i hi
      rw [hall i (List.mem_range.mp hi)]
      simp
    rw [this] at hmap
    exact List.map_eq_nil_iff.mp hmap

theorem payloadsMapped_of_mapped {m : Module} {header : Ptr} {allow : Bool} (hm : m.Mapped)
    (n i : Nat) : payloadsMapped (keptList m header allow n i) = true := by
  unfold payloadsMapped
  rw [List.all_eq_true]
  intro e he
  obtain ⟨j, _, _, hk⟩ := keptList_mem m header allow n i e he
  obtain ⟨_, hl⟩ := kept_lookup hk
  unfold lookup at hl
  split at hl
  · cases hl
  · simp only [decide_eq_true_eq]
    exact hm _ _ _ _ hl

/-- With `malloc` granting every request and the module's memory mapped,
`extract_ico_from_module` returns NULL exactly when the group descriptor is not
found or none of its declared entries is retained (a declared count of 0
included); a failed lookup of some entries is not fatal: as soon as one entry is
retained the call does not return NULL, and it returns the container of the
retained entries whenever that container's size fits 32 bits. -/
theorem extract_null_iff (heap : Heap) (m : Module) (name : Nat) (allow : Bool)
    (hmalloc : ∀ n, heap.mallocOk n = true) (hm : m.Mapped) (hdesc : DescriptorMapped m name) :
    (extract_ico_from_module heap m name allow = Result.null ↔
      (get_resource m name RT_GROUP_ICON = none ∨
        ∃ header glen count, get_resource m name RT_GROUP_ICON = some (header, glen) ∧
          load16 header 4 = some count ∧
          ∀ i, i < count → retains m header allow i = false)) ∧
    (∀ header glen count, get_resource m name RT_GROUP_ICON = some (header, glen) →
      load16 header 4 = some count →
      (∃ i, i < count ∧ retains m header allow i = true) →
      extract_ico_from_module heap m name allow ≠ Result.null ∧
      (totalSize (keptList m header allow count 0) < 4294967296 →
        extract_ico_from_module heap m name allow
          = Result.buffer (serialize header (keptList m header allow count 0))
              (totalSize (keptList m header allow count 0)))) ∧
    (∀ buf len, extract_ico_from_module heap m name allow = Result.buffer buf len →
      ∃ header glen count, get_resource m name RT_GROUP_ICON = some (header, glen) ∧
        load16 header 4 = some count ∧ ∃ i, i < count ∧ retains m header allow i = true) := by
  have key : ∀ header glen count, get_resource m name RT_GROUP_ICON = some (header, glen) →
      load16 header 4 = some count →
      allDefined m header allow count 0 = true ∧
      extract_ico_from_module heap m name allow = extractSpec heap m header allow count := by
    intro header glen count hg hc
    obtain ⟨c', hc', hlen⟩ := hdesc header glen hg
    rw [hc] at hc'
    cases hc'
    refine ⟨allDefined_of_mapped hm count 0 (by omega), ?_⟩
    rw [extract_eq, hg]
    simp only [hc]
  have retained_iff : ∀ header count, allDefined m header allow count 0 = true →
      ((∃ i, i < count ∧ retains m header allow i = true) ↔
        (keptList m header allow count 0).length ≠ 0) := by
    intro header count hd
    have := keptList_eq_nil_iff m header allow count hd
    constructor
    · rintro ⟨i, hi, hr⟩ h0
      have h1 := this.mp (List.eq_nil_of_length_eq_zero h0) i hi
      rw [hr] at h1
      cases h1
    · intro hne
      by_contra hcon
      apply hne
      have : keptList m header allow count 0 = [] := by
        apply this.mpr
        intro i hi
        cases hr : retains m header allow i with
        | false => rfl
        | true => exact absurd ⟨i, hi, hr⟩ hcon
      rw [this]
      rfl
  refine ⟨?_, ?_, ?_⟩
  · constructor
    · intro h
      cases hg : get_resource m name RT_GROUP_ICON with
      | none => exact Or.inl rfl
      | some hl =>
        obtain ⟨header, glen⟩ := hl
        obtain ⟨count, hc, _⟩ := hdesc header glen hg
        obtain ⟨hd, he⟩ := key header glen count hg hc
        refine Or.inr ⟨header, glen, count, rfl, hc, ?_⟩
        rw [he] at h
        unfold extractSpec at h
        rw [if_pos hd, hmalloc] at h
        simp only [if_true] at h
        split at h
        · rename_i hz
          exact (keptList_eq_nil_iff m header allow count hd).mp
            (List.eq_nil_of_length_eq_zero hz)
        · split at h <;> cases h
    · rintro (hg | ⟨header, glen, count, hg, hc, hall⟩)
      · rw [extract_eq, hg]
      · obtain ⟨hd, he⟩ := key header glen count hg hc
        rw [he]
        unfold extractSpec
        rw [if_pos hd, (keptList_eq_nil_iff m header allow count hd).mpr hall]
        rfl
  · intro header glen count hg hc hex
    obtain ⟨hd, he⟩ := key header glen count hg hc
    have hne := (retained_iff header count hd).mp hex
    rw [he]
    unfold extractSpec
    rw [if_pos hd, if_neg hne, hmalloc]
    simp only [if_true]
    refine ⟨?_, ?_⟩
    · split <;> simp
    · intro hT
      rw [if_pos ⟨hT, payloadsMapped_of_mapped hm count 0⟩]
  · intro buf len h
    obtain ⟨header, glen, count, hg, hc, hd, hR, _⟩ := extract_buffer_inv h
    refine ⟨header, glen, count, hg, hc, (retained_iff header count hd).mpr ?_⟩
    intro h0
    exact hR (List.eq_nil_of_length_eq_zero h0)

/-- The retained slots do not depend on the flag when no lookup result is
PNG-signed. -/
theorem kept_flag_irrelevant {m : Module} {header : Ptr} {i : Nat} (hm : m.Mapped)
    (hno : ∀ d l, lookup m header i = some (d, l) → pngSigned (d.take l) = false) :
    kept m header false i = kept m header true i ∧
    scanDefined m header false i = scanDefined m header true i := by
  unfold kept scanDefined
  unfold lookup at hno
  cases hl : load16 header (6 + 14 * i + 12) with
  | none => exact ⟨rfl, rfl⟩
  | some resId =>
    rw [hl] at hno
    simp only at hno ⊢
    cases hg : get_resource m (MAKEINTRESOURCEA resId) RT_ICON with
    | none => exact ⟨rfl, rfl⟩
    | some dl =>
      obtain ⟨d, l⟩ := dl
      have h1 := hno d l hg
      have h2 := is_png_of_mapped (hm _ _ d l hg)
      rw [h1] at h2
      simp [h2]

theorem keptList_flag_irrelevant {m : Module} (header : Ptr) (hm : m.Mapped) :
    ∀ (n i : Nat),
      (∀ j, i ≤ j → j < i + n → ∀ d l, lookup m header j = some (d, l) →
        pngSigned (d.take l) = false) →
      keptList m header false n i = keptList m header true n i ∧
      allDefined m header false n i = allDefined m header true n i := by
  intro n
  induction n with
  | zero => intro i _; exact ⟨rfl, rfl⟩
  | succ n ih =>
    intro i h
    obtain ⟨a, b⟩ := kept_flag_irrelevant hm (h i (le_refl i) (by omega))
    obtain ⟨c, d⟩ := ih (i + 1) (fun j h1 h2 => h j (by omega) (by omega))
    refine ⟨?_, ?_⟩
    · rw [keptList, keptList, a, c]
    · rw [allDefined, allDefined, b, d]

/-- C8: when no image the group descriptor resolves to begins with the PNG
signature, extraction without embedded PNGs gives the same outcome (same
success or failure, same length, same bytes) as extraction with them. -/
theorem C8_flag_irrelevant_without_png (heap : Heap) (m : Module) (name : Nat)
    (hm : m.Mapped)
    (hno : ∀ header glen count i d l, get_resource m name RT_GROUP_ICON = some (header, glen) →
      load16 header 4 = some count → i < count → lookup m header i = some (d, l) →
      pngSigned (d.take l) = false) :
    extract_ico_from_module heap m name false = extract_ico_from_module heap m name true := by
  rw [extract_eq, extract_eq]
  cases hg : get_resource m name RT_GROUP_ICON with
  | none => rfl
  | some hl =>
    obtain ⟨header, glen⟩ := hl
    simp only
    cases hc : load16 header 4 with
    | none => rfl
    | some count =>
      simp only
      obtain ⟨a, b⟩ := keptList_flag_irrelevant header hm count 0
        (fun j _ h2 d l hl => hno header glen count j d l hg hc (by omega) hl)
      unfold extractSpec
      rw [a, b]

/-! ## The entry points -/

/-- C9: the two by-path entry points return NULL for a NULL path and for a NULL
`bufLen`, and the by-handle, by-pid and default entry points return NULL for a
NULL `bufLen`, in each case without having made any Win32 call. -/
theorem C9_null_arguments (os : Os) (allow : Bool) :
    (∀ bufLen, get_exe_icon_from_file_utf8 os none allow bufLen = (Result.null, [])) ∧
    (∀ path, get_exe_icon_from_file_utf8 os path allow false = (Result.null, [])) ∧
    (∀ bufLen, get_exe_icon_from_file_utf16 os none allow bufLen = (Result.null, [])) ∧
    (∀ path, get_exe_icon_from_file_utf16 os path allow false = (Result.null, [])) ∧
    (∀ process, get_exe_icon_from_handle os process allow false = (Result.null, [])) ∧
    (∀ pid, get_exe_icon_from_pid os pid allow false = (Result.null, [])) ∧
    get_default_exe_icon os allow false = (Result.null, []) := by
  refine ⟨fun b => rfl, fun p => ?_, fun b => rfl, fun p => ?_, fun p => ?_, fun p => rfl, rfl⟩
  · cases p <;> rfl
  · cases p <;> rfl
  · simp [get_exe_icon_from_handle]

/-! ## The descriptor's length -/

theorem kept_congr_module {m m' : Module} (header : Ptr) (allow : Bool)
    (himg : ∀ id, get_resource m id RT_ICON = get_resource m' id RT_ICON) (i : Nat) :
    kept m header allow i = kept m' header allow i ∧
    scanDefined m header allow i = scanDefined m' header allow i := by
  unfold kept scanDefined
  cases load16 header (6 + 14 * i + 12) with
  | none => exact ⟨rfl, rfl⟩
  | some resId =>
    simp only
    rw [himg]
    exact ⟨rfl, rfl⟩

theorem keptList_congr_module {m m' : Module} (header : Ptr) (allow : Bool)
    (himg : ∀ id, get_resource m id RT_ICON = get_resource m' id RT_ICON) :
    ∀ (n i : Nat), keptList m header allow n i = keptList m' header allow n i ∧
      allDefined m header allow n i = allDefined m' header allow n i := by
  intro n
  induction n with
  | zero => intro i; exact ⟨rfl, rfl⟩
  | succ n ih =>
    intro i
    obtain ⟨a, b⟩ := kept_congr_module header allow himg i
    obtain ⟨c, d⟩ := ih (i + 1)
    refine ⟨?_, ?_⟩
    · rw [keptList, keptList, a, c]
    · rw [allDefined, allDefined, b, d]

/-- C10, refuted as stated: a descriptor resource of length 6 declares one entry,
so its length is smaller than `6 + 14 * 1`, and extraction still produces a
container, built from the bytes that follow the resource in memory. -/
theorem C10_counterexample :
    get_resource (moduleWithLen 6) 1 RT_GROUP_ICON = some (shortDescriptor, 6) ∧
    load16 shortDescriptor 4 = some 1 ∧
    6 < 6 + 14 * 1 ∧
    extract_ico_from_module sampleHeap (moduleWithLen 6) 1 true
      = Result.buffer sampleContainer 25 := by
  decide

/-- C10, amended: the length of the group descriptor is never compared with
`6 + 14 * count`. A descriptor of length zero is not found and extraction returns
NULL; for every other length the outcome is the same: two modules that expose the
same memory at the descriptor's address and the same images yield the same
result, whatever lengths they report for the descriptor. -/
theorem C10_length_not_checked (heap : Heap) (m m' : Module) (name : Nat) (allow : Bool)
    (header : Ptr) (glen glen' : Nat)
    (h1 : get_resource m name RT_GROUP_ICON = some (header, glen))
    (h2 : get_resource m' name RT_GROUP_ICON = some (header, glen'))
    (himg : ∀ id, get_resource m id RT_ICON = get_resource m' id RT_ICON) :
    extract_ico_from_module heap m name allow = extract_ico_from_module heap m' name allow ∧
    (∀ (z : Module) (resInfo : Nat), z.FindResourceA name RT_GROUP_ICON = some resInfo →
      u32 (z.SizeofResource resInfo) = 0 →
      extract_ico_from_module heap z name allow = Result.null) := by
  refine ⟨?_, ?_⟩
  · rw [extract_eq, extract_eq, h1, h2]
    simp only
    cases load16 header 4 with
    | none => rfl
    | some count =>
      simp only
      obtain ⟨a, b⟩ := keptList_congr_module header allow himg count 0
      unfold extractSpec
      rw [a, b]
  · intro z resInfo hf hz
    have : get_resource z name RT_GROUP_ICON = none := by
      unfold get_resource
      rw [hf]
      simp only [hz, if_true]
    rw [extract_eq, this]

/-- The amended C10 at work: the same memory reported 6 bytes long (shorter than
the declared entry needs) and 20 bytes long gives the same container. -/
theorem C10_length_not_checked_witness :
    get_resource (moduleWithLen 6) 1 RT_GROUP_ICON = some (shortDescriptor, 6) ∧
    get_resource (moduleWithLen 20) 1 RT_GROUP_ICON = some (shortDescriptor, 20) ∧
    (extract_ico_from_module sampleHeap (moduleWithLen 6) 1 true
        = extract_ico_from_module sampleHeap (moduleWithLen 20) 1 true ∧
      (∀ (z : Module) (resInfo : Nat), z.FindResourceA 1 RT_GROUP_ICON = some resInfo →
        u32 (z.SizeofResource resInfo) = 0 →
        extract_ico_from_module sampleHeap z 1 true = Result.null)) :=
  ⟨by decide, by decide,
    C10_length_not_checked sampleHeap (moduleWithLen 6) (moduleWithLen 20) 1 true
      shortDescriptor 6 20 (by decide) (by decide)
      (fun id => by
        unfold get_resource moduleWithLen RT_ICON
        by_cases h : id = 1
        · subst h; rfl
        · simp [h])⟩

/-! ## The round trip through a module -/

theorem resDir_length (idOf : Nat → Nat) (l : List IcoImage) (i : Nat)
    (h : ∀ img ∈ l, img.fields.length = 8) : (resDir idOf l i).length = 14 * l.length := by
  induction l generalizing i with
  | nil => rfl
  | cons img rest ih =>
    simp only [resDir, List.length_append, List.length_cons, le32_length, le16_length,
      h img (List.mem_cons_self _ _), ih (i + 1) (fun x hx => h x (List.mem_cons_of_mem _ hx))]
    omega

theorem diskDir_length (l : List IcoImage) (off : Nat)
    (h : ∀ img ∈ l, img.fields.length = 8) : (diskDir l off).length = 16 * l.length := by
  induction l generalizing off with
  | nil => rfl
  | cons img rest ih =>
    simp only [diskDir, List.length_append, List.length_cons, le32_length,
      h img (List.mem_cons_self _ _), ih _ (fun x hx => h x (List.mem_cons_of_mem _ hx))]
    omega

theorem resDir_append (idOf : Nat → Nat) (l1 l2 : List IcoImage) (i : Nat) :
    resDir idOf (l1 ++ l2) i = resDir idOf l1 i ++ resDir idOf l2 (i + l1.length) := by
  induction l1 generalizing i with
  | nil => simp [resDir]
  | cons img rest ih =>
    rw [List.cons_append]
    simp only [resDir, List.length_cons]
    have : i + 1 + rest.length = i + (rest.length + 1) := by omega
    rw [ih, this]
    simp only [List.append_assoc]

theorem slotsOf_length (l : List IcoImage) (i : Nat) : (slotsOf l i).length = l.length := by
  induction l generalizing i with
  | nil => rfl
  | cons img rest ih => simp only [slotsOf, List.length_cons, ih]

theorem slotsOf_sumLens (l : List IcoImage) (i : Nat) :
    sumLens (slotsOf l i) = (payloadsOf l).length := by
  induction l generalizing i with
  | nil => rfl
  | cons img rest ih => simp only [slotsOf, sumLens, payloadsOf, List.length_append, ih]

theorem slotsOf_payloadBytes (l : List IcoImage) (i : Nat) :
    payloadBytes (slotsOf l i) = payloadsOf l := by
  induction l generalizing i with
  | nil => rfl
  | cons img rest ih => simp only [slotsOf, payloadBytes, payloadsOf, List.take_length, ih]

theorem slotsOf_mapped (l : List IcoImage) (i : Nat) : payloadsMapped (slotsOf l i) = true := by
  induction l generalizing i with
  | nil => rfl
  | cons img rest ih =>
    have := ih (i + 1)
    unfold payloadsMapped at this ⊢
    simp only [slotsOf, List.all_cons, this, Bool.and_true, decide_eq_true_eq]
    exact le_refl _

theorem find?_range_of_unique (p : Nat → Bool) :
    ∀ (n i : Nat), i < n → (∀ j, j < n → (p j = true ↔ j = i)) →
      (List.range n).find? p = some i := by
  intro n
  induction n with
  | zero => intro i hi; omega
  | succ n ih =>
    intro i hi h
    rw [List.range_succ, List.find?_append]
    by_cases hin : i < n
    · rw [ih i hin (fun j hj => h j (by omega))]
      rfl
    · have hi' : i = n := by omega
      subst hi'
      have hnone : (List.range i).find? p = none := by
        rw [List.find?_eq_none]
        intro j hj
        have hj' := List.mem_range.mp hj
        intro hp
        have := (h j (by omega)).mp hp
        omega
      rw [hnone]
      have hp : p i = true := (h i (by omega)).mpr rfl
      simp [hp]

/-- The in-module entry of the image that follows `pre`. -/
theorem descriptor_entry (f : IcoFile) (idOf : Nat → Nat) (pre suf : List IcoImage)
    (img : IcoImage) (himgs : f.images = pre ++ img :: suf) (hhead : f.head.length = 4)
    (hfields : ∀ x ∈ f.images, x.fields.length = 8) :
    readBytes (f.descriptor idOf) (6 + 14 * pre.length) 14
      = some (img.fields ++ (le32 img.payload.length ++ le16 (idOf pre.length))) := by
  have hpre : ∀ x ∈ pre, x.fields.length = 8 := fun x hx =>
    hfields x (by rw [himgs]; exact List.mem_append_left _ hx)
  have himg : img.fields.length = 8 := hfields img (by rw [himgs]; simp)
  apply readBytes_at (f.head ++ (le16 f.images.length ++ resDir idOf pre 0)) _
    (resDir idOf suf (pre.length + 1))
  · unfold IcoFile.descriptor
    rw [himgs, resDir_append]
    simp only [resDir, List.append_assoc, Nat.zero_add]
  · simp only [List.length_append, le16_length, hhead, resDir_length idOf pre 0 hpre]
    omega
  · simp only [List.length_append, le32_length, le16_length, himg]

theorem descriptor_fields (f : IcoFile) (idOf : Nat → Nat) (pre suf : List IcoImage)
    (img : IcoImage) (himgs : f.images = pre ++ img :: suf) (hhead : f.head.length = 4)
    (hfields : ∀ x ∈ f.images, x.fields.length = 8) (hid : idOf pre.length < 65536) :
    ((f.descriptor idOf).drop (6 + 14 * pre.length)).take 8 = img.fields ∧
    load16 (f.descriptor idOf) (6 + 14 * pre.length + 12) = some (idOf pre.length) := by
  have h := descriptor_entry f idOf pre suf img himgs hhead hfields
  have himg : img.fields.length = 8 := hfields img (by rw [himgs]; simp)
  refine ⟨?_, ?_⟩
  · have h8 := readBytes_shorter h 8 (by omega)
    rw [readBytes_eq (by have := readBytes_bound h; omega)] at h8
    rw [Option.some.inj h8, List.take_left' himg]
  · rw [load16_of_readBytes h 12 (by omega)]
    have hr : readBytes (img.fields ++ (le32 img.payload.length ++ le16 (idOf pre.length))) 12 2
        = some (le16 (idOf pre.length)) :=
      readBytes_at (img.fields ++ le32 img.payload.length) (le16 (idOf pre.length)) []
        (by simp only [List.append_assoc, List.append_nil])
        (by simp only [List.length_append, le32_length, himg]) rfl
    have := load16_of_readBytes hr 0 (by omega)
    simp only [Nat.add_zero] at this
    rw [this]
    have := load16_le16 (idOf pre.length) hid []
    simpa using this

theorem descriptor_length (f : IcoFile) (idOf : Nat → Nat) (hhead : f.head.length = 4)
    (hfields : ∀ x ∈ f.images, x.fields.length = 8) :
    (f.descriptor idOf).length = 6 + 14 * f.images.length := by
  simp only [IcoFile.descriptor, List.length_append, le16_length, hhead,
    resDir_length idOf f.images 0 hfields]
  omega

theorem bytes_length (f : IcoFile) (hhead : f.head.length = 4)
    (hfields : ∀ x ∈ f.images, x.fields.length = 8) :
    f.bytes.length = totalSize (slotsOf f.images 0) := by
  simp only [IcoFile.bytes, totalSize, List.length_append, le16_length, hhead,
    diskDir_length f.images _ hfields, slotsOf_length, slotsOf_sumLens]
  omega

theorem payloadsOf_length_ge (l : List IcoImage) (img : IcoImage) (h : img ∈ l) :
    img.payload.length ≤ (payloadsOf l).length := by
  induction l with
  | nil => cases h
  | cons x rest ih =>
    simp only [payloadsOf, List.length_append]
    rcases List.mem_cons.mp h with rfl | hm
    · omega
    · have := ih hm; omega

/-- The image lookup in the split module finds image `i` under its id. -/
theorem toModule_icon (f : IcoFile) (gname : Nat) (idOf : Nat → Nat) (i : Nat) (img : IcoImage)
    (hi : f.images[i]? = some img)
    (hid : idOf i < 65536)
    (hinj : ∀ a b, a < f.images.length → b < f.images.length → idOf a = idOf b → a = b)
    (hlen : 0 < img.payload.length) (hlt : img.payload.length < 4294967296) :
    get_resource (f.toModule gname idOf) (MAKEINTRESOURCEA (idOf i)) RT_ICON
      = some (img.payload, img.payload.length) := by
  have hin : i < f.images.length := (List.getElem?_eq_some_iff.mp hi).1
  have hmk : MAKEINTRESOURCEA (idOf i) = idOf i := by
    unfold MAKEINTRESOURCEA u16; omega
  have hfind : (List.range f.images.length).find? (fun j => idOf j == idOf i) = some i := by
    apply find?_range_of_unique _ _ i hin
    intro j hj
    simp only [beq_iff_eq]
    constructor
    · intro h; exact hinj j i hj hin h
    · intro h; rw [h]
  have hne : RT_ICON ≠ RT_GROUP_ICON := by decide
  have hu : u32 img.payload.length = img.payload.length := by unfold u32; omega
  unfold get_resource
  simp only [IcoFile.toModule, hmk, if_neg hne, if_true, hfind, Nat.add_sub_cancel, hi,
    Nat.succ_ne_zero, if_false, hu]
  rw [if_neg (by omega)]

theorem toModule_group (f : IcoFile) (gname : Nat) (idOf : Nat → Nat)
    (hhead : f.head.length = 4) (hfields : ∀ x ∈ f.images, x.fields.length = 8)
    (hn : f.images.length < 65536) :
    get_resource (f.toModule gname idOf) gname RT_GROUP_ICON
      = some (f.descriptor idOf, (f.descriptor idOf).length) := by
  have hl := descriptor_length f idOf hhead hfields
  have hu : u32 (f.descriptor idOf).length = (f.descriptor idOf).length := by
    unfold u32; omega
  unfold get_resource
  simp only [IcoFile.toModule, if_true, hu]
  rw [if_neg (by omega)]

theorem descriptor_count (f : IcoFile) (idOf : Nat → Nat) (hhead : f.head.length = 4)
    (hn : f.images.length < 65536) :
    load16 (f.descriptor idOf) 4 = some f.images.length ∧
    (f.descriptor idOf).take 4 = f.head := by
  have hr : readBytes (f.descriptor idOf) 4 2 = some (le16 f.images.length) :=
    readBytes_at f.head (le16 f.images.length) (resDir idOf f.images 0)
      (by simp only [IcoFile.descriptor]) hhead.symm rfl
  refine ⟨?_, ?_⟩
  · have := load16_of_readBytes hr 0 (by omega)
    simp only [Nat.add_zero] at this
    rw [this]
    have := load16_le16 f.images.length hn []
    simpa using this
  · unfold IcoFile.descriptor
    exact List.take_left' hhead

/-- In the split module every image is retained, in order. -/
theorem toModule_keptList (f : IcoFile) (gname : Nat) (idOf : Nat → Nat)
    (hwf : f.WellFormed) (hid : ∀ i, i < f.images.length → idOf i < 65536)
    (hinj : ∀ a b, a < f.images.length → b < f.images.length → idOf a = idOf b → a = b) :
    ∀ (suf pre : List IcoImage), f.images = pre ++ suf →
      keptList (f.toModule gname idOf) (f.descriptor idOf) true suf.length pre.length
        = slotsOf suf pre.length ∧
      allDefined (f.toModule gname idOf) (f.descriptor idOf) true suf.length pre.length = true ∧
      ∀ off, dirBytes (f.descriptor idOf) (slotsOf suf pre.length) off = diskDir suf off := by
  obtain ⟨hhead, hne, hn, himgs, hsize⟩ := hwf
  have hfields : ∀ x ∈ f.images, x.fields.length = 8 := fun x hx => (himgs x hx).1
  intro suf
  induction suf with
  | nil => intro pre _; exact ⟨rfl, rfl, fun _ => rfl⟩
  | cons img rest ih =>
    intro pre hsplit
    have hmem : img ∈ f.images := by rw [hsplit]; simp
    have hidx : f.images[pre.length]? = some img := by
      rw [hsplit, List.getElem?_append_right (le_refl _)]
      simp
    have hpl : pre.length < f.images.length := (List.getElem?_eq_some_iff.mp hidx).1
    obtain ⟨d1, d2⟩ := descriptor_fields f idOf pre rest img hsplit hhead hfields
      (hid pre.length hpl)
    have hbl := bytes_length f hhead hfields
    have hlt : img.payload.length < 4294967296 := by
      have h1 := payloadsOf_length_ge f.images img hmem
      have h2 := slotsOf_sumLens f.images 0
      unfold totalSize at hbl
      omega
    have hicon := toModule_icon f gname idOf pre.length img hidx (hid pre.length hpl) hinj
      (himgs img hmem).2 hlt
    have hkept : kept (f.toModule gname idOf) (f.descriptor idOf) true pre.length
        = some ⟨pre.length, img.payload, img.payload.length⟩ := by
      unfold kept
      rw [d2]
      simp only [hicon, if_true]
    have hdef : scanDefined (f.toModule gname idOf) (f.descriptor idOf) true pre.length
        = true := by
      unfold scanDefined
      rw [d2]
      simp only [hicon, Bool.true_or]
    obtain ⟨a, b, c⟩ := ih (pre ++ [img]) (by rw [hsplit]; simp)
    simp only [List.length_append, List.length_singleton] at a b c
    refine ⟨?_, ?_, ?_⟩
    · rw [List.length_cons, keptList, hkept, slotsOf, a]
    · rw [List.length_cons, allDefined, hdef, b]
      rfl
    · intro off
      rw [slotsOf, dirBytes, diskDir, c]
      unfold entryBytes
      simp only [sizeofIcoHeader, sizeofResIcoDirEntry, d1]

/-- C7: a well-formed icon container whose payloads lie contiguously in directory
order right behind the directory, split into a group descriptor (same header,
each offset replaced by a distinct resource id) and one image resource per
entry, is reproduced byte for byte by extraction with embedded PNGs allowed. -/
theorem C7_round_trip (heap : Heap) (f : IcoFile) (gname : Nat) (idOf : Nat → Nat)
    (hwf : f.WellFormed) (hid : ∀ i, i < f.images.length → idOf i < 65536)
    (hinj : ∀ a b, a < f.images.length → b < f.images.length → idOf a = idOf b → a = b)
    (hmalloc : heap.mallocOk f.bytes.length = true) :
    extract_ico_from_module heap (f.toModule gname idOf) gname true
      = Result.buffer f.bytes f.bytes.length := by
  obtain ⟨k1, k2, k3⟩ := toModule_keptList f gname idOf hwf hid hinj f.images [] rfl
  obtain ⟨hhead, hne, hn, himgs, hsize⟩ := hwf
  have hfields : ∀ x ∈ f.images, x.fields.length = 8 := fun x hx => (himgs x hx).1
  simp only [List.length_nil] at k1 k2 k3
  obtain ⟨c1, c2⟩ := descriptor_count f idOf hhead hn
  have hbl := bytes_length f hhead hfields
  have hu : u32 (totalSize (slotsOf f.images 0)) = totalSize (slotsOf f.images 0) := by
    unfold u32; omega
  have hpos : (slotsOf f.images 0).length ≠ 0 := by
    rw [slotsOf_length]
    intro h0
    exact hne (List.eq_nil_of_length_eq_zero h0)
  rw [extract_eq, toModule_group f gname idOf hhead hfields hn]
  simp only [c1]
  unfold extractSpec
  rw [if_pos k2, k1, if_neg hpos, hu, ← hbl, hmalloc]
  simp only [if_true]
  rw [if_pos ⟨hsize, slotsOf_mapped f.images 0⟩]
  have : serialize (f.descriptor idOf) (slotsOf f.images 0) = f.bytes := by
    unfold serialize IcoFile.bytes
    rw [c2, k3, slotsOf_length, slotsOf_payloadBytes]
  rw [this]

/-! ## The recorded builder -/

theorem hits_cons (r : Nat × Nat) (rest : List (Nat × Nat)) (x : Nat) :
    hits (r :: rest) x = (if r.1 ≤ x ∧ x < r.1 + r.2 then 1 else 0) + hits rest x := by
  unfold hits
  rw [List.filter_cons]
  by_cases h : r.1 ≤ x ∧ x < r.1 + r.2
  · have hc : covers r x = true := by
      unfold covers
      simp only [Bool.and_eq_true, decide_eq_true_eq]
      exact h
    rw [if_pos hc, if_pos h, List.length_cons]
    omega
  · have hc : ¬ covers r x = true := by
      unfold covers
      simp only [Bool.and_eq_true, decide_eq_true_eq]
      exact h
    rw [if_neg hc, if_neg h]
    omega

/-- The entry and payload regions of the slots tile the two ranges they start at. -/
theorem hits_slotRegions (R : List Slot) :
    ∀ (i off x : Nat), hits (slotRegions R i off) x
      = (if 6 + 16 * i ≤ x ∧ x < 6 + 16 * (i + R.length) then 1 else 0)
        + (if off ≤ x ∧ x < off + sumLens R then 1 else 0) := by
  induction R with
  | nil =>
    intro i off x
    simp only [slotRegions, hits, List.filter_nil, List.length_nil, sumLens]
    rw [if_neg (by omega), if_neg (by omega)]
  | cons e R ih =>
    intro i off x
    simp only [slotRegions, hits_cons, ih, List.length_cons, sumLens]
    split_ifs <;> omega

theorem slotRegions_inside (R : List Slot) :
    ∀ (i off : Nat) (r : Nat × Nat), r ∈ slotRegions R i off →
      r.1 + r.2 ≤ 6 + 16 * (i + R.length) ∨ (off ≤ r.1 ∧ r.1 + r.2 ≤ off + sumLens R) := by
  induction R with
  | nil => intro i off r h; simp [slotRegions] at h
  | cons e R ih =>
    intro i off r h
    simp only [slotRegions, List.mem_cons] at h
    simp only [List.length_cons, sumLens]
    rcases h with rfl | rfl | h
    · left; simp only; omega
    · right; simp only; omega
    · rcases ih (i + 1) (off + e.len) r h with h1 | h1
      · left; omega
      · right; omega

/-- The sizing loop, when it runs to its end, leaves the wrapped size, the number
of retained slots and the retained slots themselves in its locals. -/
theorem scan_some {m : Module} {header : Ptr} {allow : Bool} {count : Nat} {s : Scan}
    (hc : count ≤ 65535) (hs : scan m header allow count = some s) :
    allDefined m header allow count 0 = true ∧
    s.bufLen = u32 (totalSize (keptList m header allow count 0)) ∧
    s.imgs = (keptList m header allow count 0).length ∧
    SlotsOk m header allow count s.imgDatas s.imgDataLens := by
  rw [scan_eq m header allow count hc] at hs
  split at hs
  · rename_i hd
    exact ⟨hd, scanRun_init m header allow count hc s (Option.some.inj hs).symm⟩
  · cases hs

theorem writeBytesLog_some {buf src : List Nat} {off : Nat} {r : List Nat × Store}
    (h : writeBytesLog buf off src = some r) :
    writeBytes buf off src = some r.1 ∧ r.2 = { off := off, bytes := src } := by
  unfold writeBytesLog at h
  cases hw : writeBytes buf off src with
  | none => rw [hw] at h; cases h
  | some b =>
    rw [hw] at h
    simp only [Option.some.injEq] at h
    subst h
    exact ⟨rfl, rfl⟩

/-- The recorded `writeEntry` and `writeEntry` leave the same locals. -/
theorem writeEntryLog_erase (header d : Ptr) (l : Nat) (st : Build) :
    (writeEntryLog header d l st).map Prod.fst = writeEntry header d l st := by
  unfold writeEntryLog writeEntry writeBytesLog
  simp only [Option.bind_eq_bind, Option.pure_def]
  cases readBytes header (sizeofIcoHeader + sizeofResIcoDirEntry * st.resIdx)
      sizeofResIcoDirEntry with
  | none => rfl
  | some e =>
    simp only [Option.some_bind]
    cases writeBytes st.icoBuf (sizeofIcoHeader + sizeofDiskIcoDirEntry * st.i) e with
    | none => rfl
    | some b1 =>
      simp only [Option.some_bind]
      cases writeBytes b1 (sizeofIcoHeader + sizeofDiskIcoDirEntry * st.i + 12)
          (le32 st.imgOffset) with
      | none => rfl
      | some b2 =>
        simp only [Option.some_bind]
        cases writeBytes b2 (sizeofIcoHeader + sizeofDiskIcoDirEntry * st.i + 8) (le32 l) with
        | none => rfl
        | some b3 =>
          simp only [Option.some_bind]
          cases readBytes d 0 l with
          | none => rfl
          | some p =>
            simp only [Option.some_bind]
            cases writeBytes b3 st.imgOffset p with
            | none => rfl
            | some b4 => rfl

/-- What the recorded `writeEntry` hands back: the locals of `writeEntry`, and the
four stores with the offsets and bytes `writeBytes` was called with; made one
after the other on the block, these stores give the new block. -/
theorem writeEntryLog_some {header d : Ptr} {l : Nat} {st : Build} {r : Build × List Store}
    (h : writeEntryLog header d l st = some r) :
    writeEntry header d l st = some r.1 ∧
    r.2 = [{ off := 6 + 16 * st.i, bytes := (header.drop (6 + 14 * st.resIdx)).take 14 },
           { off := 6 + 16 * st.i + 12, bytes := le32 st.imgOffset },
           { off := 6 + 16 * st.i + 8, bytes := le32 l },
           { off := st.imgOffset, bytes := d.take l }] ∧
    applyStores r.2 st.icoBuf = some r.1.icoBuf := by
  have her := writeEntryLog_erase header d l st
  rw [h] at her
  refine ⟨her.symm, ?_⟩
  clear her
  simp only [writeEntryLog, sizeofIcoHeader, sizeofDiskIcoDirEntry, sizeofResIcoDirEntry,
    Option.bind_eq_bind, Option.bind_eq_some, Option.pure_def, Option.some.injEq] at h
  obtain ⟨e, he, w1, h1, w2, h2, w3, h3, p, hp, w4, h4, rfl⟩ := h
  obtain ⟨a1, e1⟩ := writeBytesLog_some h1
  obtain ⟨a2, e2⟩ := writeBytesLog_some h2
  obtain ⟨a3, e3⟩ := writeBytesLog_some h3
  obtain ⟨a4, e4⟩ := writeBytesLog_some h4
  have re := readBytes_bound he
  have rp := readBytes_bound hp
  rw [readBytes_eq re] at he
  rw [readBytes_eq rp] at hp
  simp only [Option.some.injEq, List.drop_zero] at he hp
  subst he hp
  simp only
  refine ⟨?_, ?_⟩
  · rw [e1, e2, e3, e4]
  · rw [e1, e2, e3, e4]
    simp only [applyStores, a1, a2, a3, a4]

theorem applyStores_append (ws vs : List Store) :
    ∀ (buf : List Nat), applyStores (ws ++ vs) buf
      = (applyStores ws buf).bind (applyStores vs) := by
  induction ws with
  | nil => intro buf; rfl
  | cons w ws ih =>
    intro buf
    simp only [List.cons_append, applyStores]
    cases writeBytes buf w.off w.bytes with
    | none => rfl
    | some b => exact ih b

/-- Stores that can be made on a block lie inside it, and leave its length. -/
theorem applyStores_inside (ws : List Store) :
    ∀ (buf b : List Nat), applyStores ws buf = some b →
      b.length = buf.length ∧ ∀ w ∈ ws, w.off + w.bytes.length ≤ buf.length := by
  induction ws with
  | nil =>
    intro buf b h
    simp only [applyStores, Option.some.injEq] at h
    subst h
    exact ⟨rfl, fun w hw => absurd hw (List.not_mem_nil w)⟩
  | cons w ws ih =>
    intro buf b h
    rw [applyStores] at h
    cases hw : writeBytes buf w.off w.bytes with
    | none => rw [hw] at h; cases h
    | some b1 =>
      rw [hw] at h
      simp only at h
      obtain ⟨i1, i2⟩ := ih b1 b h
      have l1 := writeBytes_length hw
      have l2 := writeBytes_bound hw
      refine ⟨by omega, ?_⟩
      intro v hv
      rcases List.mem_cons.mp hv with rfl | hv'
      · exact l2
      · have := i2 v hv'
        omega

/-- The recorded builder loop and `buildLoop` end alike. -/
theorem buildLoopLog_erase (header : Ptr) (count : Nat) (imgDatas : List (Option Ptr))
    (imgDataLens : List Nat) :
    ∀ (fuel : Nat) (st : Build),
      buildLoop header count imgDatas imgDataLens fuel st
        = eraseLog (buildLoopLog header count imgDatas imgDataLens fuel st) := by
  intro fuel
  induction fuel with
  | zero => intro st; rfl
  | succ fuel ih =>
    intro st
    rw [buildLoop, buildLoopLog]
    split
    · cases h1 : imgDatas[st.resIdx]? with
      | none => rfl
      | some o =>
        cases o with
        | none => exact ih _
        | some imgData =>
          simp only
          cases h2 : imgDataLens[st.resIdx]? with
          | none => rfl
          | some imgDataLen =>
            simp only
            split
            · exact ih _
            · have he := writeEntryLog_erase header imgData imgDataLen st
              cases h3 : writeEntryLog header imgData imgDataLen st with
              | none =>
                rw [h3] at he
                rw [← he]
                rfl
              | some r =>
                rw [h3] at he
                rw [← he]
                simp only [Option.map_some']
                rw [ih]
                cases buildLoopLog header count imgDatas imgDataLens fuel
                  { r.1 with i := u16 (r.1.i + 1), resIdx := u16 (r.1.resIdx + 1) } with
                | done q => rfl
                | fault => rfl
                | timeout => rfl
    · rfl

/-- The recorded builder and `build` end alike. -/
theorem buildLog_erase (header : Ptr) (s : Scan) (icoBuf : List Nat) :
    build header s icoBuf = resultOfLog s.bufLen (buildLog header s icoBuf) := by
  unfold build buildLog writeBytesLog
  cases readBytes header 0 sizeofIcoHeader with
  | none => rfl
  | some h6 =>
    simp only
    cases writeBytes icoBuf 0 (h6.take 4 ++ le16 s.imgs) with
    | none => rfl
    | some b0 =>
      simp only
      rw [buildLoopLog_erase]
      cases buildLoopLog header s.imgs s.imgDatas s.imgDataLens (s.imgDatas.length + 1)
        { i := 0, resIdx := 0, imgOffset := u32 (sizeofIcoHeader + s.imgs * sizeofDiskIcoDirEntry),
          icoBuf := b0 } with
      | done q => rfl
      | fault => rfl
      | timeout => rfl

theorem prependLog_done {ws : List Store} {r : Run (Build × List Store)}
    {q : Build × List Store} (h : prependLog ws r = Run.done q) :
    ∃ log, r = Run.done (q.1, log) ∧ q.2 = ws ++ log := by
  cases r with
  | done p =>
    simp only [prependLog, Run.done.injEq] at h
    subst h
    exact ⟨p.2, rfl, rfl⟩
  | fault => cases h
  | timeout => cases h

/-- The stores recorded for a run of the loop, made one after the other on the
block the loop started with, give the block it ended with. -/
theorem buildLoopLog_replay (header : Ptr) (count : Nat) (imgDatas : List (Option Ptr))
    (imgDataLens : List Nat) :
    ∀ (fuel : Nat) (st st' : Build) (log : List Store),
      buildLoopLog header count imgDatas imgDataLens fuel st = Run.done (st', log) →
      applyStores log st.icoBuf = some st'.icoBuf := by
  intro fuel
  induction fuel with
  | zero => intro st st' log h; exact Run.noConfusion h
  | succ fuel ih =>
    intro st st' log h
    rw [buildLoopLog] at h
    split at h
    · cases h1 : imgDatas[st.resIdx]? with
      | none => rw [h1] at h; exact Run.noConfusion h
      | some o =>
        rw [h1] at h
        cases o with
        | none =>
          have hih := ih _ _ _ h
          exact hih
        | some imgData =>
          simp only at h
          cases h2 : imgDataLens[st.resIdx]? with
          | none => rw [h2] at h; exact Run.noConfusion h
          | some imgDataLen =>
            rw [h2] at h
            simp only at h
            split at h
            · have hih := ih _ _ _ h
              exact hih
            · cases h3 : writeEntryLog header imgData imgDataLen st with
              | none => rw [h3] at h; exact Run.noConfusion h
              | some r =>
                rw [h3] at h
                simp only at h
                obtain ⟨log', hl, hq⟩ := prependLog_done h
                simp only at hl hq
                obtain ⟨_, _, q3⟩ := writeEntryLog_some h3
                have := ih _ _ _ hl
                simp only at this
                rw [hq, applyStores_append, q3]
                exact this
    · simp only [Run.done.injEq, Prod.mk.injEq] at h
      obtain ⟨rfl, rfl⟩ := h
      rfl

/-- The stores recorded for a run of the builder, made one after the other on the
block `malloc` returned, give the block the builder returns. -/
theorem buildLog_replay (header : Ptr) (s : Scan) (icoBuf : List Nat) (st : Build)
    (log : List Store) (h : buildLog header s icoBuf = Run.done (st, log)) :
    applyStores log icoBuf = some st.icoBuf := by
  unfold buildLog at h
  cases hr : readBytes header 0 sizeofIcoHeader with
  | none => rw [hr] at h; exact Run.noConfusion h
  | some h6 =>
    rw [hr] at h
    simp only at h
    cases hw : writeBytesLog icoBuf 0 (h6.take 4 ++ le16 s.imgs) with
    | none => rw [hw] at h; exact Run.noConfusion h
    | some w0 =>
      rw [hw] at h
      simp only at h
      obtain ⟨log', hl, hq⟩ := prependLog_done h
      simp only at hl hq
      obtain ⟨a1, e1⟩ := writeBytesLog_some hw
      have := buildLoopLog_replay _ _ _ _ _ _ _ _ hl
      simp only at this
      rw [hq, e1]
      simp only [List.singleton_append, applyStores, a1]
      exact this

theorem prependLog_timeout {ws : List Store} {r : Run (Build × List Store)}
    (h : r ≠ Run.timeout) : prependLog ws r ≠ Run.timeout := by
  cases r with
  | done p => intro hc; exact Run.noConfusion hc
  | fault => intro hc; exact Run.noConfusion hc
  | timeout => exact absurd rfl h

/-- The recorded builder loop over scratch arrays that hold the retained slots:
it never runs out of steps, and when it runs to its end it has made, in order,
the four stores of each retained slot and no other. -/
theorem buildLoopLog_spec (m : Module) (header : Ptr) (allow : Bool) (count k : Nat)
    (imgDatas : List (Option Ptr)) (imgDataLens : List Nat)
    (hok : SlotsOk m header allow count imgDatas imgDataLens)
    (hc : count ≤ 65535) (hk : k ≤ 65535) :
    ∀ (n fuel : Nat) (st : Build), st.resIdx + n = count → n + 1 ≤ fuel →
      st.i + (keptList m header allow n st.resIdx).length = k →
      buildLoopLog header k imgDatas imgDataLens fuel st ≠ Run.timeout ∧
      (∀ st' log, buildLoopLog header k imgDatas imgDataLens fuel st = Run.done (st', log) →
        st'.i = k ∧
        (st.icoBuf.length < 4294967296 →
          log = slotStores header (keptList m header allow n st.resIdx) st.i st.imgOffset ∧
          st'.imgOffset = st.imgOffset + sumLens (keptList m header allow n st.resIdx))) := by
  intro n
  induction n with
  | zero =>
    intro fuel st _ hf hi
    obtain ⟨fuel, rfl⟩ : ∃ f, fuel = f + 1 := ⟨fuel - 1, by omega⟩
    simp only [keptList, List.length_nil, Nat.add_zero] at hi
    rw [buildLoopLog, if_neg (by omega)]
    refine ⟨fun hc => Run.noConfusion hc, ?_⟩
    intro st' log hst
    simp only [Run.done.injEq, Prod.mk.injEq] at hst
    obtain ⟨rfl, rfl⟩ := hst
    refine ⟨hi, fun _ => ?_⟩
    simp [keptList, slotStores, sumLens]
  | succ n ih =>
    intro fuel st hr hf hi
    obtain ⟨fuel, rfl⟩ : ∃ f, fuel = f + 1 := ⟨fuel - 1, by omega⟩
    obtain ⟨hl1, hl2, hslots⟩ := hok
    obtain ⟨hs1, hs2⟩ := hslots st.resIdx (by omega)
    have hu : u16 (st.resIdx + 1) = st.resIdx + 1 := by unfold u16; omega
    rw [keptList] at hi ⊢
    rw [buildLoopLog]
    cases hkept : kept m header allow st.resIdx with
    | none =>
      rw [hkept] at hs1 hs2 hi
      simp only at hi ⊢
      simp only [Option.map_none'] at hs1
      by_cases hlt : st.i < k
      · have hi16 : u16 (u16 (st.i + 65535) + 1) = st.i := by unfold u16; omega
        rw [if_pos hlt, hs1]
        simp only [hu, hi16]
        have hih := ih fuel { st with resIdx := st.resIdx + 1 } (by simp only; omega)
          (by omega) (by simpa using hi)
        exact hih
      · rw [if_neg hlt]
        have h0 : (keptList m header allow n (st.resIdx + 1)).length = 0 := by omega
        rw [List.eq_nil_of_length_eq_zero h0]
        refine ⟨fun hc => Run.noConfusion hc, ?_⟩
        intro st' log hst
        simp only [Run.done.injEq, Prod.mk.injEq] at hst
        obtain ⟨rfl, rfl⟩ := hst
        refine ⟨by omega, fun _ => ?_⟩
        simp [slotStores, sumLens]
    | some e =>
      rw [hkept] at hs1 hs2 hi
      simp only [List.length_cons] at hi
      simp only [Option.map_some'] at hs1
      obtain ⟨he1, he2, _, _⟩ := kept_resIdx hkept
      have hlt : st.i < k := by omega
      have hi16 : u16 (st.i + 1) = st.i + 1 := by unfold u16; omega
      rw [if_pos hlt, hs1]
      simp only [hs2, if_neg he2]
      cases hw : writeEntryLog header e.data e.len st with
      | none =>
        simp only
        exact ⟨fun hc => Run.noConfusion hc, fun st' log hst => Run.noConfusion hst⟩
      | some r =>
        obtain ⟨q1, q2, _⟩ := writeEntryLog_some hw
        obtain ⟨_, _, _, w4, w5, w6, w7, w8⟩ := writeEntry_some q1
        simp only [w7, w8, hu, hi16]
        have hih := ih fuel { r.1 with i := st.i + 1, resIdx := st.resIdx + 1 }
          (by simp only; omega) (by omega) (by simp only; omega)
        obtain ⟨a1, a3⟩ := hih
        simp only at a1 a3
        refine ⟨prependLog_timeout a1, ?_⟩
        intro st' log hst
        obtain ⟨log', hl, hq⟩ := prependLog_done hst
        simp only at hl hq
        obtain ⟨b1, b3⟩ := a3 st' log' hl
        refine ⟨b1, ?_⟩
        intro hlen
        have hu32 : u32 (st.imgOffset + e.len) = st.imgOffset + e.len := by
          unfold u32; omega
        have hoff : r.1.imgOffset = st.imgOffset + e.len := by rw [w6, hu32]
        obtain ⟨c1, c2⟩ := b3 (by rw [w5]; exact hlen)
        refine ⟨?_, ?_⟩
        · rw [hq, q2, c1, hoff]
          simp only [slotStores, he1, List.cons_append, List.nil_append]
        · rw [c2, hoff]; simp only [sumLens]; omega

/-- The recorded builder after a sizing loop that ran to its end, on a block of
any length: it never runs out of steps, and when it runs to its end it has made,
in order, the store of the header and the four stores of each retained slot. -/
theorem buildLog_spec (m : Module) (header : Ptr) (allow : Bool) (count : Nat) (s : Scan)
    (icoBuf : List Nat) (hcount : load16 header 4 = some count)
    (hs : scan m header allow count = some s) :
    buildLog header s icoBuf ≠ Run.timeout ∧
    (∀ st log, buildLog header s icoBuf = Run.done (st, log) →
      st.i = s.imgs ∧
      (icoBuf.length < 4294967296 →
        log = { off := 0, bytes := header.take 4 ++ le16 s.imgs } ::
          slotStores header (keptList m header allow count 0) 0 (6 + 16 * s.imgs) ∧
        st.imgOffset = 6 + 16 * s.imgs + sumLens (keptList m header allow count 0))) := by
  obtain ⟨hb, hc⟩ := load16_some_bound hcount
  obtain ⟨hd, s1, s2, s3⟩ := scan_some (by omega) hs
  have hle := keptList_length_le m header allow count 0
  unfold buildLog
  rw [readBytes_eq (by simp only [sizeofIcoHeader]; omega)]
  simp only [sizeofIcoHeader, sizeofDiskIcoDirEntry, List.drop_zero, List.take_take]
  have hu : u32 (6 + s.imgs * 16) = 6 + 16 * s.imgs := by unfold u32; omega
  rw [hu]
  cases hw : writeBytesLog icoBuf 0 (List.take (min 4 6) header ++ le16 s.imgs) with
  | none =>
    simp only
    exact ⟨fun hc => Run.noConfusion hc, fun st log hst => Run.noConfusion hst⟩
  | some w0 =>
    simp only
    obtain ⟨a0, e0⟩ := writeBytesLog_some hw
    have hbl := writeBytes_length a0
    obtain ⟨a1, a3⟩ := buildLoopLog_spec m header allow count s.imgs s.imgDatas
      s.imgDataLens s3 (by omega) (by omega) count (s.imgDatas.length + 1)
      { i := 0, resIdx := 0, imgOffset := 6 + 16 * s.imgs, icoBuf := w0.1 }
      (by simp) (by rw [s3.1]) (by simp only; omega)
    refine ⟨prependLog_timeout a1, ?_⟩
    intro st log hst
    obtain ⟨log', hl, hq⟩ := prependLog_done hst
    simp only at hl hq
    obtain ⟨b1, b3⟩ := a3 st log' hl
    simp only at b3
    refine ⟨b1, ?_⟩
    intro hlen
    obtain ⟨c1, c2⟩ := b3 (by rw [hbl]; exact hlen)
    refine ⟨?_, c2⟩
    rw [hq, e0, c1]
    rfl

/-- The recorded builder runs to its end on a block of the exact size when that
size fits 32 bits and the payloads are mapped, and the block then holds the
container of the retained slots. -/
theorem buildLog_done (m : Module) (header : Ptr) (allow : Bool) (count : Nat) (s : Scan)
    (icoBuf : List Nat) (hcount : load16 header 4 = some count)
    (hs : scan m header allow count = some s)
    (hlen : icoBuf.length = totalSize (keptList m header allow count 0))
    (hT : totalSize (keptList m header allow count 0) < 4294967296)
    (hmap : payloadsMapped (keptList m header allow count 0) = true) :
    ∃ st log, buildLog header s icoBuf = Run.done (st, log) ∧
      st.icoBuf = serialize header (keptList m header allow count 0) := by
  obtain ⟨hb, hc⟩ := load16_some_bound hcount
  obtain ⟨hd, s1, s2, s3⟩ := scan_some (by omega) hs
  have h1 := build_eq m header allow count s icoBuf (by omega) (by omega) s2 s3
  have h6 : 6 ≤ icoBuf.length := by rw [hlen]; unfold totalSize; omega
  rw [if_pos h6, layout_top_ok header _ icoBuf (by omega)
    (readable_of_mapped m header allow count hmap) hT hlen] at h1
  simp only at h1
  rw [buildLog_erase] at h1
  cases hr : buildLog header s icoBuf with
  | done q =>
    rw [hr] at h1
    simp only [resultOfLog, Result.buffer.injEq] at h1
    exact ⟨q.1, q.2, rfl, h1.1⟩
  | fault => rw [hr] at h1; cases h1
  | timeout => rw [hr] at h1; cases h1

/-- The groups of the loop's stores leave no store out. -/
theorem entryGroups_flatten (header : Ptr) (R : List Slot) :
    ∀ (i off : Nat), (entryGroups (slotStores header R i off)).flatten
      = slotStores header R i off := by
  induction R with
  | nil => intro i off; rfl
  | cons e R ih =>
    intro i off
    simp only [slotStores, entryGroups, List.flatten_cons, ih, List.cons_append,
      List.nil_append]

/-- The regions of the groups of the loop's stores: sixteen bytes per directory
entry, the payload's length per payload. -/
theorem entryGroups_span (header : Ptr) (R : List Slot) :
    ∀ (i off : Nat), (∀ e ∈ R, Readable header e) →
      (entryGroups (slotStores header R i off)).map span = slotRegions R i off := by
  induction R with
  | nil => intro i off _; rfl
  | cons e R ih =>
    intro i off hr
    obtain ⟨h1, h2⟩ := hr e (List.mem_cons_self e R)
    have l1 : ((header.drop (6 + 14 * e.resIdx)).take 14).length = 14 := by
      simp only [List.length_take, List.length_drop]
      omega
    have l2 : (e.data.take e.len).length = e.len := by
      simp only [List.length_take]
      omega
    simp only [slotStores, entryGroups, List.map_cons, slotRegions]
    rw [ih (i + 1) (off + e.len) (fun e' he' => hr e' (List.mem_cons_of_mem e he'))]
    have s1 : span [{ off := 6 + 16 * i, bytes := (header.drop (6 + 14 * e.resIdx)).take 14 },
        { off := 6 + 16 * i + 12, bytes := le32 off },
        ({ off := 6 + 16 * i + 8, bytes := le32 e.len } : Store)] = (6 + 16 * i, 16) := by
      simp only [span, spanLo, spanHi, l1, le32_length, Prod.mk.injEq]
      omega
    have s2 : span [({ off := off, bytes := e.data.take e.len } : Store)] = (off, e.len) := by
      simp only [span, spanLo, spanHi, Prod.mk.injEq, true_and]
      omega
    rw [s1, s2]

/-- Every byte of the region of a group of the loop's stores is touched by a
store of the group. -/
theorem entryGroups_fills (header : Ptr) (R : List Slot) :
    ∀ (i off : Nat), (∀ e ∈ R, Readable header e) →
      ∀ g ∈ entryGroups (slotStores header R i off), ∀ x, covers (span g) x = true →
        fills g x = true := by
  induction R with
  | nil => intro i off _ g hg; simp [slotStores, entryGroups] at hg
  | cons e R ih =>
    intro i off hr g hg x hx
    obtain ⟨h1, h2⟩ := hr e (List.mem_cons_self e R)
    have l1 : ((header.drop (6 + 14 * e.resIdx)).take 14).length = 14 := by
      simp only [List.length_take, List.length_drop]
      omega
    have l2 : (e.data.take e.len).length = e.len := by
      simp only [List.length_take]
      omega
    simp only [slotStores, entryGroups, List.mem_cons] at hg
    rcases hg with rfl | rfl | hg
    · simp only [span, spanLo, spanHi, l1, le32_length, covers, Bool.and_eq_true,
        decide_eq_true_eq] at hx
      simp only [fills, List.any_cons, List.any_nil, covers, Store.region, l1, le32_length,
        Bool.or_false, Bool.or_eq_true, Bool.and_eq_true, decide_eq_true_eq]
      omega
    · simp only [span, spanLo, spanHi, covers, Bool.and_eq_true,
        decide_eq_true_eq] at hx
      simp only [fills, List.any_cons, List.any_nil, covers, Store.region,
        Bool.or_false, Bool.and_eq_true, decide_eq_true_eq]
      omega
    · exact ih (i + 1) (off + e.len) (fun e' he' => hr e' (List.mem_cons_of_mem e he')) g hg x hx

/-! ## The properties at work on the sample modules -/

/-- C1 at work on `sampleModule` without embedded PNGs: one of the three declared
entries is retained and the length is 6 + 16 + 3. -/
theorem C1_header_and_length_witness :
    get_resource sampleModule 1 RT_GROUP_ICON = some (sampleDescriptor, 48) ∧
    load16 sampleDescriptor 4 = some 3 ∧
    extract_ico_from_module sampleHeap sampleModule 1 false = Result.buffer sampleContainer 25 ∧
    (sampleContainer.take 4 = sampleDescriptor.take 4 ∧
    load16 sampleContainer 0 = load16 sampleDescriptor 0 ∧
    load16 sampleContainer 2 = load16 sampleDescriptor 2 ∧
    load16 sampleContainer 4 = some (keptList sampleModule sampleDescriptor false 3 0).length ∧
    (keptList sampleModule sampleDescriptor false 3 0).length
      = ((List.range 3).filter (retains sampleModule sampleDescriptor false)).length ∧
    25 = 6 + 16 * (keptList sampleModule sampleDescriptor false 3 0).length
            + sumLens (keptList sampleModule sampleDescriptor false 3 0) ∧
    sampleContainer.length = 25 ∧
    (false = true → (∀ i, i < 3 → (lookup sampleModule sampleDescriptor i).isSome = true) →
      (keptList sampleModule sampleDescriptor false 3 0).length = 3)) :=
  ⟨by decide, by decide, by decide,
    C1_header_and_length sampleHeap sampleModule 1 false sampleContainer 25
      sampleDescriptor 48 3 (by decide) (by decide) (by decide)⟩

/-- C2 at work on `sampleModule` without embedded PNGs: the PNG entry and the
entry without a resource are left out. -/
theorem C2_retained_entries_witness :
    get_resource sampleModule 1 RT_GROUP_ICON = some (sampleDescriptor, 48) ∧
    load16 sampleDescriptor 4 = some 3 ∧
    extract_ico_from_module sampleHeap sampleModule 1 false = Result.buffer sampleContainer 25 ∧
    ((keptList sampleModule sampleDescriptor false 3 0).map Slot.resIdx
      = (List.range 3).filter (retains sampleModule sampleDescriptor false) ∧
    load16 sampleContainer 4
      = some ((List.range 3).filter (retains sampleModule sampleDescriptor false)).length ∧
    readBytes sampleContainer 6
        (16 * ((List.range 3).filter (retains sampleModule sampleDescriptor false)).length)
      = some (dirBytes sampleDescriptor (keptList sampleModule sampleDescriptor false 3 0)
          (6 + 16 *
            ((List.range 3).filter (retains sampleModule sampleDescriptor false)).length)) ∧
    (∀ j i, ((List.range 3).filter (retains sampleModule sampleDescriptor false))[j]? = some i →
      ∃ f8, readBytes sampleDescriptor (6 + 14 * i) 8 = some f8 ∧
        readBytes sampleContainer (6 + 16 * j) 8 = some f8)) :=
  ⟨by decide, by decide, by decide,
    C2_retained_entries sampleHeap sampleModule 1 false sampleContainer 25
      sampleDescriptor 48 3 (by decide) (by decide) (by decide)⟩

/-- C3 at work on `sampleModule`: the first in-module entry records the size 2088
while the lookup returns 3 bytes. -/
theorem C3_entry_fields_witness :
    get_resource sampleModule 1 RT_GROUP_ICON = some (sampleDescriptor, 48) ∧
    load16 sampleDescriptor 4 = some 3 ∧
    extract_ico_from_module sampleHeap sampleModule 1 false = Result.buffer sampleContainer 25 ∧
    (∀ j e, (keptList sampleModule sampleDescriptor false 3 0)[j]? = some e →
      lookup sampleModule sampleDescriptor e.resIdx = some (e.data, e.len) ∧
      6 + 16 * j + 16 ≤ sampleContainer.length ∧
      6 + 14 * e.resIdx + 14 ≤ sampleDescriptor.length ∧
      load8 sampleContainer (6 + 16 * j) = load8 sampleDescriptor (6 + 14 * e.resIdx) ∧
      load8 sampleContainer (6 + 16 * j + 1) = load8 sampleDescriptor (6 + 14 * e.resIdx + 1) ∧
      load8 sampleContainer (6 + 16 * j + 2) = load8 sampleDescriptor (6 + 14 * e.resIdx + 2) ∧
      load8 sampleContainer (6 + 16 * j + 3) = load8 sampleDescriptor (6 + 14 * e.resIdx + 3) ∧
      load16 sampleContainer (6 + 16 * j + 4) = load16 sampleDescriptor (6 + 14 * e.resIdx + 4) ∧
      load16 sampleContainer (6 + 16 * j + 6) = load16 sampleDescriptor (6 + 14 * e.resIdx + 6) ∧
      load32 sampleContainer (6 + 16 * j + 8) = some e.len) :=
  ⟨by decide, by decide, by decide,
    C3_entry_fields sampleHeap sampleModule 1 false sampleContainer 25
      sampleDescriptor 48 3 (by decide) (by decide) (by decide)⟩

/-- C4 at work on `sampleModule` with embedded PNGs: two entries, at 38 and 41. -/
theorem C4_offsets_witness :
    extract_ico_from_module sampleHeap sampleModule 1 true = Result.buffer sampleContainerPng 50 ∧
    (∃ k, load16 sampleContainerPng 4 = some k ∧ 1 ≤ k ∧
      load32 sampleContainerPng (6 + 12) = some (6 + 16 * k) ∧
      ∀ i, i + 1 < k →
        ∃ o s, load32 sampleContainerPng (6 + 16 * i + 12) = some o ∧
          load32 sampleContainerPng (6 + 16 * i + 8) = some s ∧
          load32 sampleContainerPng (6 + 16 * (i + 1) + 12) = some (o + s)) :=
  ⟨by decide, C4_offsets sampleHeap sampleModule 1 true sampleContainerPng 50 (by decide)⟩

/-- C5 at work on `sampleModule` with embedded PNGs. -/
theorem C5_payload_bytes_witness :
    get_resource sampleModule 1 RT_GROUP_ICON = some (sampleDescriptor, 48) ∧
    load16 sampleDescriptor 4 = some 3 ∧
    extract_ico_from_module sampleHeap sampleModule 1 true = Result.buffer sampleContainerPng 50 ∧
    (∀ j e, (keptList sampleModule sampleDescriptor true 3 0)[j]? = some e →
      lookup sampleModule sampleDescriptor e.resIdx = some (e.data, e.len) ∧
      e.len ≤ e.data.length ∧
      ∃ o, load32 sampleContainerPng (6 + 16 * j + 12) = some o ∧
        load32 sampleContainerPng (6 + 16 * j + 8) = some e.len ∧
        o + e.len ≤ sampleContainerPng.length ∧
        readBytes sampleContainerPng o e.len = some (e.data.take e.len)) :=
  ⟨by decide, by decide, by decide,
    C5_payload_bytes sampleHeap sampleModule 1 true sampleContainerPng 50
      sampleDescriptor 48 3 (by decide) (by decide) (by decide)⟩

theorem sampleModule_mapped : sampleModule.Mapped := by
  intro name type d l h
  unfold get_resource at h
  simp only [sampleModule] at h
  split_ifs at h <;> simp at h <;> (obtain ⟨_, rfl, rfl⟩ := h; decide)

theorem moduleWithLen_mapped : (moduleWithLen 20).Mapped := by
  intro name type d l h
  unfold get_resource at h
  simp only [moduleWithLen] at h
  split_ifs at h <;> simp at h <;> (obtain ⟨_, rfl, rfl⟩ := h; decide)

theorem sampleModule_descriptorMapped : DescriptorMapped sampleModule 1 := by
  intro header glen h
  have : get_resource sampleModule 1 RT_GROUP_ICON = some (sampleDescriptor, 48) := by decide
  rw [this] at h
  cases h
  exact ⟨3, by decide, by decide⟩

/-- The lemma `extract_null_iff` at work on `sampleModule` without embedded PNGs:
one entry fails its lookup, one is filtered out, and the third is retained. -/
theorem extract_null_iff_witness :
    (∀ n, sampleHeap.mallocOk n = true) ∧ sampleModule.Mapped ∧
    DescriptorMapped sampleModule 1 ∧
    ((extract_ico_from_module sampleHeap sampleModule 1 false = Result.null ↔
      (get_resource sampleModule 1 RT_GROUP_ICON = none ∨
        ∃ header glen count, get_resource sampleModule 1 RT_GROUP_ICON = some (header, glen) ∧
          load16 header 4 = some count ∧
          ∀ i, i < count → retains sampleModule header false i = false)) ∧
    (∀ header glen count, get_resource sampleModule 1 RT_GROUP_ICON = some (header, glen) →
      load16 header 4 = some count →
      (∃ i, i < count ∧ retains sampleModule header false i = true) →
      extract_ico_from_module sampleHeap sampleModule 1 false ≠ Result.null ∧
      (totalSize (keptList sampleModule header false count 0) < 4294967296 →
        extract_ico_from_module sampleHeap sampleModule 1 false
          = Result.buffer (serialize header (keptList sampleModule header false count 0))
              (totalSize (keptList sampleModule header false count 0)))) ∧
    (∀ buf len, extract_ico_from_module sampleHeap sampleModule 1 false = Result.buffer buf len →
      ∃ header glen count, get_resource sampleModule 1 RT_GROUP_ICON = some (header, glen) ∧
        load16 header 4 = some count ∧
        ∃ i, i < count ∧ retains sampleModule header false i = true)) :=
  ⟨fun _ => rfl, sampleModule_mapped, sampleModule_descriptorMapped,
    extract_null_iff sampleHeap sampleModule 1 false (fun _ => rfl) sampleModule_mapped
      sampleModule_descriptorMapped⟩

theorem sampleIco_wellFormed : sampleIco.WellFormed := by
  refine ⟨by decide, by simp [sampleIco], by decide, ?_, by decide⟩
  intro img himg
  simp only [sampleIco, List.mem_cons, List.mem_singleton, List.not_mem_nil, or_false] at himg
  rcases himg with rfl | rfl <;> exact ⟨by decide, by decide⟩

/-- C7 at work: `sampleIco`, split with the resource ids 1 and 2 under the
descriptor name 5, comes back byte for byte. -/
theorem C7_round_trip_witness :
    sampleIco.WellFormed ∧
    (∀ i, i < sampleIco.images.length → i + 1 < 65536) ∧
    (∀ a b, a < sampleIco.images.length → b < sampleIco.images.length →
      a + 1 = b + 1 → a = b) ∧
    sampleHeap.mallocOk sampleIco.bytes.length = true ∧
    extract_ico_from_module sampleHeap (sampleIco.toModule 5 (fun i => i + 1)) 5 true
      = Result.buffer sampleIco.bytes sampleIco.bytes.length :=
  ⟨sampleIco_wellFormed, fun i _ => by have : sampleIco.images.length = 2 := rfl; omega,
    fun a b _ _ h => by omega, rfl,
    C7_round_trip sampleHeap sampleIco 5 (fun i => i + 1) sampleIco_wellFormed
      (fun i _ => by have : sampleIco.images.length = 2 := rfl; show i + 1 < 65536; omega)
      (fun a b _ _ h => by have h' : a + 1 = b + 1 := h; omega) rfl⟩

theorem moduleWithLen_noPng :
    ∀ header glen count i d l,
      get_resource (moduleWithLen 20) 1 RT_GROUP_ICON = some (header, glen) →
      load16 header 4 = some count → i < count →
      lookup (moduleWithLen 20) header i = some (d, l) →
      pngSigned (d.take l) = false := by
  intro header glen count i d l hg hc hi hl
  have h0 : get_resource (moduleWithLen 20) 1 RT_GROUP_ICON = some (shortDescriptor, 20) := by
    decide
  rw [h0] at hg
  cases hg
  have h1 : load16 shortDescriptor 4 = some 1 := by decide
  rw [h1] at hc
  cases hc
  have hi0 : i = 0 := by omega
  subst hi0
  have h2 : lookup (moduleWithLen 20) shortDescriptor 0 = some ([7, 8, 9], 3) := by decide
  rw [h2] at hl
  cases hl
  decide

/-- C8 at work on a module whose only image is a three-byte bitmap. -/
theorem C8_flag_irrelevant_without_png_witness :
    (moduleWithLen 20).Mapped ∧
    (∀ header glen count i d l,
      get_resource (moduleWithLen 20) 1 RT_GROUP_ICON = some (header, glen) →
      load16 header 4 = some count → i < count →
      lookup (moduleWithLen 20) header i = some (d, l) →
      pngSigned (d.take l) = false) ∧
    extract_ico_from_module sampleHeap (moduleWithLen 20) 1 false
      = extract_ico_from_module sampleHeap (moduleWithLen 20) 1 true :=
  ⟨moduleWithLen_mapped, moduleWithLen_noPng,
    C8_flag_irrelevant_without_png sampleHeap (moduleWithLen 20) 1 moduleWithLen_mapped
      moduleWithLen_noPng⟩

/-! ## The default icon and the release of the module -/

/-- C11, refuted as stated: both system modules load, the first holds no icon and
the second holds one; the first candidate yields NULL, and `get_default_exe_icon`
returns that NULL without attempting the second. -/
theorem C11_counterexample :
    sampleOs.LoadLibraryExA SystemDll.imageres = some 1 ∧
    extract_ico_from_module sampleOs.heap (sampleOs.resources 1) (MAKEINTRESOURCEA 15) true
      = Result.null ∧
    sampleOs.LoadLibraryExA SystemDll.shell32 = some 2 ∧
    extract_ico_from_module sampleOs.heap (sampleOs.resources 2) (MAKEINTRESOURCEA 3) true
      = Result.buffer sampleContainerPng 50 ∧
    get_default_exe_icon sampleOs true true
      = (Result.null, [Call.LoadLibraryExA SystemDll.imageres, Call.FreeLibrary 1]) := by
  decide

theorem extractAndFree_fst (os : Os) (hModule id : Nat) (allow : Bool) (before : List Call) :
    (extractAndFree os hModule id allow before).1
      = extract_ico_from_module os.heap (os.resources hModule) (MAKEINTRESOURCEA id) allow := by
  unfold extractAndFree
  simp only
  split <;> rfl

theorem extractAndFree_calls (os : Os) (hModule id : Nat) (allow : Bool) (before : List Call) :
    (extractAndFree os hModule id allow before).2 = before ∨
    (extractAndFree os hModule id allow before).2 = before ++ [Call.FreeLibrary hModule] := by
  unfold extractAndFree
  simp only
  split
  · exact Or.inl rfl
  · exact Or.inr rfl

/-- C11, amended: `get_default_exe_icon` returns the extraction result of the
first candidate, in the order (imageres.dll, descriptor id 15) then (shell32.dll,
descriptor id 3), whose module loads. When imageres.dll loads, the result is its
extraction result, a container or NULL, and shell32.dll is not attempted; when
imageres.dll does not load, the result is that of shell32.dll, and NULL when
neither loads. -/
theorem C11_first_loaded_candidate (os : Os) (allow : Bool) :
    (∀ h, os.LoadLibraryExA SystemDll.imageres = some h →
      (get_default_exe_icon os allow true).1
        = extract_ico_from_module os.heap (os.resources h) (MAKEINTRESOURCEA 15) allow ∧
      Call.LoadLibraryExA SystemDll.shell32 ∉ (get_default_exe_icon os allow true).2) ∧
    (os.LoadLibraryExA SystemDll.imageres = none →
      ∀ h, os.LoadLibraryExA SystemDll.shell32 = some h →
        (get_default_exe_icon os allow true).1
          = extract_ico_from_module os.heap (os.resources h) (MAKEINTRESOURCEA 3) allow ∧
        (get_default_exe_icon os allow true).2.take 2
          = [Call.LoadLibraryExA SystemDll.imageres, Call.LoadLibraryExA SystemDll.shell32]) ∧
    (os.LoadLibraryExA SystemDll.imageres = none →
      os.LoadLibraryExA SystemDll.shell32 = none →
      get_default_exe_icon os allow true
        = (Result.null,
            [Call.LoadLibraryExA SystemDll.imageres, Call.LoadLibraryExA SystemDll.shell32])) := by
  refine ⟨?_, ?_, ?_⟩
  · intro h hl
    unfold get_default_exe_icon
    simp only [Bool.true_eq_false, if_false, hl]
    refine ⟨extractAndFree_fst _ _ _ _ _, ?_⟩
    rcases extractAndFree_calls os h 15 allow [Call.LoadLibraryExA SystemDll.imageres]
      with hc | hc
    · rw [hc]; simp
    · rw [hc]; simp
  · intro hn h hl
    unfold get_default_exe_icon
    simp only [Bool.true_eq_false, if_false, hn, hl]
    refine ⟨extractAndFree_fst _ _ _ _ _, ?_⟩
    rcases extractAndFree_calls os h 3 allow
      [Call.LoadLibraryExA SystemDll.imageres, Call.LoadLibraryExA SystemDll.shell32]
      with hc | hc
    · rw [hc]; rfl
    · rw [hc]; rfl
  · intro hn hn2
    unfold get_default_exe_icon
    simp only [Bool.true_eq_false, if_false, hn, hn2]

/-- The amended C11 at work: `imageres.dll` loads, so its result (here NULL) is
the result and `shell32.dll` is not loaded. -/
theorem C11_first_loaded_candidate_witness :
    sampleOs.LoadLibraryExA SystemDll.imageres = some 1 ∧
    ((get_default_exe_icon sampleOs true true).1
        = extract_ico_from_module sampleOs.heap (sampleOs.resources 1) (MAKEINTRESOURCEA 15)
            true ∧
      Call.LoadLibraryExA SystemDll.shell32 ∉ (get_default_exe_icon sampleOs true true).2) :=
  ⟨rfl, (C11_first_loaded_candidate sampleOs true).1 1 rfl⟩

/-- When the run comes back from the extraction, `get_exe_icon_from_file_utf16`
releases the opened module exactly when the enumeration returned TRUE or the last
error is 15106. -/
theorem utf16_release_iff (os : Os) (p : List Nat) (allow : Bool) (hModule : Nat)
    (hl : os.LoadLibraryExW p = some hModule)
    (hr : (get_exe_icon_from_file_utf16 os (some p) allow true).1.aborts = false) :
    Call.FreeLibrary hModule ∈ (get_exe_icon_from_file_utf16 os (some p) allow true).2 ↔
      ((os.EnumResourceNamesA hModule RT_GROUP_ICON).ret = true ∨
        (os.EnumResourceNamesA hModule RT_GROUP_ICON).lastError = 15106) := by
  unfold get_exe_icon_from_file_utf16 at hr ⊢
  simp only [hl] at hr ⊢
  split
  · rename_i hab
    rw [if_pos hab] at hr
    simp only at hr
    rw [hab] at hr
    cases hr
  · split
    · rename_i hret
      simp [hret]
    · rename_i hret
      split
      · rename_i herr
        simp [hret, herr]
      · rename_i herr
        simp only [ne_eq, Decidable.not_not] at herr
        simp [herr]

/-- C12 fails on the code: the file opens (handle 7), it has no `RT_GROUP_ICON`
resource, the enumeration fails with the error 1813, and the call returns NULL
after `GetLastError` without any `FreeLibrary`. -/
theorem C12_module_not_released :
    sampleOs.LoadLibraryExW [100] = some 7 ∧
    get_exe_icon_from_file_utf16 sampleOs (some [100]) true true
      = (Result.null,
          [Call.LoadLibraryExW [100], Call.EnumResourceNamesA 7, Call.GetLastError]) ∧
    Call.FreeLibrary 7 ∉ (get_exe_icon_from_file_utf16 sampleOs (some [100]) true true).2 := by
  decide

/-! ## The builder's stores and the 32-bit size -/

/-- C13: with at least one retained slot and an exact size `6 + 16 * k + Σ len`
below `2^32`, the block `malloc` returns has that size and the builder runs to its
end on it. The stores it makes are those `writeBytes` is called with: the header,
then per retained slot the three stores into its directory entry and the copy of
its payload; made one after the other on the fresh block they give the block
`build` returns, which holds the container whatever the block held before. Every
store lies inside the block. Grouped as header, directory entry and payload, the
stores fill the regions `(0, 6)`, `(6 + 16 * i, 16)` and `(offset, len)`; these
lie inside the block and tile it: every byte below `bufLen` lies in exactly one
region and no byte from `bufLen` on in any, so no two regions overlap; the
running offset ends at `bufLen`. -/
theorem C13_writes_tile_buffer (heap : Heap) (m : Module) (header : Ptr) (allow : Bool)
    (count : Nat) (s : Scan)
    (hcount : load16 header 4 = some count)
    (hs : scan m header allow count = some s)
    (hm : m.Mapped)
    (hk : 1 ≤ (keptList m header allow count 0).length)
    (hT : 6 + 16 * (keptList m header allow count 0).length
            + sumLens (keptList m header allow count 0) < 4294967296) :
    s.bufLen = 6 + 16 * (keptList m header allow count 0).length
                + sumLens (keptList m header allow count 0) ∧
    ∃ st log, buildLog header s (heap.fresh s.bufLen) = Run.done (st, log) ∧
      build header s (heap.fresh s.bufLen) = Result.buffer st.icoBuf s.bufLen ∧
      (∀ name len, get_resource m name RT_GROUP_ICON = some (header, len) →
        heap.mallocOk s.bufLen = true →
        extract_ico_from_module heap m name allow = Result.buffer st.icoBuf s.bufLen) ∧
      applyStores log (heap.fresh s.bufLen) = some st.icoBuf ∧
      st.icoBuf = serialize header (keptList m header allow count 0) ∧
      log = { off := 0,
              bytes := header.take 4 ++ le16 (keptList m header allow count 0).length } ::
        slotStores header (keptList m header allow count 0) 0
          (6 + 16 * (keptList m header allow count 0).length) ∧
      (∀ w ∈ log, w.off + w.bytes.length ≤ s.bufLen) ∧
      (groups log).flatten = log ∧
      (∀ g ∈ groups log, ∀ x, covers (span g) x = true → fills g x = true) ∧
      (groups log).map span
        = (0, 6) :: slotRegions (keptList m header allow count 0) 0
            (6 + 16 * (keptList m header allow count 0).length) ∧
      (∀ r ∈ (groups log).map span, r.1 + r.2 ≤ s.bufLen) ∧
      (∀ x, x < s.bufLen → hits ((groups log).map span) x = 1) ∧
      (∀ x, s.bufLen ≤ x → hits ((groups log).map span) x = 0) ∧
      st.imgOffset = s.bufLen := by
  obtain ⟨hb, hc⟩ := load16_some_bound hcount
  obtain ⟨hd, s1, s2, s3⟩ := scan_some (by omega) hs
  have hT' : totalSize (keptList m header allow count 0) < 4294967296 := hT
  have hlen : s.bufLen = totalSize (keptList m header allow count 0) := by
    rw [s1]; unfold u32; omega
  have hfl : (heap.fresh s.bufLen).length = totalSize (keptList m header allow count 0) := by
    simp only [Heap.fresh, List.length_map, List.length_range]
    exact hlen
  have hfl' : (heap.fresh s.bufLen).length = s.bufLen := by rw [hfl, hlen]
  have hmap := @payloadsMapped_of_mapped m header allow hm count 0
  have hread := readable_of_mapped m header allow count hmap
  obtain ⟨st, log, hst, hser⟩ := buildLog_done m header allow count s (heap.fresh s.bufLen)
    hcount hs hfl hT' hmap
  obtain ⟨_, a3⟩ := buildLog_spec m header allow count s (heap.fresh s.bufLen) hcount hs
  obtain ⟨_, b3⟩ := a3 st log hst
  obtain ⟨c1, c2⟩ := b3 (by rw [hfl]; exact hT')
  rw [s2] at c1 c2
  have hsz : s.bufLen = 6 + 16 * (keptList m header allow count 0).length
      + sumLens (keptList m header allow count 0) := hlen
  have hrep := buildLog_replay header s (heap.fresh s.bufLen) st log hst
  have hbuild : build header s (heap.fresh s.bufLen) = Result.buffer st.icoBuf s.bufLen := by
    rw [buildLog_erase, hst]
    rfl
  have hh4 : (header.take 4 ++ le16 (keptList m header allow count 0).length).length = 6 := by
    simp only [List.length_append, List.length_take, le16_length]
    omega
  have hgr : groups log
      = [Store.mk 0 (header.take 4 ++ le16 (keptList m header allow count 0).length)] ::
      entryGroups (slotStores header (keptList m header allow count 0) 0
        (6 + 16 * (keptList m header allow count 0).length)) := by
    rw [c1]
    rfl
  have hsp0 :
      span [Store.mk 0 (header.take 4 ++ le16 (keptList m header allow count 0).length)]
        = (0, 6) := by
    simp only [span, spanLo, spanHi, hh4, Prod.mk.injEq, true_and]
    omega
  have hspan : (groups log).map span
      = (0, 6) :: slotRegions (keptList m header allow count 0) 0
          (6 + 16 * (keptList m header allow count 0).length) := by
    rw [hgr, List.map_cons, hsp0, entryGroups_span header _ 0 _ hread]
  refine ⟨hsz, st, log, hst, hbuild, ?_, hrep, hser, c1, ?_, ?_, ?_, hspan, ?_, ?_, ?_,
    by rw [c2, hsz]⟩
  · intro name len hg hmal
    have hne : ¬ s.imgs = 0 := by omega
    unfold extract_ico_from_module
    rw [hg]
    simp only [hcount, hs, hne, hmal, if_true, if_false]
    exact hbuild
  · intro w hw
    have := (applyStores_inside log _ _ hrep).2 w hw
    omega
  · rw [hgr, List.flatten_cons, entryGroups_flatten, c1]
    rfl
  · intro g hg x hx
    rw [hgr] at hg
    rcases List.mem_cons.mp hg with rfl | hg'
    · simp only [fills, List.any_cons, List.any_nil, Bool.or_false, Store.region]
      rw [hsp0] at hx
      simp only [covers, hh4] at hx ⊢
      exact hx
    · exact entryGroups_fills header _ 0 _ hread g hg' x hx
  · intro r hr
    rw [hspan] at hr
    rcases List.mem_cons.mp hr with rfl | hr'
    · simp only; omega
    · rcases slotRegions_inside _ 0 _ r hr' with h1 | h1
      · omega
      · omega
  · intro x hx
    rw [hspan, hits_cons, hits_slotRegions]
    simp only
    split_ifs <;> omega
  · intro x hx
    rw [hspan, hits_cons, hits_slotRegions]
    simp only
    split_ifs <;> omega

/-- C13 at work on `sampleModule` with embedded PNGs: the header, two directory
entries and two payloads tile the 50 bytes. -/
theorem C13_writes_tile_buffer_witness :
    load16 sampleDescriptor 4 = some 3 ∧
    scan sampleModule sampleDescriptor true 3 = some sampleScan ∧
    sampleModule.Mapped ∧
    1 ≤ (keptList sampleModule sampleDescriptor true 3 0).length ∧
    6 + 16 * (keptList sampleModule sampleDescriptor true 3 0).length
      + sumLens (keptList sampleModule sampleDescriptor true 3 0) < 4294967296 ∧
    (match buildLog sampleDescriptor sampleScan (sampleHeap.fresh 50) with
      | Run.done r => (groups r.2).map span
      | _ => []) = [(0, 6), (6, 16), (38, 3), (22, 16), (41, 9)] ∧
    (sampleScan.bufLen = 6 + 16 * (keptList sampleModule sampleDescriptor true 3 0).length
                + sumLens (keptList sampleModule sampleDescriptor true 3 0) ∧
    ∃ st log, buildLog sampleDescriptor sampleScan (sampleHeap.fresh sampleScan.bufLen)
        = Run.done (st, log) ∧
      build sampleDescriptor sampleScan (sampleHeap.fresh sampleScan.bufLen)
        = Result.buffer st.icoBuf sampleScan.bufLen ∧
      (∀ name len, get_resource sampleModule name RT_GROUP_ICON = some (sampleDescriptor, len) →
        sampleHeap.mallocOk sampleScan.bufLen = true →
        extract_ico_from_module sampleHeap sampleModule name true
          = Result.buffer st.icoBuf sampleScan.bufLen) ∧
      applyStores log (sampleHeap.fresh sampleScan.bufLen) = some st.icoBuf ∧
      st.icoBuf = serialize sampleDescriptor (keptList sampleModule sampleDescriptor true 3 0) ∧
      log = { off := 0,
              bytes := sampleDescriptor.take 4
                ++ le16 (keptList sampleModule sampleDescriptor true 3 0).length } ::
        slotStores sampleDescriptor (keptList sampleModule sampleDescriptor true 3 0) 0
          (6 + 16 * (keptList sampleModule sampleDescriptor true 3 0).length) ∧
      (∀ w ∈ log, w.off + w.bytes.length ≤ sampleScan.bufLen) ∧
      (groups log).flatten = log ∧
      (∀ g ∈ groups log, ∀ x, covers (span g) x = true → fills g x = true) ∧
      (groups log).map span
        = (0, 6) :: slotRegions (keptList sampleModule sampleDescriptor true 3 0) 0
            (6 + 16 * (keptList sampleModule sampleDescriptor true 3 0).length) ∧
      (∀ r ∈ (groups log).map span, r.1 + r.2 ≤ sampleScan.bufLen) ∧
      (∀ x, x < sampleScan.bufLen → hits ((groups log).map span) x = 1) ∧
      (∀ x, sampleScan.bufLen ≤ x → hits ((groups log).map span) x = 0) ∧
      st.imgOffset = sampleScan.bufLen) :=
  ⟨by decide, rfl, sampleModule_mapped, by decide, by decide, by decide,
    C13_writes_tile_buffer sampleHeap sampleModule sampleDescriptor true 3 sampleScan
      (by decide) rfl sampleModule_mapped (by decide) (by decide)⟩

set_option maxRecDepth 20000 in
theorem wrapDescriptor_length : wrapDescriptor.length = 230 := by
  decide

theorem wrapModule_mapped : wrapModule.Mapped := by
  intro name type d l h
  unfold get_resource at h
  simp only [wrapModule] at h
  split_ifs at h with h1 h2
  · simp only [if_true, u32, if_neg (show ¬ (1 : Nat) = 100 by omega),
      show (230 : Nat) % 4294967296 = 230 from rfl,
      show (268435456 : Nat) % 4294967296 = 268435456 from rfl,
      if_neg (show ¬ (230 : Nat) = 0 by omega),
      if_neg (show ¬ (268435456 : Nat) = 0 by omega),
      Option.some.injEq, Prod.mk.injEq] at h
    obtain ⟨rfl, rfl⟩ := h
    rw [wrapDescriptor_length]
  · simp only [if_true, u32, if_neg (show ¬ (1 : Nat) = 100 by omega),
      show (230 : Nat) % 4294967296 = 230 from rfl,
      show (268435456 : Nat) % 4294967296 = 268435456 from rfl,
      if_neg (show ¬ (230 : Nat) = 0 by omega),
      if_neg (show ¬ (268435456 : Nat) = 0 by omega),
      Option.some.injEq, Prod.mk.injEq] at h
    obtain ⟨rfl, rfl⟩ := h
    rw [List.length_replicate]

set_option maxRecDepth 20000 in
theorem wrapModule_descriptorMapped : DescriptorMapped wrapModule 1 := by
  intro header glen h
  have : get_resource wrapModule 1 RT_GROUP_ICON = some (wrapDescriptor, 230) := by decide
  rw [this] at h
  cases h
  exact ⟨16, by decide, by rw [wrapDescriptor_length]⟩

set_option maxRecDepth 20000 in
/-- The extraction from `wrapModule` ends in a store outside the block. -/
theorem wrapModule_fault :
    extract_ico_from_module sampleHeap wrapModule 1 true = Result.fault := by
  have h1 : get_resource wrapModule 1 RT_GROUP_ICON = some (wrapDescriptor, 230) := by decide
  have h2 : load16 wrapDescriptor 4 = some 16 := by decide
  have h3 : extractSpec sampleHeap wrapModule wrapDescriptor true 16 = Result.fault := by decide
  rw [extract_eq, h1]
  simp only [h2]
  exact h3

set_option maxRecDepth 20000 in
/-- C6 fails on the code: `malloc` grants every request, the memory of
`wrapModule` is mapped, its descriptor 1 is found and all sixteen entries it
declares are retained, yet `extract_ico_from_module` returns no container: the
run ends in a store outside the block `malloc` returned. -/
theorem C6_no_container_when_size_wraps :
    (∀ n, sampleHeap.mallocOk n = true) ∧ wrapModule.Mapped ∧
    DescriptorMapped wrapModule 1 ∧
    get_resource wrapModule 1 RT_GROUP_ICON = some (wrapDescriptor, 230) ∧
    load16 wrapDescriptor 4 = some 16 ∧
    (∀ i, i < 16 → retains wrapModule wrapDescriptor true i = true) ∧
    extract_ico_from_module sampleHeap wrapModule 1 true = Result.fault ∧
    (∀ buf len, extract_ico_from_module sampleHeap wrapModule 1 true
      ≠ Result.buffer buf len) := by
  refine ⟨fun _ => rfl, wrapModule_mapped, wrapModule_descriptorMapped, by decide, by decide,
    by decide, wrapModule_fault, ?_⟩
  intro buf len h
  rw [wrapModule_fault] at h
  cases h

set_option maxRecDepth 20000 in
/-- C14 fails on the code: for `wrapModule` the sizing loop retains k = 16 slots
and leaves 262 in `*bufLen`; on the block of 262 bytes the builder loop does not
run to its end with sixteen directory entries written, it ends in a store
outside the block. -/
theorem C14_loop_leaves_block :
    get_resource wrapModule 1 RT_GROUP_ICON = some (wrapDescriptor, 230) ∧
    load16 wrapDescriptor 4 = some 16 ∧
    (keptList wrapModule wrapDescriptor true 16 0).length = 16 ∧
    ∃ s, scan wrapModule wrapDescriptor true 16 = some s ∧ s.imgs = 16 ∧ s.bufLen = 262 ∧
      sampleHeap.mallocOk s.bufLen = true ∧
      build wrapDescriptor s (sampleHeap.fresh s.bufLen) = Result.fault ∧
      buildLog wrapDescriptor s (sampleHeap.fresh s.bufLen) = Run.fault := by
  have h1 : get_resource wrapModule 1 RT_GROUP_ICON = some (wrapDescriptor, 230) := by decide
  have h2 : load16 wrapDescriptor 4 = some 16 := by decide
  have hb : (scan wrapModule wrapDescriptor true 16).map Scan.bufLen = some 262 := by decide
  have hi : (scan wrapModule wrapDescriptor true 16).map Scan.imgs = some 16 := by decide
  refine ⟨h1, h2, by decide, ?_⟩
  cases hs : scan wrapModule wrapDescriptor true 16 with
  | none => rw [hs] at hb; cases hb
  | some s =>
    rw [hs] at hb hi
    simp only [Option.map_some', Option.some.injEq] at hb hi
    have hf := wrapModule_fault
    unfold extract_ico_from_module at hf
    rw [h1] at hf
    simp only [h2, hs, hi] at hf
    have hmal : sampleHeap.mallocOk s.bufLen = true := rfl
    rw [if_neg (by omega), if_pos hmal] at hf
    refine ⟨s, rfl, hi, hb, hmal, hf, ?_⟩
    rw [buildLog_erase] at hf
    cases hr : buildLog wrapDescriptor s (sampleHeap.fresh s.bufLen) with
    | done q => rw [hr] at hf; cases hf
    | fault => rfl
    | timeout => rw [hr] at hf; cases hf

set_option maxRecDepth 20000 in
/-- C15 fails on the code: sixteen entries that all name the icon 1, of 268435456
bytes, are all retained; the exact size is 4294967558, the size accumulated in
`*bufLen` and passed to `malloc` is 262, and the builder leaves the block. -/
theorem C15_bufLen_wraps :
    get_resource wrapModule 1 RT_GROUP_ICON = some (wrapDescriptor, 230) ∧
    load16 wrapDescriptor 4 = some 16 ∧
    (keptList wrapModule wrapDescriptor true 16 0).length = 16 ∧
    6 + 16 * (keptList wrapModule wrapDescriptor true 16 0).length
      + sumLens (keptList wrapModule wrapDescriptor true 16 0) = 4294967558 ∧
    (scan wrapModule wrapDescriptor true 16).map Scan.bufLen = some 262 ∧
    extract_ico_from_module sampleHeap wrapModule 1 true = Result.fault := by
  refine ⟨by decide, by decide, by decide, by decide, by decide, ?_⟩
  have h1 : get_resource wrapModule 1 RT_GROUP_ICON = some (wrapDescriptor, 230) := by decide
  have h2 : load16 wrapDescriptor 4 = some 16 := by decide
  have h3 : extractSpec sampleHeap wrapModule wrapDescriptor true 16 = Result.fault := by decide
  rw [extract_eq, h1]
  simp only [h2]
  exact h3

end GetExeIcon
